import Mathlib

/-!
# Verification of the containers of the DS repository

## The chained hash table

Shallow embedding of `src/HashMap/HashMap.hpp`.

* The record store `std::list<entry> data` is a list of nodes.  Every node carries the
  address it was allocated at (`Node.id`); a list iterator is either the address of a node
  or the past-the-end sentinel.  Addresses are handed out by a counter (`HashMap.next`), so
  an iterator to a removed node never designates a live node again.
* The bucket table `std::vector<chain> table` is a list of pairs (chain start, chain length).
* Undefined behaviour of the C++ program (dereferencing or advancing the past-the-end
  iterator or an iterator to a removed node, `% 0` in `hash`) is the result `fault`.
* `insert` and `rehash` call each other; the embedding bounds the nesting depth of
  `rehash` by a fuel argument, and running out of fuel is the result `timeout`.
* `KeyEqual` is the default `std::equal_to<K>`, i.e. equality of keys; the hasher is an
  arbitrary function `K → Nat`.
* Sizes are natural numbers.  The test `factor > LOAD_FACTOR` on doubles,
  `double(size) / double(buckets) > 0.8`, is embedded as `5 * size > 4 * buckets`; the two
  agree as long as both counts are below `2 ^ 50`.
* Keys and values are mathematical values.  `insert` embeds the call with an lvalue key
  (or a key of a trivially copyable type), where `std::forward` copies and the key is
  intact when it is hashed again after a rehash; `insertMoved` embeds the call with an
  rvalue key that `std::make_pair` moves from.

The binary-heap priority queue of `src/PriorityQueue/PriorityQueue.hpp`, the dynamic array
of `src/Vector/Vector.hpp`, the circular buffers of `src/Deque/Deque.hpp` and
`src/Queue/Queue.hpp`, the doubly linked list of `src/LinkedList/LinkedList.hpp`, the hash
set of `src/HashMap/HashSet.hpp` and the singly linked list of
`src/ForwardLinkedList/ForwardLinkedList.hpp` follow the hash table.  The file has three parts:
the embeddings and the vocabulary of the specification (definitions), lemmas about them,
and one theorem per claim of the specification.
-/

namespace DS

/-- Result of running a piece of the program: a value, undefined behaviour, or the
recursion budget of the embedding is used up. -/
inductive Outcome (α : Type) where
  | ok (a : α)
  | fault
  | timeout
deriving DecidableEq, Repr

/-- Apply a function to the value of a completed run. -/
def Outcome.map {α β : Type} (f : α → β) : Outcome α → Outcome β
  | Outcome.ok a => Outcome.ok (f a)
  | Outcome.fault => Outcome.fault
  | Outcome.timeout => Outcome.timeout

/-- A node of `std::list<std::pair<K, V>>`: its address and the stored pair. -/
structure Node (K V : Type) where
  id : Nat
  key : K
  val : V
deriving DecidableEq, Repr

/-- A `std::list` iterator: the address of a node, or `data.end()`. -/
inductive Iter where
  | node (id : Nat)
  | sentinel
deriving DecidableEq, Repr

section ListModel

variable {K V : Type}

/-- The part of the list that starts at the node an iterator designates; empty for
`end()` and for an iterator that designates no node of the list. -/
def listSeek (data : List (Node K V)) : Iter → List (Node K V)
  | .node a => data.dropWhile (fun nd => nd.id != a)
  | .sentinel => []

/-- The iterator designating the first node of a part of the list (`end()` when empty). -/
def iterOf : List (Node K V) → Iter
  | [] => .sentinel
  | nd :: _ => .node nd.id

/-- `std::list::insert(pos, x)`: link node `nd` before `pos`. -/
def listInsert (data : List (Node K V)) (pos : Iter) (nd : Node K V) :
    Option (List (Node K V)) :=
  match pos with
  | .sentinel => some (data ++ [nd])
  | .node a =>
    match data.dropWhile (fun x => x.id != a) with
    | [] => none
    | x :: rest => some (data.takeWhile (fun x => x.id != a) ++ nd :: x :: rest)

/-- `std::list::erase(pos)`: unlink the node at `pos`, return the list and the iterator
following the removed node. -/
def listErase (data : List (Node K V)) (pos : Iter) : Option (List (Node K V) × Iter) :=
  match pos with
  | .sentinel => none
  | .node a =>
    match data.dropWhile (fun x => x.id != a) with
    | [] => none
    | _ :: rest => some (data.takeWhile (fun x => x.id != a) ++ rest, iterOf rest)

end ListModel

/-- The state of a `HashMap<K, V>`: `data`, the allocation counter, and `table`. -/
structure HashMap (K V : Type) where
  data : List (Node K V)
  next : Nat
  table : List (Iter × Nat)
deriving DecidableEq, Repr

namespace HashMap

variable {K V : Type} [DecidableEq K]

/-- `HashMap::HashMap(bucket_count)`: `table(bucket_count, chain{ data.end(), 0 })`. -/
def construct (bucket_count : Nat) : HashMap K V :=
  { data := [], next := 0, table := List.replicate bucket_count (Iter.sentinel, 0) }

/-- `HashMap::size`. -/
def size (t : HashMap K V) : Nat := t.data.length

/-- `HashMap::empty`. -/
def empty (t : HashMap K V) : Bool := t.size == 0

/-- `HashMap::hash`: `hasher(key) % table.size()`; division by zero is a fault. -/
def hash (hasher : K → Nat) (t : HashMap K V) (key : K) : Option Nat :=
  if t.table.length = 0 then none else some (hasher key % t.table.length)

/-- The loop of `getElementByChain`: `i` iterations left, `iter` the current position. -/
def chainWalk (data : List (Node K V)) (key : K) : Nat → Iter → Option Iter
  | 0, _ => some Iter.sentinel
  | i + 1, iter =>
    match listSeek data iter with
    | [] => none
    | nd :: rest => if nd.key = key then some iter else chainWalk data key i (iterOf rest)

/-- `HashMap::getElementByChain`. -/
def getElementByChain (t : HashMap K V) (chainIdx : Nat) (key : K) : Option Iter :=
  match t.table[chainIdx]? with
  | none => none
  | some (iter, chainSize) =>
    if chainSize = 0 then some Iter.sentinel else chainWalk t.data key chainSize iter

/-- `HashMap::find`. -/
def find (hasher : K → Nat) (t : HashMap K V) (key : K) : Option Iter :=
  if t.table.length = 0 then some Iter.sentinel
  else
    match hash hasher t key with
    | none => none
    | some chainIdx => getElementByChain t chainIdx key

/-- `HashMap::count`: no test for an empty table before `hash`.  (`HashMap::contains`, the
member next to it, has no embedding: its body calls the non-const `end()` and `cend()` on
a const object and compares a `ConstHashMapIterator` with a `HashMapIterator`, so it cannot
be instantiated and has no behaviour.) -/
def count (hasher : K → Nat) (t : HashMap K V) (key : K) : Option Nat :=
  match hash hasher t key with
  | none => none
  | some chainIdx =>
    match getElementByChain t chainIdx key with
    | none => none
    | some foundIt => some (if foundIt ≠ Iter.sentinel then 1 else 0)

/-- Lines 205-219 of `insert`: build the pair, link it at the head of the chain of
bucket `chainIdx`, set `chainInfo.first` and increment `chainInfo.second`. -/
def linkNew (t : HashMap K V) (chainIdx : Nat) (key : K) (value : V) : Option (HashMap K V) :=
  match t.table[chainIdx]? with
  | none => none
  | some chainInfo =>
    let nd : Node K V := { id := t.next, key := key, val := value }
    if chainInfo.2 = 0 then
      some { data := nd :: t.data, next := t.next + 1,
             table := t.table.set chainIdx (Iter.node nd.id, chainInfo.2 + 1) }
    else
      match listInsert t.data chainInfo.1 nd with
      | none => none
      | some data1 =>
        some { data := data1, next := t.next + 1,
               table := t.table.set chainIdx (Iter.node nd.id, chainInfo.2 + 1) }

/-- `HashMap::insert`, with the call of `rehash` as a parameter.  The result is the new
state, the returned iterator and the returned flag. -/
def insertWith (hasher : K → Nat) (rehashFn : Nat → HashMap K V → Outcome (HashMap K V))
    (t : HashMap K V) (key : K) (value : V) : Outcome (HashMap K V × Iter × Bool) :=
  match hash hasher t key with
  | none => Outcome.fault
  | some chainIdx =>
    match getElementByChain t chainIdx key with
    | none => Outcome.fault
    | some foundIter =>
      if foundIter ≠ Iter.sentinel then Outcome.ok (t, foundIter, false)
      else
        match linkNew t chainIdx key value with
        | none => Outcome.fault
        | some t1 =>
          if 5 * t1.size > 4 * t1.table.length then
            match rehashFn (t1.table.length * 2) t1 with
            | Outcome.ok t2 =>
              match hash hasher t2 key with
              | none => Outcome.fault
              | some newChainIdx =>
                match getElementByChain t2 newChainIdx key with
                | none => Outcome.fault
                | some newIter => Outcome.ok (t2, newIter, true)
            | Outcome.fault => Outcome.fault
            | Outcome.timeout => Outcome.timeout
          else Outcome.ok (t1, Iter.node t.next, true)

/-- The second loop of `rehash`: `insert(p.first, p.second)` for every saved element. -/
def rehashLoop (ins : HashMap K V → K → V → Outcome (HashMap K V × Iter × Bool)) :
    List (K × V) → HashMap K V → Outcome (HashMap K V)
  | [], t => Outcome.ok t
  | p :: ps, t =>
    match ins t p.1 p.2 with
    | Outcome.ok r => rehashLoop ins ps r.1
    | Outcome.fault => Outcome.fault
    | Outcome.timeout => Outcome.timeout

/-- `HashMap::rehash(n)`, with the `insert` it calls as a parameter: copy the elements,
clear `data` and `table`, resize `table` to `n` empty chains, re-insert. -/
def rehashWith (ins : HashMap K V → K → V → Outcome (HashMap K V × Iter × Bool))
    (n : Nat) (t : HashMap K V) : Outcome (HashMap K V) :=
  rehashLoop ins (t.data.map (fun nd => (nd.key, nd.val)))
    { data := [], next := t.next, table := List.replicate n (Iter.sentinel, 0) }

/-- `HashMap::insert` where calls of `rehash` may nest at most `fuel` deep. -/
def insertFuel (hasher : K → Nat) :
    Nat → HashMap K V → K → V → Outcome (HashMap K V × Iter × Bool)
  | 0 => insertWith hasher (fun _ _ => Outcome.timeout)
  | fuel + 1 => insertWith hasher (rehashWith (insertFuel hasher fuel))

/-- `HashMap::insert`.  A nesting depth of `size + 1` is never exceeded on a table with
at least one bucket, because every nested `rehash` doubles the bucket count. -/
def insert (hasher : K → Nat) (t : HashMap K V) (key : K) (value : V) :
    Outcome (HashMap K V × Iter × Bool) :=
  insertFuel hasher (t.size + 1) t key value

/-- `HashMap::rehash(n)`. -/
def rehash (hasher : K → Nat) (n : Nat) (t : HashMap K V) : Outcome (HashMap K V) :=
  rehashWith (insertFuel hasher (t.size + 1)) n t

/-- `HashMap::insert` called with an rvalue key of a type whose move construction leaves
the source object holding `moved key` (the null pointer for `std::shared_ptr`, the empty
string for the usual `std::string`).  `hash` and `getElementByChain` take the key by
`const K&`, so lines 200-203 leave it intact; `std::make_pair(std::forward<U>(key), ...)`
in line 205 moves it into the pair; lines 226-227 hash and search the moved-from object.
With `moved` the identity this is `insertWith`. -/
def insertMovedWith (hasher : K → Nat) (moved : K → K)
    (rehashFn : Nat → HashMap K V → Outcome (HashMap K V))
    (t : HashMap K V) (key : K) (value : V) : Outcome (HashMap K V × Iter × Bool) :=
  match hash hasher t key with
  | none => Outcome.fault
  | some chainIdx =>
    match getElementByChain t chainIdx key with
    | none => Outcome.fault
    | some foundIter =>
      if foundIter ≠ Iter.sentinel then Outcome.ok (t, foundIter, false)
      else
        match linkNew t chainIdx key value with
        | none => Outcome.fault
        | some t1 =>
          if 5 * t1.size > 4 * t1.table.length then
            match rehashFn (t1.table.length * 2) t1 with
            | Outcome.ok t2 =>
              match hash hasher t2 (moved key) with
              | none => Outcome.fault
              | some newChainIdx =>
                match getElementByChain t2 newChainIdx (moved key) with
                | none => Outcome.fault
                | some newIter => Outcome.ok (t2, newIter, true)
            | Outcome.fault => Outcome.fault
            | Outcome.timeout => Outcome.timeout
          else Outcome.ok (t1, Iter.node t.next, true)

/-- `HashMap::insert` called with an rvalue key, see `insertMovedWith`; the rehash it
triggers re-inserts lvalues (`insert(p.first, p.second)`), as in `insert`. -/
def insertMoved (hasher : K → Nat) (moved : K → K) (t : HashMap K V) (key : K) (value : V) :
    Outcome (HashMap K V × Iter × Bool) :=
  insertMovedWith hasher moved (rehashWith (insertFuel hasher t.size)) t key value

/-- `HashMap::operator[]`.  The result is the new state and the value the returned
reference designates. -/
def subscript [Inhabited V] (hasher : K → Nat) (t : HashMap K V) (key : K) :
    Outcome (HashMap K V × V) :=
  match hash hasher t key with
  | none => Outcome.fault
  | some chainIdx =>
    match getElementByChain t chainIdx key with
    | none => Outcome.fault
    | some foundIt =>
      if foundIt ≠ Iter.sentinel then
        match listSeek t.data foundIt with
        | [] => Outcome.fault
        | nd :: _ => Outcome.ok (t, nd.val)
      else
        match t.table[chainIdx]? with
        | none => Outcome.fault
        | some chainInfo =>
          let nd : Node K V := { id := t.next, key := key, val := default }
          let linked : Option (HashMap K V) :=
            if chainInfo.2 = 0 then
              some { data := nd :: t.data, next := t.next + 1,
                     table := t.table.set chainIdx (Iter.node nd.id, chainInfo.2) }
            else
              match listInsert t.data foundIt nd with
              | none => none
              | some data1 =>
                some { data := data1, next := t.next + 1,
                       table := t.table.set chainIdx (Iter.node nd.id, chainInfo.2) }
          match linked with
          | none => Outcome.fault
          | some t1 =>
            if 5 * t1.size > 4 * t1.table.length then
              match rehashWith (insertFuel hasher (t1.size + 1)) (t1.table.length * 2) t1 with
              | Outcome.ok t2 =>
                match hash hasher t2 key with
                | none => Outcome.fault
                | some newIdx =>
                  match getElementByChain t2 newIdx key with
                  | none => Outcome.fault
                  | some newIter =>
                    match listSeek t2.data newIter with
                    | [] => Outcome.fault
                    | nd2 :: _ => Outcome.ok (t2, nd2.val)
              | Outcome.fault => Outcome.fault
              | Outcome.timeout => Outcome.timeout
            else Outcome.ok (t1, nd.val)

/-- `HashMap::erase(const K&)`.  The result is the new state and the returned iterator. -/
def erase (hasher : K → Nat) (t : HashMap K V) (key : K) : Option (HashMap K V × Iter) :=
  if t.table.length = 0 then some (t, Iter.sentinel)
  else
    match hash hasher t key with
    | none => none
    | some chainIdx =>
      match getElementByChain t chainIdx key with
      | none => none
      | some foundIt =>
        if foundIt = Iter.sentinel then some (t, Iter.sentinel)
        else
          match t.table[chainIdx]? with
          | none => none
          | some chainInfo =>
            if chainInfo.2 ≠ 0 then
              match listErase t.data foundIt with
              | none => none
              | some (data1, newIter) =>
                some ({ data := data1, next := t.next,
                        table := t.table.set chainIdx (newIter, chainInfo.2 - 1) }, newIter)
            else
              some ({ data := t.data, next := t.next,
                      table := t.table.set chainIdx (chainInfo.1, 2 ^ 64 - 1) }, chainInfo.1)

/-! ### Specification vocabulary -/

/-- The iterator of the first node with the given key (`end()` if there is none). -/
def locate (data : List (Node K V)) (key : K) : Iter :=
  match data.find? (fun nd => decide (nd.key = key)) with
  | some nd => Iter.node nd.id
  | none => Iter.sentinel

/-- Dereferencing an iterator, `*iter`: the stored pair; undefined for `end()` and for an
iterator that designates no node of the list. -/
def deref (data : List (Node K V)) (iter : Iter) : Option (K × V) :=
  match listSeek data iter with
  | [] => none
  | nd :: _ => some (nd.key, nd.val)

/-- The result of looking a key up with `find`: `some none` when `find` returns `end()`,
`some (some v)` when it returns a record with value `v`, `none` when the program faults. -/
def lookup (hasher : K → Nat) (t : HashMap K V) (key : K) : Option (Option V) :=
  match find hasher t key with
  | none => none
  | some iter =>
    if iter = Iter.sentinel then some none
    else (deref t.data iter).map (fun e => some e.2)

/-- The key/value pairs of the record store, in store order. -/
def entries (t : HashMap K V) : List (K × V) := t.data.map (fun nd => (nd.key, nd.val))

/-- A sequence of `insert` calls, first element first. -/
def insertAll (hasher : K → Nat) : List (K × V) → HashMap K V → Outcome (HashMap K V)
  | [], t => Outcome.ok t
  | p :: ps, t =>
    match insert hasher t p.1 p.2 with
    | Outcome.ok r => insertAll hasher ps r.1
    | Outcome.fault => Outcome.fault
    | Outcome.timeout => Outcome.timeout

/-- The calls of the public interface that change a table. -/
inductive Op (K V : Type) where
  | insert (key : K) (value : V)
  | erase (key : K)
  | subscript (key : K)

/-- One call, keeping only the new state. -/
def runOp [Inhabited V] (hasher : K → Nat) (t : HashMap K V) : Op K V → Outcome (HashMap K V)
  | Op.insert key value =>
    match insert hasher t key value with
    | Outcome.ok r => Outcome.ok r.1
    | Outcome.fault => Outcome.fault
    | Outcome.timeout => Outcome.timeout
  | Op.erase key =>
    match erase hasher t key with
    | some r => Outcome.ok r.1
    | none => Outcome.fault
  | Op.subscript key =>
    match subscript hasher t key with
    | Outcome.ok r => Outcome.ok r.1
    | Outcome.fault => Outcome.fault
    | Outcome.timeout => Outcome.timeout

/-- A sequence of calls, first element first. -/
def runOps [Inhabited V] (hasher : K → Nat) : List (Op K V) → HashMap K V → Outcome (HashMap K V)
  | [], t => Outcome.ok t
  | op :: ops, t =>
    match runOp hasher t op with
    | Outcome.ok t1 => runOps hasher ops t1
    | Outcome.fault => Outcome.fault
    | Outcome.timeout => Outcome.timeout

/-- The table invariants of the design: at least one bucket; live nodes have pairwise
different addresses, all below the allocation counter; no two records have equal keys;
and for every bucket `b` the record store splits as `pre ++ run ++ post` where `run` is
the chain of `b` (the `chainLength` records starting at `chainStart`) and consists of
exactly the records whose key hashes to `b`. -/
structure WF (hasher : K → Nat) (t : HashMap K V) : Prop where
  buckets : 1 ≤ t.table.length
  ids : (t.data.map Node.id).Nodup
  fresh : ∀ nd ∈ t.data, nd.id < t.next
  keys : (t.data.map Node.key).Nodup
  chains : ∀ b, b < t.table.length → ∃ pre run post iter,
    t.data = pre ++ (run ++ post) ∧ t.table[b]? = some (iter, run.length) ∧
    (run ≠ [] → iter = iterOf run) ∧
    (∀ nd ∈ run, hasher nd.key % t.table.length = b) ∧
    (∀ nd ∈ pre, hasher nd.key % t.table.length ≠ b) ∧
    (∀ nd ∈ post, hasher nd.key % t.table.length ≠ b)

/-- The load-factor bound `size / bucketCount ≤ 0.8` on a table with at least one bucket. -/
def LoadOk (t : HashMap K V) : Prop := 1 ≤ t.table.length ∧ 5 * t.size ≤ 4 * t.table.length

/-- What a completed `insert(k, v)` on a well-formed table `t` guarantees about its
result `r` (new state, returned iterator, returned flag). -/
structure InsertPost (hasher : K → Nat) (t : HashMap K V) (k : K) (v : V)
    (r : HashMap K V × Iter × Bool) : Prop where
  wf : WF hasher r.1
  iter : r.2.1 = locate r.1.data k
  present : ∃ nd, nd ∈ r.1.data ∧ nd.key = k ∧ r.2.1 = Iter.node nd.id
  flagT : r.2.2 = true → ∀ nd ∈ t.data, nd.key ≠ k
  flagF : r.2.2 = false → r.1 = t ∧ ∃ nd, nd ∈ t.data ∧ nd.key = k
  perm : r.2.2 = true → (entries r.1).Perm ((k, v) :: entries t)
  bucketsGe : t.table.length ≤ r.1.table.length
  bucketsSame : 5 * (t.size + 1) ≤ 4 * t.table.length → r.1.table.length = t.table.length
  bucketsTwice : r.2.2 = true → 4 * t.table.length < 5 * (t.size + 1) →
    5 * (t.size + 1) ≤ 8 * t.table.length → r.1.table.length = 2 * t.table.length

/-- What a completed `rehash` of the elements of `t1` guarantees about its result `t2`,
for a requested bucket count `m`. -/
structure RehashPost (hasher : K → Nat) (m : Nat) (t1 t2 : HashMap K V) : Prop where
  wf : WF hasher t2
  perm : (entries t2).Perm (entries t1)
  bucketsGe : m ≤ t2.table.length
  bucketsSame : 5 * t1.size ≤ 4 * m → t2.table.length = m

/-! ### Concrete tables used in the examples (keys and values are numbers, the hasher is
the identity, 16 buckets) -/

/-- The table after `insert(0, 100)`, `insert(16, 116)`, `insert(32, 132)`: the three keys
share bucket 0. -/
def afterInserts3 : HashMap Nat Nat :=
  { data := [⟨2, 32, 132⟩, ⟨1, 16, 116⟩, ⟨0, 0, 100⟩], next := 3,
    table := (Iter.node 2, 3) :: List.replicate 15 (Iter.sentinel, 0) }

/-- The state `erase(16)` leaves behind on `afterInserts3`. -/
def afterErase16 : HashMap Nat Nat :=
  { data := [⟨2, 32, 132⟩, ⟨0, 0, 100⟩], next := 3,
    table := (Iter.node 0, 2) :: List.replicate 15 (Iter.sentinel, 0) }

/-- The table after `insert(1, 101)`, `insert(0, 100)`, `insert(16, 116)`,
`insert(32, 132)`: the chain of bucket 0 is followed by the chain of bucket 1. -/
def afterInserts4 : HashMap Nat Nat :=
  { data := [⟨3, 32, 132⟩, ⟨2, 16, 116⟩, ⟨1, 0, 100⟩, ⟨0, 1, 101⟩], next := 4,
    table := (Iter.node 3, 3) :: (Iter.node 0, 1) :: List.replicate 14 (Iter.sentinel, 0) }

/-- The state `erase(16)` leaves behind on `afterInserts4`. -/
def afterErase16b : HashMap Nat Nat :=
  { data := [⟨3, 32, 132⟩, ⟨1, 0, 100⟩, ⟨0, 1, 101⟩], next := 4,
    table := (Iter.node 1, 2) :: (Iter.node 0, 1) :: List.replicate 14 (Iter.sentinel, 0) }

/-- The state `operator[](0)` leaves behind on a fresh table with 16 buckets. -/
def afterSubscript0 : HashMap Nat Nat :=
  { data := [⟨0, 0, 0⟩], next := 1,
    table := (Iter.node 0, 0) :: List.replicate 15 (Iter.sentinel, 0) }

/-- The state a second `operator[](0)` leaves behind on `afterSubscript0`. -/
def afterSubscript0Twice : HashMap Nat Nat :=
  { data := [⟨1, 0, 0⟩, ⟨0, 0, 0⟩], next := 2,
    table := (Iter.node 1, 0) :: List.replicate 15 (Iter.sentinel, 0) }

/-- The table after `insert(0, 100)` on a fresh table. -/
def afterInsert0 : HashMap Nat Nat :=
  { data := [⟨0, 0, 100⟩], next := 1,
    table := (Iter.node 0, 1) :: List.replicate 15 (Iter.sentinel, 0) }

/-- The state `operator[](16)` leaves behind on `afterInsert0`. -/
def afterSubscript16 : HashMap Nat Nat :=
  { data := [⟨0, 0, 100⟩, ⟨1, 16, 0⟩], next := 2,
    table := (Iter.node 1, 1) :: List.replicate 15 (Iter.sentinel, 0) }

/-- The state `insert(32, 7)` leaves behind on `afterErase16b`: two records with key 32. -/
def afterReinsert32 : HashMap Nat Nat :=
  { data := [⟨3, 32, 132⟩, ⟨4, 32, 7⟩, ⟨1, 0, 100⟩, ⟨0, 1, 101⟩], next := 5,
    table := (Iter.node 4, 3) :: (Iter.node 0, 1) :: List.replicate 14 (Iter.sentinel, 0) }

/-- The state `insert(7, 70)` leaves behind on a fresh table with one bucket: the insert
rehashes to two buckets. -/
def afterInsert7 : HashMap Nat Nat :=
  { data := [⟨1, 7, 70⟩], next := 2, table := [(Iter.sentinel, 0), (Iter.node 1, 1)] }

/-- The thirteen inserts of the example in the specification: keys 1 to 13. -/
def thirteen : List (Nat × Nat) := (List.range 13).map (fun i => (i + 1, 100 + i))

end HashMap

/-! ## The binary-heap priority queue

Shallow embedding of `src/PriorityQueue/PriorityQueue.hpp`.  The container is the default
`std::vector<T>`, a list; `Compare` is a parameter `compare : T → T → Bool`.  Indexing the
vector outside its bounds is `fault`.  The recursions of `sift_up` and `sift_down` are
bounded by a fuel argument, `timeout` when it runs out; `sift_up` and `sift_down` start
them with the fuel the index allows.  The `int` indices are natural numbers (sizes stay
below `2 ^ 31`). -/

/-- The state of a `PriorityQueue<T>`: its `container`. -/
structure PriorityQueue (T : Type) where
  container : List T
deriving DecidableEq, Repr

namespace PriorityQueue

variable {T : Type}

/-- `PriorityQueue::size`. -/
def size (q : PriorityQueue T) : Nat := q.container.length

/-- `PriorityQueue::empty`. -/
def empty (q : PriorityQueue T) : Bool := q.size == 0

/-- `std::swap(container[i], container[j])`. -/
def swapAt (cs : List T) (i j : Nat) : Option (List T) :=
  match cs[i]?, cs[j]? with
  | some a, some b => some ((cs.set i b).set j a)
  | _, _ => none

/-- `PriorityQueue::sift_up(index)` with at most `fuel` recursive calls. -/
def sift_upFuel (compare : T → T → Bool) : Nat → List T → Nat → Outcome (List T)
  | 0, cs, index => if index ≠ 0 then Outcome.timeout else Outcome.ok cs
  | fuel + 1, cs, index =>
    if index ≠ 0 then
      match cs[(index - 1) / 2]?, cs[index]? with
      | some p, some x =>
        if compare p x then
          sift_upFuel compare fuel ((cs.set ((index - 1) / 2) x).set index p) ((index - 1) / 2)
        else Outcome.ok cs
      | _, _ => Outcome.fault
    else Outcome.ok cs

/-- `PriorityQueue::sift_up(index)`: the parent index is smaller than the index, so
`index` recursive calls are enough. -/
def sift_up (compare : T → T → Bool) (cs : List T) (index : Nat) : Outcome (List T) :=
  sift_upFuel compare index cs index

/-- One test of `sift_down`: `if (cand < n && compare(container[index], container[cand]))
index = cand;`, the result is the new value of `index`. -/
def pick (compare : T → T → Bool) (cs : List T) (index cand : Nat) : Option Nat :=
  if cand < cs.length then
    match cs[index]?, cs[cand]? with
    | some a, some b => some (if compare a b then cand else index)
    | _, _ => none
  else some index

/-- `PriorityQueue::sift_down(idx)` with at most `fuel` recursive calls. -/
def sift_downFuel (compare : T → T → Bool) : Nat → List T → Nat → Outcome (List T)
  | 0, cs, idx => if 2 * idx + 1 < cs.length then Outcome.timeout else Outcome.ok cs
  | fuel + 1, cs, idx =>
    match pick compare cs idx (2 * idx + 1) with
    | none => Outcome.fault
    | some index1 =>
      match pick compare cs index1 (2 * idx + 2) with
      | none => Outcome.fault
      | some index =>
        if index ≠ idx then
          match swapAt cs index idx with
          | none => Outcome.fault
          | some cs1 => sift_downFuel compare fuel cs1 index
        else Outcome.ok cs

/-- `PriorityQueue::sift_down(idx)`: every recursive call is on a larger index below the
size, so `size - idx` recursive calls are enough. -/
def sift_down (compare : T → T → Bool) (cs : List T) (idx : Nat) : Outcome (List T) :=
  sift_downFuel compare (cs.length - idx) cs idx

/-- `PriorityQueue::push`. -/
def push (compare : T → T → Bool) (q : PriorityQueue T) (val : T) :
    Outcome (PriorityQueue T) :=
  (sift_up compare (q.container ++ [val]) ((q.container ++ [val]).length - 1)).map
    PriorityQueue.mk

/-- `PriorityQueue::pop`. -/
def pop (compare : T → T → Bool) (q : PriorityQueue T) : Outcome (PriorityQueue T) :=
  if q.empty then Outcome.ok q
  else
    match swapAt q.container 0 (q.container.length - 1) with
    | none => Outcome.fault
    | some cs1 =>
      if (PriorityQueue.mk cs1.dropLast).empty then Outcome.ok (PriorityQueue.mk cs1.dropLast)
      else (sift_down compare cs1.dropLast 0).map PriorityQueue.mk

/-- `PriorityQueue::top`: `container.front()`, undefined on an empty queue. -/
def top (q : PriorityQueue T) : Option T := q.container.head?

/-! ### Specification vocabulary -/

/-- The calls that change a queue. -/
inductive Op (T : Type) where
  | push (val : T)
  | pop

/-- One call. -/
def runOp (compare : T → T → Bool) (q : PriorityQueue T) : Op T → Outcome (PriorityQueue T)
  | Op.push val => push compare q val
  | Op.pop => pop compare q

/-- A sequence of calls, first element first. -/
def runOps (compare : T → T → Bool) :
    List (Op T) → PriorityQueue T → Outcome (PriorityQueue T)
  | [], q => Outcome.ok q
  | op :: ops, q =>
    match runOp compare q op with
    | Outcome.ok q1 => runOps compare ops q1
    | Outcome.fault => Outcome.fault
    | Outcome.timeout => Outcome.timeout

/-- The comparator is a strict weak order: irreflexive, transitive, and incomparability
is transitive. -/
structure StrictWeakOrder (compare : T → T → Bool) : Prop where
  irrefl : ∀ x, compare x x = false
  trans : ∀ x y z, compare x y = true → compare y z = true → compare x z = true
  incomp_trans : ∀ x y z, compare x y = false → compare y x = false →
    compare y z = false → compare z y = false → compare x z = false ∧ compare z x = false

/-- The array is a binary max-heap: no element is smaller than the element at index
`i ≥ 1` when it sits at the parent index `(i - 1) / 2`. -/
def IsHeap (compare : T → T → Bool) (cs : List T) : Prop :=
  ∀ i a b, 1 ≤ i → cs[(i - 1) / 2]? = some a → cs[i]? = some b → compare a b = false

/-- The heap invariant with the pair (parent of `i`, `i`) left out, as `sift_up(i)` finds it:
every other parent/child pair is in order, and the children of `i` are in order with the
parent of `i`. -/
def HeapExceptUp (compare : T → T → Bool) (cs : List T) (i : Nat) : Prop :=
  (∀ j a b, 1 ≤ j → j ≠ i → cs[(j - 1) / 2]? = some a → cs[j]? = some b →
    compare a b = false) ∧
  (∀ j a b, 1 ≤ i → (j - 1) / 2 = i → 1 ≤ j → cs[(i - 1) / 2]? = some a → cs[j]? = some b →
    compare a b = false)

/-- The heap invariant with the pairs (`i`, child of `i`) left out, as `sift_down(i)` finds
it: every other parent/child pair is in order, and the children of `i` are in order with the
parent of `i`. -/
def HeapExceptDown (compare : T → T → Bool) (cs : List T) (i : Nat) : Prop :=
  (∀ j a b, 1 ≤ j → (j - 1) / 2 ≠ i → cs[(j - 1) / 2]? = some a → cs[j]? = some b →
    compare a b = false) ∧
  (∀ j a b, 1 ≤ i → (j - 1) / 2 = i → 1 ≤ j → cs[(i - 1) / 2]? = some a → cs[j]? = some b →
    compare a b = false)

/-- The default comparator `std::less` on numbers. -/
def natLess (a b : Nat) : Bool := decide (a < b)

end PriorityQueue

/-! ## Raw storage

The arrays obtained from `allocator.allocate(n)` are lists of `n` slots; a slot holds
`some x` when an object with value `x` lives in it and `none` when it is raw storage. -/

section Storage

variable {T : Type}

/-- Reading the object in slot `i`. -/
def readSlot (data : List (Option T)) (i : Nat) : Option T :=
  match data[i]? with
  | some (some x) => some x
  | _ => none

/-- Storing into slot `i` (construction, assignment or destruction of the object). -/
def writeSlot (data : List (Option T)) (i : Nat) (x : Option T) : Option (List (Option T)) :=
  if i < data.length then some (data.set i x) else none

/-- `AllocatorT::destroy(allocator, &data[i])` on a slot that must hold an object. -/
def destroySlot (data : List (Option T)) (i : Nat) : Option (List (Option T)) :=
  match data[i]? with
  | some (some _) => some (data.set i none)
  | _ => none

end Storage

/-! ## The dynamic array

Shallow embedding of `src/Vector/Vector.hpp`.  The storage `data` is a list of slots, one
per allocated element; a slot holds `some x` when an object with value `x` lives in it and
`none` when it is raw storage.  Every allocation has an identity (`buf`), an iterator is a
pointer: the identity of the allocation it points into and an offset.  Reading a slot
without an object, reading or writing outside the allocation, and subtracting pointers into
different allocations are `none` (undefined behaviour).  Values are copied, so a slot that
was moved from keeps its value. -/

/-- A `VectorIterator<T>`: a pointer into the allocation `buf` at offset `idx`. -/
structure VectorIterator where
  buf : Nat
  idx : Nat
deriving DecidableEq, Repr

/-- The state of a `Vector<T>`: the allocation `data` points to (its identity and its
slots), `size`, `capacity`, and the allocation counter. -/
structure Vector (T : Type) where
  buf : Nat
  data : List (Option T)
  size : Nat
  capacity : Nat
  nextBuf : Nat
deriving DecidableEq, Repr

namespace Vector

variable {T : Type}

/-- `Vector::Vector()`: `data(nullptr), size(0), capacity(0)`. -/
def construct : Vector T :=
  { buf := 0, data := [], size := 0, capacity := 0, nextBuf := 1 }

/-- `Vector::begin`. -/
def begin (v : Vector T) : VectorIterator := { buf := v.buf, idx := 0 }

/-- `Vector::end`: `Iterator(data + size)`. -/
def endIt (v : Vector T) : VectorIterator := { buf := v.buf, idx := v.size }

/-- `VectorIterator::operator+`. -/
def iterAdd (pos : VectorIterator) (offset : Nat) : VectorIterator :=
  { buf := pos.buf, idx := pos.idx + offset }

/-- `VectorIterator::operator-(const VectorIterator&)`: `ptr - other.ptr`. -/
def iterDiff (pos other : VectorIterator) : Option Int :=
  if pos.buf = other.buf then some ((pos.idx : Int) - (other.idx : Int)) else none

/-- `Vector::getSize`. -/
def getSize (v : Vector T) : Nat := v.size

/-- `Vector::operator[]`: `data[idx]`. -/
def get (v : Vector T) (idx : Nat) : Option T := readSlot v.data idx

/-- `Vector::calculateCapacity`. -/
def calculateCapacity (v : Vector T) (shouldEnlarge : Bool) : Nat :=
  if shouldEnlarge then (if v.capacity ≠ 0 then v.capacity * 2 else 1)
  else (if v.capacity ≠ 0 then v.capacity / 2 else 1)

/-- The loop of `resize`: `construct(&newData[i], std::move(data[i]))` for `i` from `i` up
to `size - 1`; `count` is the number of iterations left. -/
def resizeLoop (data : List (Option T)) : Nat → Nat → List (Option T) →
    Option (List (Option T))
  | 0, _, newData => some newData
  | count + 1, i, newData =>
    match readSlot data i with
    | none => none
    | some x =>
      match writeSlot newData i (some x) with
      | none => none
      | some newData1 => resizeLoop data count (i + 1) newData1

/-- `Vector::resize(n)`. -/
def resize (v : Vector T) (n : Nat) : Option (Vector T) :=
  let n1 := if n = 0 then 1 else n
  match resizeLoop v.data v.size 0 (List.replicate n1 none) with
  | none => none
  | some newData =>
    some { buf := v.nextBuf, data := newData, size := v.size, capacity := n1,
           nextBuf := v.nextBuf + 1 }

/-- `Vector::emplace_back` with one argument, the value to store. -/
def emplace_back (v : Vector T) (val : T) : Option (Vector T) :=
  match (if v.size ≥ v.capacity then resize v (calculateCapacity v true) else some v) with
  | none => none
  | some v1 =>
    match writeSlot v1.data v1.size (some val) with
    | none => none
    | some data1 => some { v1 with data := data1, size := v1.size + 1 }

/-- `std::move_backward(first, last, d_last)` on the storage: `count` times
`*(--d_last) = std::move(*(--last))`; `last` and `dLast` are offsets. -/
def moveBackward (data : List (Option T)) : Nat → Nat → Nat → Option (List (Option T))
  | 0, _, _ => some data
  | count + 1, last, dLast =>
    if last = 0 ∨ dLast = 0 then none
    else
      match readSlot data (last - 1) with
      | none => none
      | some x =>
        match writeSlot data (dLast - 1) (some x) with
        | none => none
        | some data1 => moveBackward data1 count (last - 1) (dLast - 1)

/-- `std::move(first, last, d_first)` on the storage: `count` times
`*d_first++ = std::move(*first++)`; `first` and `dFirst` are offsets. -/
def moveForward (data : List (Option T)) : Nat → Nat → Nat → Option (List (Option T))
  | 0, _, _ => some data
  | count + 1, first, dFirst =>
    match readSlot data first with
    | none => none
    | some x =>
      match writeSlot data dFirst (some x) with
      | none => none
      | some data1 => moveForward data1 count (first + 1) (dFirst + 1)

/-- `Vector::insert(const Iterator& pos, const T& val)`. -/
def insert (v : Vector T) (pos : VectorIterator) (val : T) : Option (Vector T) :=
  match (if v.size ≥ v.capacity then resize v (calculateCapacity v true) else some v) with
  | none => none
  | some v1 =>
    match iterDiff pos v1.begin with
    | none => none
    | some d =>
      if d < 0 then none
      else
        let idx := d.toNat
        let moved : Option (List (Option T)) :=
          if pos ≠ v1.endIt then
            (if v1.size = 0 ∨ v1.size - 1 < idx then none
             else moveBackward v1.data (v1.size - 1 - idx) (v1.size - 1) v1.size)
          else some v1.data
        match moved with
        | none => none
        | some data1 =>
          match writeSlot data1 idx none with
          | none => none
          | some data2 =>
            match writeSlot data2 idx (some val) with
            | none => none
            | some data3 => some { v1 with data := data3, size := v1.size + 1 }

/-- The loop of `erase`: `destroy(&data[i])` for `count` slots from `i` on. -/
def destroyLoop (data : List (Option T)) : Nat → Nat → Option (List (Option T))
  | 0, _ => some data
  | count + 1, i =>
    match writeSlot data i none with
    | none => none
    | some data1 => destroyLoop data1 count (i + 1)

/-- `Vector::erase(const Iterator& first, const Iterator& last)`. -/
def eraseRange (v : Vector T) (first last : VectorIterator) : Option (Vector T) :=
  match iterDiff last first, iterDiff first v.begin, iterDiff last v.begin with
  | some range, some startIdx, some endIdx =>
    if range ≤ 0 then some v
    else if startIdx < 0 ∨ endIdx < 0 ∨ (v.size : Int) < endIdx then none
    else
      let moved : Option (List (Option T)) :=
        if last ≠ v.endIt then
          moveForward v.data (v.size - endIdx.toNat) endIdx.toNat startIdx.toNat
        else some v.data
      match moved with
      | none => none
      | some data1 =>
        match destroyLoop data1 range.toNat (v.size - range.toNat) with
        | none => none
        | some data2 => some { v with data := data2, size := v.size - range.toNat }
  | _, _, _ => none

/-- `Vector::erase(const Iterator& pos)`: `erase(pos, pos + 1)`. -/
def erase (v : Vector T) (pos : VectorIterator) : Option (Vector T) :=
  eraseRange v pos (iterAdd pos 1)

/-! ### Specification vocabulary -/

/-- The elements of the vector: the contents of the first `size` slots. -/
def elems (v : Vector T) : List (Option T) := v.data.take v.size

/-- The vector holds exactly the elements `es`: the first `size` slots hold objects with
these values, and `size` does not exceed the allocation. -/
def Holds (v : Vector T) (es : List T) : Prop :=
  v.size = es.length ∧ v.size ≤ v.data.length ∧ v.elems = es.map some

/-- The vector `[1, 2, 3]` built by three `emplace_back` calls (capacity 4). -/
def abc : Vector Nat :=
  { buf := 3, data := [some 1, some 2, some 3, none], size := 3, capacity := 4, nextBuf := 4 }

end Vector

/-! ## The circular-buffer deque and queue

Shallow embeddings of `src/Deque/Deque.hpp` and `src/Queue/Queue.hpp`.  The buffer is a
list of `capacity` slots.  Reading or destroying a slot without an object, an access
outside the buffer and `% capacity` with `capacity = 0` are `none` (undefined behaviour);
so is assigning to a slot without an object when the assignment operator of the element
type needs one, and reading through a reference to an element of a buffer that `resize`
has deallocated.  Indices and sizes are natural numbers. -/

/-- The state of a `Deque<T>`. -/
structure Deque (T : Type) where
  data : List (Option T)
  size : Nat
  capacity : Nat
  head : Nat
  tail : Nat
deriving DecidableEq, Repr

namespace Deque

variable {T : Type}

/-- `Deque::Deque()`. -/
def construct : Deque T := { data := [], size := 0, capacity := 0, head := 0, tail := 0 }

/-- `Deque::getSize`. -/
def getSize (d : Deque T) : Nat := d.size

/-- `Deque::isEmpty`. -/
def isEmpty (d : Deque T) : Bool := d.size == 0

/-- `Deque::moveIndex(index, forward)`: the new value of `index`. -/
def moveIndex (d : Deque T) (index : Nat) (forward : Bool) : Nat :=
  if d.capacity = 0 then index
  else if forward then (index + 1) % d.capacity
  else (if index = 0 then d.capacity - 1 else index - 1)

/-- `Deque::calculateCapacity`. -/
def calculateCapacity (d : Deque T) : Nat := if d.capacity ≠ 0 then d.capacity * 2 else 1

/-- `Deque::operator[]`: `data[(head + idx) % capacity]`. -/
def get (d : Deque T) (idx : Nat) : Option T :=
  if d.capacity = 0 then none else readSlot d.data ((d.head + idx) % d.capacity)

/-- `Deque::front`: `data[head]`. -/
def front (d : Deque T) : Option T := readSlot d.data d.head

/-- `Deque::back`: `data[(tail == 0 ? capacity : tail) - 1]`. -/
def back (d : Deque T) : Option T :=
  let t := if d.tail = 0 then d.capacity else d.tail
  if t = 0 then none else readSlot d.data (t - 1)

/-- The loop of `resize`: for `i` from `i` on, `count` times, move `data[(head + i) %
capacity]` into `newData[i]` and destroy the source.  Returns the old and the new buffer. -/
def resizeLoop (head capacity : Nat) :
    Nat → Nat → List (Option T) → List (Option T) → Option (List (Option T) × List (Option T))
  | 0, _, data, newData => some (data, newData)
  | count + 1, i, data, newData =>
    if capacity = 0 then none
    else
      match readSlot data ((head + i) % capacity) with
      | none => none
      | some x =>
        match writeSlot newData i (some x) with
        | none => none
        | some newData1 =>
          match destroySlot data ((head + i) % capacity) with
          | none => none
          | some data1 => resizeLoop head capacity count (i + 1) data1 newData1

/-- `Deque::resize(n)`. -/
def resize (d : Deque T) (n : Nat) : Option (Deque T) :=
  let n1 := if n = 0 then calculateCapacity d else n
  match resizeLoop d.head d.capacity (min n1 d.size) 0 d.data (List.replicate n1 none) with
  | none => none
  | some r => some { data := r.2, size := d.size, capacity := n1, head := 0, tail := d.size }

/-- What the parameter `const T& val` of `push_back` and `push_front` is bound to: an
object outside the buffer of the deque, or the element in slot `slot` of the buffer (the
reference that `front()`, `back()` and `operator[]` return). -/
inductive Ref (T : Type) where
  | object (val : T)
  | element (slot : Nat)
deriving DecidableEq, Repr

/-- Reading through a reference, with `data` the buffer of the deque.  `resized` tells that
`resize` has run since the reference was bound: it has destroyed the elements of the old
buffer and deallocated it, so a reference to one of them dangles and reading it is
undefined. -/
def readRef (data : List (Option T)) (resized : Bool) : Ref T → Option T
  | Ref.object val => some val
  | Ref.element slot => if resized then none else readSlot data slot

/-- `Deque::push_back(const T&)`: `val` is read by `construct`, after the `resize`. -/
def push_back (d : Deque T) (val : Ref T) : Option (Deque T) :=
  match (if d.size ≥ d.capacity then resize d (calculateCapacity d) else some d) with
  | none => none
  | some d1 =>
    match readRef d1.data (decide (d.size ≥ d.capacity)) val with
    | none => none
    | some x =>
      match writeSlot d1.data d1.tail (some x) with
      | none => none
      | some data1 =>
        some { d1 with data := data1, tail := moveIndex d1 d1.tail true, size := d1.size + 1 }

/-- `Deque::pop_back`. -/
def pop_back (d : Deque T) : Option (Deque T) :=
  if d.isEmpty then some d
  else
    match destroySlot d.data (moveIndex d d.tail false) with
    | none => none
    | some data1 =>
      some { d with data := data1, tail := moveIndex d d.tail false, size := d.size - 1 }

/-- `Deque::push_front(const T&)`: `val` is read by `construct`, after the `resize`. -/
def push_front (d : Deque T) (val : Ref T) : Option (Deque T) :=
  match (if d.size ≥ d.capacity then resize d (calculateCapacity d) else some d) with
  | none => none
  | some d1 =>
    match readRef d1.data (decide (d.size ≥ d.capacity)) val with
    | none => none
    | some x =>
      match writeSlot d1.data (moveIndex d1 d1.head false) (some x) with
      | none => none
      | some data1 =>
        some { d1 with data := data1, head := moveIndex d1 d1.head false,
                       size := d1.size + 1 }

/-- `Deque::pop_front`. -/
def pop_front (d : Deque T) : Option (Deque T) :=
  if d.isEmpty then some d
  else
    match destroySlot d.data d.head with
    | none => none
    | some data1 =>
      some { d with data := data1, head := moveIndex d d.head true, size := d.size - 1 }

/-! ### Specification vocabulary -/

/-- The four calls that change a deque, the pushes with an argument that is an object
outside the deque. -/
inductive Op (T : Type) where
  | push_back (val : T)
  | push_front (val : T)
  | pop_back
  | pop_front
deriving DecidableEq, Repr

/-- One call on the deque. -/
def runOp (d : Deque T) : Op T → Option (Deque T)
  | Op.push_back val => push_back d (Ref.object val)
  | Op.push_front val => push_front d (Ref.object val)
  | Op.pop_back => pop_back d
  | Op.pop_front => pop_front d

/-- A sequence of calls, first element first. -/
def runOps : List (Op T) → Deque T → Option (Deque T)
  | [], d => some d
  | op :: ops, d =>
    match runOp d op with
    | none => none
    | some d1 => runOps ops d1

/-- One call on the plain list model of the specification: `push_back` appends,
`push_front` prepends, `pop_back` and `pop_front` drop the last and the first element
and leave the empty list as it is. -/
def specOp (m : List T) : Op T → List T
  | Op.push_back val => m ++ [val]
  | Op.push_front val => val :: m
  | Op.pop_back => m.dropLast
  | Op.pop_front => m.tail

/-- A sequence of calls on the list model, first element first. -/
def specOps : List (Op T) → List T → List T
  | [], m => m
  | op :: ops, m => specOps ops (specOp m op)

end Deque

/-- The circular buffer `data` of `capacity` slots holds the elements of `m`, in order,
in the slots `start, start + 1, ...` taken modulo `capacity`. -/
def RingRep {T : Type} (data : List (Option T)) (capacity start : Nat) (m : List T) : Prop :=
  data.length = capacity ∧ m.length ≤ capacity ∧ (0 < capacity → start < capacity) ∧
  (capacity = 0 → start = 0) ∧
  ∀ i, i < m.length → data[(start + i) % capacity]? = some m[i]?

/-- The state of a `Queue<T>`. -/
structure Queue (T : Type) where
  data : List (Option T)
  size : Nat
  capacity : Nat
  get : Nat
  put : Nat
deriving DecidableEq, Repr

namespace Queue

variable {T : Type}

/-- `Queue::Queue()`. -/
def construct : Queue T := { data := [], size := 0, capacity := 0, get := 0, put := 0 }

/-- `Queue::getSize`. -/
def getSize (q : Queue T) : Nat := q.size

/-- `Queue::isEmpty`. -/
def isEmpty (q : Queue T) : Bool := q.size == 0

/-- `Queue::calculateCapacity`. -/
def calculateCapacity (q : Queue T) : Nat := if q.capacity ≠ 0 then q.capacity * 2 else 1

/-- `Queue::front`: `data[get]`. -/
def front (q : Queue T) : Option T := readSlot q.data q.get

/-- The loop of `resize`: `count` times, move `data[get]` into `newData[i]` and advance
`get` by `(++get) %= capacity`. -/
def resizeLoop (data : List (Option T)) (capacity : Nat) :
    Nat → Nat → Nat → List (Option T) → Option (List (Option T))
  | 0, _, _, newData => some newData
  | count + 1, i, get, newData =>
    match readSlot data get with
    | none => none
    | some x =>
      match writeSlot newData i (some x) with
      | none => none
      | some newData1 =>
        if capacity = 0 then none
        else resizeLoop data capacity count (i + 1) ((get + 1) % capacity) newData1

/-- `Queue::resize(n)`. -/
def resize (q : Queue T) (n : Nat) : Option (Queue T) :=
  match resizeLoop q.data q.capacity q.size 0 q.get (List.replicate n none) with
  | none => none
  | some newData => some { data := newData, size := q.size, capacity := n, get := 0, put := q.size }

/-- The copy assignment `data[i] = val`.  `needsObject` says whether the assignment
operator of the element type works on the object it assigns to (it releases what that
object holds, as for `std::string`), so that the slot has to hold a constructed object;
for a type like `int` it does not, and the value is stored into the slot as it is. -/
def assignSlot (needsObject : Bool) (data : List (Option T)) (i : Nat) (val : T) :
    Option (List (Option T)) :=
  match data[i]? with
  | none => none
  | some none => if needsObject then none else some (data.set i (some val))
  | some (some _) => some (data.set i (some val))

/-- `Queue::push(const T&)`: the new element is stored by the assignment
`data[put] = val`. -/
def push (needsObject : Bool) (q : Queue T) (val : T) : Option (Queue T) :=
  match (if q.size ≥ q.capacity then resize q (calculateCapacity q) else some q) with
  | none => none
  | some q1 =>
    match assignSlot needsObject q1.data q1.put val with
    | none => none
    | some data1 =>
      if q1.capacity = 0 then none
      else some { q1 with data := data1, put := (q1.put + 1) % q1.capacity, size := q1.size + 1 }

/-- `Queue::pop`. -/
def pop (q : Queue T) : Option (Queue T) :=
  if q.isEmpty then some q
  else
    match destroySlot q.data q.get with
    | none => none
    | some data1 =>
      if q.capacity = 0 then none
      else some { q with data := data1, get := (q.get + 1) % q.capacity, size := q.size - 1 }

/-! ### Specification vocabulary -/

/-- The two calls that change a queue. -/
inductive Op (T : Type) where
  | push (val : T)
  | pop
deriving DecidableEq, Repr

/-- One call on the queue. -/
def runOp (needsObject : Bool) (q : Queue T) : Op T → Option (Queue T)
  | Op.push val => push needsObject q val
  | Op.pop => pop q

/-- A sequence of calls, first element first. -/
def runOps (needsObject : Bool) : List (Op T) → Queue T → Option (Queue T)
  | [], q => some q
  | op :: ops, q =>
    match runOp needsObject q op with
    | none => none
    | some q1 => runOps needsObject ops q1

/-- One call on the FIFO list model of the specification: `push` appends, `pop` drops
the first element and leaves the empty list as it is. -/
def specOp (m : List T) : Op T → List T
  | Op.push val => m ++ [val]
  | Op.pop => m.tail

/-- A sequence of calls on the list model, first element first. -/
def specOps : List (Op T) → List T → List T
  | [], m => m
  | op :: ops, m => specOps ops (specOp m op)

end Queue

/-- The deque `d` represents the list `m`: the buffer holds the elements of `m` from
`head` on, and `tail` is the slot after the last one. -/
def Deque.Rep {T : Type} (d : Deque T) (m : List T) : Prop :=
  d.size = m.length ∧ RingRep d.data d.capacity d.head m ∧
  d.tail = (d.head + d.size) % d.capacity

/-- The queue `q` represents the list `m`: the buffer holds the elements of `m` from
`get` on, and `put` is the slot after the last one. -/
def Queue.Rep {T : Type} (q : Queue T) (m : List T) : Prop :=
  q.size = m.length ∧ RingRep q.data q.capacity q.get m ∧
  q.put = (q.get + q.size) % q.capacity

/-! ## The doubly linked list

Shallow embedding of `src/LinkedList/LinkedList.hpp` at the level of pointers.  The memory
holding the nodes is a list of slots indexed by address: `allocator.allocate(1)` returns
the next unused address, `deleteNode` empties the slot.  A pointer is `some address` or
`none` (`nullptr`); an iterator is its `ptr`.  Access through `nullptr` or to a deleted
node is `none` (undefined behaviour). -/

/-- A `Node<T>`: `val`, `prev`, `next`. -/
structure LinkedList.Node (T : Type) where
  val : T
  prev : Option Nat
  next : Option Nat
deriving DecidableEq, Repr

/-- The state of a `LinkedList<T>`: `head`, `tail`, `size`, and the memory of its nodes. -/
structure LinkedList (T : Type) where
  heap : List (Option (LinkedList.Node T))
  head : Option Nat
  tail : Option Nat
  size : Nat
deriving DecidableEq, Repr

namespace LinkedList

variable {T : Type}

/-- `LinkedList::LinkedList()`. -/
def construct : LinkedList T := { heap := [], head := none, tail := none, size := 0 }

/-- `LinkedList::getSize`. -/
def getSize (l : LinkedList T) : Nat := l.size

/-- `LinkedList::isEmpty`. -/
def isEmpty (l : LinkedList T) : Bool := l.size == 0

/-- `LinkedList::begin`. -/
def begin (l : LinkedList T) : Option Nat := l.head

/-- `LinkedList::end`. -/
def endIt (_l : LinkedList T) : Option Nat := none

/-- The assignment `p->next = nx`. -/
def setNext (heap : List (Option (Node T))) (p : Option Nat) (nx : Option Nat) :
    Option (List (Option (Node T))) :=
  match p with
  | none => none
  | some a =>
    match readSlot heap a with
    | none => none
    | some nd => writeSlot heap a (some { nd with next := nx })

/-- The assignment `p->prev = pv`. -/
def setPrev (heap : List (Option (Node T))) (p : Option Nat) (pv : Option Nat) :
    Option (List (Option (Node T))) :=
  match p with
  | none => none
  | some a =>
    match readSlot heap a with
    | none => none
    | some nd => writeSlot heap a (some { nd with prev := pv })

/-- Reading `*p`. -/
def readNode (heap : List (Option (Node T))) (p : Option Nat) : Option (Node T) :=
  match p with
  | none => none
  | some a => readSlot heap a

/-- `LinkedList::createNode(val)`: the new memory and the address of the new node. -/
def createNode (heap : List (Option (Node T))) (val : T) : List (Option (Node T)) × Nat :=
  (heap ++ [some { val := val, prev := none, next := none }], heap.length)

/-- `LinkedList::deleteNode(node)`. -/
def deleteNode (heap : List (Option (Node T))) (p : Option Nat) :
    Option (List (Option (Node T))) :=
  match p with
  | none => none
  | some a => destroySlot heap a

/-- `LinkedList::push_back`. -/
def push_back (l : LinkedList T) (val : T) : Option (LinkedList T) :=
  let created := createNode l.heap val
  let newNode := some created.2
  match setPrev created.1 newNode l.tail with
  | none => none
  | some heap1 =>
    match setNext heap1 newNode none with
    | none => none
    | some heap2 =>
      if l.isEmpty then
        some { heap := heap2, head := newNode, tail := newNode, size := l.size + 1 }
      else
        match setNext heap2 l.tail newNode with
        | none => none
        | some heap3 =>
          some { heap := heap3, head := l.head, tail := newNode, size := l.size + 1 }

/-- `LinkedList::pop_back`. -/
def pop_back (l : LinkedList T) : Option (LinkedList T) :=
  if l.tail = none then some l
  else if l.head = l.tail then
    match deleteNode l.heap l.tail with
    | none => none
    | some heap1 => some { heap := heap1, head := none, tail := none, size := l.size - 1 }
  else
    match readNode l.heap l.tail with
    | none => none
    | some tailNode =>
      match setNext l.heap tailNode.prev none with
      | none => none
      | some heap1 =>
        match deleteNode heap1 l.tail with
        | none => none
        | some heap2 =>
          some { heap := heap2, head := l.head, tail := tailNode.prev, size := l.size - 1 }

/-- `LinkedList::push_front`. -/
def push_front (l : LinkedList T) (val : T) : Option (LinkedList T) :=
  let created := createNode l.heap val
  let newNode := some created.2
  match setNext created.1 newNode l.head with
  | none => none
  | some heap1 =>
    match setPrev heap1 newNode none with
    | none => none
    | some heap2 =>
      if l.isEmpty then
        some { heap := heap2, head := newNode, tail := newNode, size := l.size + 1 }
      else
        match setPrev heap2 l.head newNode with
        | none => none
        | some heap3 =>
          some { heap := heap3, head := newNode, tail := l.tail, size := l.size + 1 }

/-- `LinkedList::pop_front`. -/
def pop_front (l : LinkedList T) : Option (LinkedList T) :=
  if l.head = none then some l
  else if l.head = l.tail then
    match deleteNode l.heap l.head with
    | none => none
    | some heap1 => some { heap := heap1, head := none, tail := none, size := l.size - 1 }
  else
    match readNode l.heap l.head with
    | none => none
    | some headNode =>
      match setPrev l.heap headNode.next none with
      | none => none
      | some heap1 =>
        match deleteNode heap1 l.head with
        | none => none
        | some heap2 =>
          some { heap := heap2, head := headNode.next, tail := l.tail, size := l.size - 1 }

/-- `LinkedList::insert(it, val)`: the new state and the returned iterator. -/
def insert (l : LinkedList T) (it : Option Nat) (val : T) :
    Option (LinkedList T × Option Nat) :=
  if it = l.begin then
    match push_front l val with
    | none => none
    | some l1 => some (l1, l1.begin)
  else if it = l.endIt then
    match push_back l val with
    | none => none
    | some l1 => some (l1, l1.endIt)
  else
    let created := createNode l.heap val
    let newNode := some created.2
    let currNode := it
    match setNext created.1 newNode currNode with
    | none => none
    | some heap1 =>
      match readNode heap1 currNode with
      | none => none
      | some curr =>
        match setPrev heap1 newNode curr.prev with
        | none => none
        | some heap2 =>
          match (if curr.prev ≠ none then setNext heap2 curr.prev newNode else some heap2) with
          | none => none
          | some heap3 =>
            match setPrev heap3 currNode newNode with
            | none => none
            | some heap4 =>
              some ({ heap := heap4, head := l.head, tail := l.tail, size := l.size + 1 },
                newNode)

/-- `LinkedList::remove(it)`: the new state and the returned iterator. -/
def remove (l : LinkedList T) (it : Option Nat) : Option (LinkedList T × Option Nat) :=
  let toDelete := it
  if toDelete = l.head then
    match pop_front l with
    | none => none
    | some l1 => some (l1, l1.begin)
  else if toDelete = l.tail then
    match pop_back l with
    | none => none
    | some l1 => some (l1, l1.endIt)
  else
    match readNode l.heap toDelete with
    | none => none
    | some del =>
      match setNext l.heap del.prev del.next with
      | none => none
      | some heap1 =>
        match readNode heap1 toDelete with
        | none => none
        | some del1 =>
          match setPrev heap1 del1.next del1.prev with
          | none => none
          | some heap2 =>
            match readNode heap2 toDelete with
            | none => none
            | some del2 =>
              match deleteNode heap2 toDelete with
              | none => none
              | some heap3 =>
                some ({ heap := heap3, head := l.head, tail := l.tail, size := l.size - 1 },
                  del2.next)

/-! ### Specification vocabulary -/

/-- The address of the first of `cells` (pairs of address and value), `dflt` if there is
none. -/
def firstAddr (cells : List (Nat × T)) (dflt : Option Nat) : Option Nat :=
  match cells with
  | [] => dflt
  | cell :: _ => some cell.1

/-- The address of the last of `cells`, `dflt` if there is none. -/
def lastAddr : List (Nat × T) → Option Nat → Option Nat
  | [], dflt => dflt
  | cell :: rest, _ => lastAddr rest (some cell.1)

/-- The memory holds the chain `cells`: every cell is a live node with its value, whose
`prev` is the address of the cell before it (`before` for the first) and whose `next` is
the address of the cell after it (`after` for the last). -/
def Seg (heap : List (Option (Node T))) : Option Nat → List (Nat × T) → Option Nat → Prop
  | _, [], _ => True
  | before, cell :: rest, after =>
    heap[cell.1]? = some (some { val := cell.2, prev := before, next := firstAddr rest after })
    ∧ Seg heap (some cell.1) rest after

/-- The list `l` holds the records `cells` (address and value, in order): the nodes form a
chain from `nullptr` to `nullptr`, `head` and `tail` are its ends, `size` is its length,
and the addresses are pairwise different. -/
def WF (l : LinkedList T) (cells : List (Nat × T)) : Prop :=
  Seg l.heap none cells none ∧ l.head = firstAddr cells none ∧ l.tail = lastAddr cells none ∧
  l.size = cells.length ∧ (cells.map Prod.fst).Nodup

/-- The list built by `push_back(10)`, `push_back(20)`, `push_back(30)`. -/
def threeNodes : LinkedList Nat :=
  { heap := [some ⟨10, none, some 1⟩, some ⟨20, some 0, some 2⟩, some ⟨30, some 1, none⟩],
    head := some 0, tail := some 2, size := 3 }

end LinkedList

/-! ## The chained hash set

Shallow embedding of `src/HashMap/HashSet.hpp`, written out function by function in the
same way as the map: the record store `std::list<K> data` is a list of nodes that carry an
address and a key.  The chain walk is that of the non-const overload of
`getElementByChain`, whose test is `key_equal(*iter, key)`.  The const overload, which
`contains`, `count` and the const `find` call, tests `key_equal(iter->first, key)` on an
iterator of `std::list<K>`: it does not compile, so these three members have no behaviour
and no embedding (the body of `contains` is moreover ill-formed as in the map). -/

/-- A node of `std::list<K>`: its address and the stored key. -/
structure KeyNode (K : Type) where
  id : Nat
  key : K
deriving DecidableEq, Repr

/-- The state of a `HashSet<K>`: `data`, the allocation counter, and `table`. -/
structure HashSet (K : Type) where
  data : List (KeyNode K)
  next : Nat
  table : List (Iter × Nat)
deriving DecidableEq, Repr

namespace HashSet

variable {K : Type} [DecidableEq K]

/-- The part of the list that starts at the node an iterator designates; empty for
`end()` and for an iterator that designates no node of the list. -/
def listSeek (data : List (KeyNode K)) : Iter → List (KeyNode K)
  | .node a => data.dropWhile (fun nd => nd.id != a)
  | .sentinel => []

/-- The iterator designating the first node of a part of the list (`end()` when empty). -/
def iterOf : List (KeyNode K) → Iter
  | [] => .sentinel
  | nd :: _ => .node nd.id

/-- `std::list::insert(pos, x)`: link node `nd` before `pos`. -/
def listInsert (data : List (KeyNode K)) (pos : Iter) (nd : KeyNode K) :
    Option (List (KeyNode K)) :=
  match pos with
  | .sentinel => some (data ++ [nd])
  | .node a =>
    match data.dropWhile (fun x => x.id != a) with
    | [] => none
    | x :: rest => some (data.takeWhile (fun x => x.id != a) ++ nd :: x :: rest)

/-- `std::list::erase(pos)`: unlink the node at `pos`, return the list and the iterator
following the removed node. -/
def listErase (data : List (KeyNode K)) (pos : Iter) : Option (List (KeyNode K) × Iter) :=
  match pos with
  | .sentinel => none
  | .node a =>
    match data.dropWhile (fun x => x.id != a) with
    | [] => none
    | _ :: rest => some (data.takeWhile (fun x => x.id != a) ++ rest, iterOf rest)

/-- `HashSet::HashSet(bucket_count)`: `table(bucket_count, chain{ data.end(), 0 })`. -/
def construct (bucket_count : Nat) : HashSet K :=
  { data := [], next := 0, table := List.replicate bucket_count (Iter.sentinel, 0) }

/-- `HashSet::size`. -/
def size (t : HashSet K) : Nat := t.data.length

/-- `HashSet::hash`: `hasher(key) % table.size()`; division by zero is a fault. -/
def hash (hasher : K → Nat) (t : HashSet K) (key : K) : Option Nat :=
  if t.table.length = 0 then none else some (hasher key % t.table.length)

/-- The loop of the non-const `getElementByChain`: `i` iterations left, `iter` the current
position, the test is `key_equal(*iter, key)`. -/
def chainWalk (data : List (KeyNode K)) (key : K) : Nat → Iter → Option Iter
  | 0, _ => some Iter.sentinel
  | i + 1, iter =>
    match listSeek data iter with
    | [] => none
    | nd :: rest => if nd.key = key then some iter else chainWalk data key i (iterOf rest)

/-- `HashSet::getElementByChain`, non-const overload. -/
def getElementByChain (t : HashSet K) (chainIdx : Nat) (key : K) : Option Iter :=
  match t.table[chainIdx]? with
  | none => none
  | some (iter, chainSize) =>
    if chainSize = 0 then some Iter.sentinel else chainWalk t.data key chainSize iter

/-- `HashSet::find`, non-const overload. -/
def find (hasher : K → Nat) (t : HashSet K) (key : K) : Option Iter :=
  if t.table.length = 0 then some Iter.sentinel
  else
    match hash hasher t key with
    | none => none
    | some chainIdx => getElementByChain t chainIdx key

/-- The part of `insert(const K&)` that links the key at the head of the chain of bucket
`chainIdx`, sets `chainInfo.first` and increments `chainInfo.second`. -/
def linkNew (t : HashSet K) (chainIdx : Nat) (key : K) : Option (HashSet K) :=
  match t.table[chainIdx]? with
  | none => none
  | some chainInfo =>
    let nd : KeyNode K := { id := t.next, key := key }
    if chainInfo.2 = 0 then
      some { data := nd :: t.data, next := t.next + 1,
             table := t.table.set chainIdx (Iter.node nd.id, chainInfo.2 + 1) }
    else
      match listInsert t.data chainInfo.1 nd with
      | none => none
      | some data1 =>
        some { data := data1, next := t.next + 1,
               table := t.table.set chainIdx (Iter.node nd.id, chainInfo.2 + 1) }

/-- `HashSet::insert(const K&)`, with the call of `rehash` as a parameter.  The result is
the new state, the returned iterator and the returned flag. -/
def insertWith (hasher : K → Nat) (rehashFn : Nat → HashSet K → Outcome (HashSet K))
    (t : HashSet K) (key : K) : Outcome (HashSet K × Iter × Bool) :=
  match hash hasher t key with
  | none => Outcome.fault
  | some chainIdx =>
    match getElementByChain t chainIdx key with
    | none => Outcome.fault
    | some foundIter =>
      if foundIter ≠ Iter.sentinel then Outcome.ok (t, foundIter, false)
      else
        match linkNew t chainIdx key with
        | none => Outcome.fault
        | some t1 =>
          if 5 * t1.size > 4 * t1.table.length then
            match rehashFn (t1.table.length * 2) t1 with
            | Outcome.ok t2 =>
              match hash hasher t2 key with
              | none => Outcome.fault
              | some newChainIdx =>
                match getElementByChain t2 newChainIdx key with
                | none => Outcome.fault
                | some newIter => Outcome.ok (t2, newIter, true)
            | Outcome.fault => Outcome.fault
            | Outcome.timeout => Outcome.timeout
          else Outcome.ok (t1, Iter.node t.next, true)

/-- The second loop of `rehash`: `insert(entry)` for every saved key. -/
def rehashLoop (ins : HashSet K → K → Outcome (HashSet K × Iter × Bool)) :
    List K → HashSet K → Outcome (HashSet K)
  | [], t => Outcome.ok t
  | key :: keys, t =>
    match ins t key with
    | Outcome.ok r => rehashLoop ins keys r.1
    | Outcome.fault => Outcome.fault
    | Outcome.timeout => Outcome.timeout

/-- `HashSet::rehash(n)`, with the `insert` it calls as a parameter. -/
def rehashWith (ins : HashSet K → K → Outcome (HashSet K × Iter × Bool))
    (n : Nat) (t : HashSet K) : Outcome (HashSet K) :=
  rehashLoop ins (t.data.map (fun nd => nd.key))
    { data := [], next := t.next, table := List.replicate n (Iter.sentinel, 0) }

/-- `HashSet::insert(const K&)` where calls of `rehash` may nest at most `fuel` deep. -/
def insertFuel (hasher : K → Nat) : Nat → HashSet K → K → Outcome (HashSet K × Iter × Bool)
  | 0 => insertWith hasher (fun _ _ => Outcome.timeout)
  | fuel + 1 => insertWith hasher (rehashWith (insertFuel hasher fuel))

/-- `HashSet::insert(const K&)`, with the same nesting bound as the map. -/
def insert (hasher : K → Nat) (t : HashSet K) (key : K) : Outcome (HashSet K × Iter × Bool) :=
  insertFuel hasher (t.size + 1) t key

/-- `HashSet::erase(const K&)`.  The result is the new state and the returned iterator. -/
def erase (hasher : K → Nat) (t : HashSet K) (key : K) : Option (HashSet K × Iter) :=
  if t.table.length = 0 then some (t, Iter.sentinel)
  else
    match hash hasher t key with
    | none => none
    | some chainIdx =>
      match getElementByChain t chainIdx key with
      | none => none
      | some foundIt =>
        if foundIt = Iter.sentinel then some (t, Iter.sentinel)
        else
          match t.table[chainIdx]? with
          | none => none
          | some chainInfo =>
            if chainInfo.2 ≠ 0 then
              match listErase t.data foundIt with
              | none => none
              | some (data1, newIter) =>
                some ({ data := data1, next := t.next,
                        table := t.table.set chainIdx (newIter, chainInfo.2 - 1) }, newIter)
            else
              some ({ data := t.data, next := t.next,
                      table := t.table.set chainIdx (chainInfo.1, 2 ^ 64 - 1) }, chainInfo.1)

/-! ### Specification vocabulary -/

/-- The calls `insert(k)` and `erase(k)` of the set; on the map they stand for
`insert(k, unit)` and `erase(k)`. -/
inductive Op (K : Type) where
  | insert (key : K)
  | erase (key : K)
deriving DecidableEq, Repr

/-- One call on the set: the new state and what the call returned (the iterator, and the
flag for `insert`). -/
def runOp (hasher : K → Nat) (t : HashSet K) : Op K → Outcome (HashSet K × Iter × Option Bool)
  | Op.insert key =>
    match insert hasher t key with
    | Outcome.ok r => Outcome.ok (r.1, r.2.1, some r.2.2)
    | Outcome.fault => Outcome.fault
    | Outcome.timeout => Outcome.timeout
  | Op.erase key =>
    match erase hasher t key with
    | some r => Outcome.ok (r.1, r.2, none)
    | none => Outcome.fault

/-- A sequence of calls on the set, first element first: the final state and the list of
what the calls returned. -/
def runOps (hasher : K → Nat) :
    List (Op K) → HashSet K → Outcome (HashSet K × List (Iter × Option Bool))
  | [], t => Outcome.ok (t, [])
  | op :: ops, t =>
    match runOp hasher t op with
    | Outcome.ok r =>
      match runOps hasher ops r.1 with
      | Outcome.ok r2 => Outcome.ok (r2.1, r.2 :: r2.2)
      | Outcome.fault => Outcome.fault
      | Outcome.timeout => Outcome.timeout
    | Outcome.fault => Outcome.fault
    | Outcome.timeout => Outcome.timeout

/-- The corresponding call on a map with the unit value type. -/
def runMapOp (hasher : K → Nat) (t : HashMap K Unit) :
    Op K → Outcome (HashMap K Unit × Iter × Option Bool)
  | Op.insert key =>
    match HashMap.insert hasher t key () with
    | Outcome.ok r => Outcome.ok (r.1, r.2.1, some r.2.2)
    | Outcome.fault => Outcome.fault
    | Outcome.timeout => Outcome.timeout
  | Op.erase key =>
    match HashMap.erase hasher t key with
    | some r => Outcome.ok (r.1, r.2, none)
    | none => Outcome.fault

/-- The corresponding sequence of calls on a map with the unit value type. -/
def runMapOps (hasher : K → Nat) :
    List (Op K) → HashMap K Unit → Outcome (HashMap K Unit × List (Iter × Option Bool))
  | [], t => Outcome.ok (t, [])
  | op :: ops, t =>
    match runMapOp hasher t op with
    | Outcome.ok r =>
      match runMapOps hasher ops r.1 with
      | Outcome.ok r2 => Outcome.ok (r2.1, r.2 :: r2.2)
      | Outcome.fault => Outcome.fault
      | Outcome.timeout => Outcome.timeout
    | Outcome.fault => Outcome.fault
    | Outcome.timeout => Outcome.timeout

/-- The set state with the same addresses, keys, key order and bucket descriptors as a
map state with the unit value type. -/
def ofMap (t : HashMap K Unit) : HashSet K :=
  { data := t.data.map (fun nd => { id := nd.id, key := nd.key }), next := t.next,
    table := t.table }

end HashSet

/-! ## Further vocabulary for the hash table -/

namespace HashMap

variable {K V : Type}

/-- The sum of `chainLength` over all bucket descriptors. -/
def chainSum (t : HashMap K V) : Nat := (t.table.map Prod.snd).sum

/-- The call is `insert` or `erase`, not `operator[]`. -/
def Op.insertOrErase : Op K V → Bool
  | Op.insert _ _ => true
  | Op.erase _ => true
  | Op.subscript _ => false

end HashMap

/-! ## Further members of the array containers

Members of `Vector`, `Deque` and `Queue` that the claims about capacities, constructors
and copies need, embedded as above. -/

namespace Vector

variable {T : Type}

/-- `Vector::getCapacity`: the body is `return size;`. -/
def getCapacity (v : Vector T) : Nat := v.size

/-- `Vector::isEmpty`. -/
def isEmpty (v : Vector T) : Bool := v.size == 0

/-- `Vector::pop_back`: `destroy(&data[--size])`, then
`if (size * 4 >= capacity && capacity > 1) resize(calculateCapacity(false))`. -/
def pop_back (v : Vector T) : Option (Vector T) :=
  if v.isEmpty then some v
  else
    match writeSlot v.data (v.size - 1) none with
    | none => none
    | some data1 =>
      if (v.size - 1) * 4 ≥ v.capacity ∧ v.capacity > 1 then
        resize { v with data := data1, size := v.size - 1 }
          (calculateCapacity { v with data := data1, size := v.size - 1 } false)
      else some { v with data := data1, size := v.size - 1 }

/-- The vector `[1, 2, 3, 4]` built by four `emplace_back` calls: size and capacity 4. -/
def four : Vector Nat :=
  { buf := 3, data := [some 1, some 2, some 3, some 4], size := 4, capacity := 4,
    nextBuf := 4 }

/-- The vector `four` after the first statement of `pop_back`, `destroy(&data[--size])`. -/
def fourDestroyed : Vector Nat :=
  { buf := 3, data := [some 1, some 2, some 3, none], size := 3, capacity := 4, nextBuf := 4 }

end Vector

namespace Deque

variable {T : Type}

/-- `Deque::Deque(std::size_t n, const T& val)`: `size(n), capacity(n), head(0),
tail(n == 0 ? 0 : n - 1)` and `n` constructed slots. -/
def constructFill (n : Nat) (val : T) : Deque T :=
  { data := List.replicate n (some val), size := n, capacity := n, head := 0,
    tail := if n = 0 then 0 else n - 1 }

/-- `Deque::Deque(std::size_t n)`: as `constructFill` with value-initialised elements. -/
def constructN [Inhabited T] (n : Nat) : Deque T := constructFill n default

/-- The deque `Deque(3, 7)`. -/
def fill3 : Deque Nat :=
  { data := [some 7, some 7, some 7], size := 3, capacity := 3, head := 0, tail := 2 }

/-- The deque `Deque(3, 7)` after `pop_back()`. -/
def fill3Pop : Deque Nat :=
  { data := [some 7, none, some 7], size := 2, capacity := 3, head := 0, tail := 1 }

/-- The deque `Deque(3, 7)` after `pop_back()` and `push_back(9)`. -/
def fill3PopPush : Deque Nat :=
  { data := [some 7, some 9, some 7], size := 3, capacity := 3, head := 0, tail := 2 }

/-- The deque `Deque(3, 7)` after `pop_front()`. -/
def fill3PopFront : Deque Nat :=
  { data := [none, some 7, some 7], size := 2, capacity := 3, head := 1, tail := 2 }

/-- The deque `Deque(3, 7)` after `pop_front()` and `push_back(9)`. -/
def fill3PopFrontPush : Deque Nat :=
  { data := [none, some 7, some 9], size := 3, capacity := 3, head := 1, tail := 0 }

/-- The default-constructed deque after `push_back(1)`: one element, capacity 1. -/
def single : Deque Nat :=
  { data := [some 1], size := 1, capacity := 1, head := 0, tail := 0 }

/-- The default-constructed deque after `push_back(1)`, `push_back(2)`, `pop_back()`: one
element, capacity 2. -/
def singleOfTwo : Deque Nat :=
  { data := [some 1, none], size := 1, capacity := 2, head := 0, tail := 1 }

/-- The deque holding `1, 1` in a buffer of capacity 2, first element in slot 0. -/
def twice : Deque Nat :=
  { data := [some 1, some 1], size := 2, capacity := 2, head := 0, tail := 0 }

end Deque

namespace Queue

variable {T : Type}

/-- The loop of `copyFrom`: `for (i = other.get; i != other.put; (++i) %= other.capacity)
construct(&data[i], other.data[i])`, with at most `fuel` iterations. -/
def copyLoop (other : Queue T) : Nat → Nat → List (Option T) → Outcome (List (Option T))
  | 0, i, data => if i ≠ other.put then Outcome.timeout else Outcome.ok data
  | fuel + 1, i, data =>
    if i ≠ other.put then
      match readSlot other.data i with
      | none => Outcome.fault
      | some x =>
        match writeSlot data i (some x) with
        | none => Outcome.fault
        | some data1 =>
          if other.capacity = 0 then Outcome.fault
          else copyLoop other fuel ((i + 1) % other.capacity) data1
    else Outcome.ok data

/-- `Queue::copyFrom(other)` (the copy constructor): a buffer of `other.capacity` raw
slots, the loop, then the four fields of `other`.  The index takes fewer than `capacity`
different values before it reaches `put`, so `capacity` iterations are enough. -/
def copyFrom (other : Queue T) : Outcome (Queue T) :=
  (copyLoop other other.capacity other.get (List.replicate other.capacity none)).map
    (fun data => { data := data, size := other.size, capacity := other.capacity,
                   get := other.get, put := other.put })

/-- The queue after `push(1)` on the default-constructed queue: size and capacity 1. -/
def one : Queue Nat := { data := [some 1], size := 1, capacity := 1, get := 0, put := 0 }

/-- The queue after `push(1)`, `push(2)`, `push(3)`: size 3, capacity 4. -/
def three : Queue Nat :=
  { data := [some 1, some 2, some 3, none], size := 3, capacity := 4, get := 0, put := 3 }

end Queue

/-! ## The singly linked list

Shallow embedding of `src/ForwardLinkedList/ForwardLinkedList.hpp` at the level of
pointers, like the doubly linked list.  The memory of the nodes is shared by all lists, so
it is passed next to the list object (`head`, `tail`, `size`). -/

/-- A `Node<T>` of the singly linked list: `val`, `next`. -/
structure ForwardLinkedList.Node (T : Type) where
  val : T
  next : Option Nat
deriving DecidableEq, Repr

/-- The fields of a `ForwardLinkedList<T>` object. -/
structure ForwardLinkedList (T : Type) where
  head : Option Nat
  tail : Option Nat
  size : Nat
deriving DecidableEq, Repr

namespace ForwardLinkedList

variable {T : Type}

/-- `ForwardLinkedList::ForwardLinkedList()`. -/
def construct : ForwardLinkedList T := { head := none, tail := none, size := 0 }

/-- `ForwardLinkedList::getSize`. -/
def getSize (l : ForwardLinkedList T) : Nat := l.size

/-- `ForwardLinkedList::isEmpty`. -/
def isEmpty (l : ForwardLinkedList T) : Bool := l.size == 0

/-- Reading `*p`. -/
def readNode (heap : List (Option (Node T))) (p : Option Nat) : Option (Node T) :=
  match p with
  | none => none
  | some a => readSlot heap a

/-- The assignment `p->next = nx`. -/
def setNext (heap : List (Option (Node T))) (p : Option Nat) (nx : Option Nat) :
    Option (List (Option (Node T))) :=
  match p with
  | none => none
  | some a =>
    match readSlot heap a with
    | none => none
    | some nd => writeSlot heap a (some { nd with next := nx })

/-- `ForwardLinkedList::push_back`: the new memory and the new fields of the list. -/
def push_back (heap : List (Option (Node T))) (l : ForwardLinkedList T) (val : T) :
    Option (List (Option (Node T)) × ForwardLinkedList T) :=
  let newNode := some heap.length
  let heap1 := heap ++ [some { val := val, next := none }]
  if l.isEmpty then some (heap1, { head := newNode, tail := newNode, size := l.size + 1 })
  else
    match setNext heap1 l.tail newNode with
    | none => none
    | some heap2 => some (heap2, { head := l.head, tail := newNode, size := l.size + 1 })

/-- The loop of `copyFrom`: `for (curr = ...; curr != nullptr; curr = curr->next)
push_back(other.head->val)`, with at most `fuel` iterations. -/
def copyLoop (other : ForwardLinkedList T) :
    Nat → Option Nat → List (Option (Node T)) → ForwardLinkedList T →
    Outcome (List (Option (Node T)) × ForwardLinkedList T)
  | 0, curr, heap, l => if curr ≠ none then Outcome.timeout else Outcome.ok (heap, l)
  | fuel + 1, curr, heap, l =>
    if curr ≠ none then
      match readNode heap other.head with
      | none => Outcome.fault
      | some headNode =>
        match push_back heap l headNode.val with
        | none => Outcome.fault
        | some r =>
          match readNode r.1 curr with
          | none => Outcome.fault
          | some currNode => copyLoop other fuel currNode.next r.1 r.2
    else Outcome.ok (heap, l)

/-- `ForwardLinkedList::copyFrom(other)` called on the list `l`.  A chain without a cycle
has at most as many nodes as the memory holds, so that many iterations are enough. -/
def copyFrom (heap : List (Option (Node T))) (l other : ForwardLinkedList T) :
    Outcome (List (Option (Node T)) × ForwardLinkedList T) :=
  copyLoop other heap.length other.head heap l

/-! ### Specification vocabulary -/

/-- The values of the nodes of the chain that starts at `p`, following `next` for at most
`fuel` nodes; `none` when the chain is longer or runs into a deleted node. -/
def valuesFrom (heap : List (Option (Node T))) : Nat → Option Nat → Option (List T)
  | _, none => some []
  | 0, some _ => none
  | fuel + 1, some a =>
    match readSlot heap a with
    | none => none
    | some nd => (valuesFrom heap fuel nd.next).map (fun vs => nd.val :: vs)

/-- The element values of the list, first element first. -/
def values (heap : List (Option (Node T))) (l : ForwardLinkedList T) : Option (List T) :=
  valuesFrom heap heap.length l.head

/-- The memory after `push_back(1)`, `push_back(2)`, `push_back(3)` on an empty list. -/
def heap123 : List (Option (Node Nat)) :=
  [some ⟨1, some 1⟩, some ⟨2, some 2⟩, some ⟨3, none⟩]

/-- The list `[1, 2, 3]` in the memory `heap123`. -/
def list123 : ForwardLinkedList Nat := { head := some 0, tail := some 2, size := 3 }

/-- The memory after `copyFrom(list123)` on an empty list. -/
def heapCopy : List (Option (Node Nat)) :=
  [some ⟨1, some 1⟩, some ⟨2, some 2⟩, some ⟨3, none⟩,
   some ⟨1, some 4⟩, some ⟨1, some 5⟩, some ⟨1, none⟩]

/-- The fields of the copy of `list123`. -/
def listCopy : ForwardLinkedList Nat := { head := some 3, tail := some 5, size := 3 }

end ForwardLinkedList

/-! ## Lemmas about the list model -/

section ListLemmas

variable {K V : Type}

theorem ids_ne_of_nodup {pre suf : List (Node K V)} {x : Node K V}
    (hnd : ((pre ++ x :: suf).map Node.id).Nodup) : ∀ nd ∈ pre, nd.id ≠ x.id := by
  intro nd hmem heq
  rw [List.map_append, List.nodup_append] at hnd
  exact hnd.2.2 (List.mem_map_of_mem Node.id hmem)
    (by rw [heq]; exact List.mem_map_of_mem Node.id (List.mem_cons_self x suf))

theorem dropWhile_id_append (pre suf : List (Node K V)) (x : Node K V)
    (h : ∀ nd ∈ pre, nd.id ≠ x.id) :
    (pre ++ x :: suf).dropWhile (fun nd => nd.id != x.id) = x :: suf := by
  induction pre with
  | nil => simp [List.dropWhile]
  | cons p ps ih =>
    have hp : p.id ≠ x.id := h p (List.mem_cons_self p ps)
    have hps : ∀ nd ∈ ps, nd.id ≠ x.id := fun nd hm => h nd (List.mem_cons_of_mem p hm)
    have hb : (p.id != x.id) = true := by simp [hp]
    rw [List.cons_append, List.dropWhile_cons_of_pos (by simpa using hb), ih hps]

theorem takeWhile_id_append (pre suf : List (Node K V)) (x : Node K V)
    (h : ∀ nd ∈ pre, nd.id ≠ x.id) :
    (pre ++ x :: suf).takeWhile (fun nd => nd.id != x.id) = pre := by
  induction pre with
  | nil => simp [List.takeWhile]
  | cons p ps ih =>
    have hp : p.id ≠ x.id := h p (List.mem_cons_self p ps)
    have hps : ∀ nd ∈ ps, nd.id ≠ x.id := fun nd hm => h nd (List.mem_cons_of_mem p hm)
    have hb : (p.id != x.id) = true := by simp [hp]
    rw [List.cons_append, List.takeWhile_cons_of_pos (by simpa using hb), ih hps]

theorem listSeek_iterOf (pre suf : List (Node K V))
    (hnd : ((pre ++ suf).map Node.id).Nodup) :
    listSeek (pre ++ suf) (iterOf suf) = suf := by
  cases suf with
  | nil => rfl
  | cons x r =>
    show (pre ++ x :: r).dropWhile (fun nd => nd.id != x.id) = x :: r
    exact dropWhile_id_append pre r x (ids_ne_of_nodup hnd)

theorem listInsert_iterOf (pre suf : List (Node K V)) (nd : Node K V)
    (hnd : ((pre ++ suf).map Node.id).Nodup) :
    listInsert (pre ++ suf) (iterOf suf) nd = some (pre ++ nd :: suf) := by
  cases suf with
  | nil => simp [iterOf, listInsert]
  | cons x r =>
    have hne := ids_ne_of_nodup hnd
    simp only [iterOf, listInsert]
    rw [dropWhile_id_append pre r x hne, takeWhile_id_append pre r x hne]

theorem listErase_node (pre suf : List (Node K V)) (x : Node K V)
    (hnd : ((pre ++ x :: suf).map Node.id).Nodup) :
    listErase (pre ++ x :: suf) (Iter.node x.id) = some (pre ++ suf, iterOf suf) := by
  have hne := ids_ne_of_nodup hnd
  simp only [listErase]
  rw [dropWhile_id_append pre suf x hne, takeWhile_id_append pre suf x hne]

theorem iterOf_append_of_ne_nil {run : List (Node K V)} (post : List (Node K V))
    (h : run ≠ []) : iterOf (run ++ post) = iterOf run := by
  cases run with
  | nil => exact absurd rfl h
  | cons x r => rfl

theorem insert_between {P : Node K V → Prop} (A r pre run post : List (Node K V))
    (x nd : Node K V) (h : A ++ x :: r = pre ++ (run ++ post))
    (hrun : ∀ y ∈ run, P y) (hx : ¬ P x) :
    ∃ pre1 post1, A ++ nd :: x :: r = pre1 ++ (run ++ post1) ∧
      (∀ y ∈ pre1, y = nd ∨ y ∈ pre) ∧ (∀ y ∈ post1, y = nd ∨ y ∈ post) := by
  rcases List.append_eq_append_iff.mp h with ⟨a1, h1, h2⟩ | ⟨c1, h1, h2⟩
  · refine ⟨A ++ nd :: a1, post, ?_, ?_, ?_⟩
    · rw [h2]; simp
    · intro y hy
      rw [h1]
      simp only [List.mem_append, List.mem_cons] at hy ⊢
      tauto
    · intro y hy; exact Or.inr hy
  · rcases List.append_eq_append_iff.mp h2 with ⟨d, h3, h4⟩ | ⟨e, h3, h4⟩
    · refine ⟨pre, d ++ nd :: x :: r, ?_, ?_, ?_⟩
      · rw [h1, h3]; simp
      · intro y hy; exact Or.inr hy
      · intro y hy
        rw [h4]
        simp only [List.mem_append, List.mem_cons] at hy ⊢
        tauto
    · cases e with
      | nil =>
        refine ⟨pre, nd :: post, ?_, ?_, ?_⟩
        · simp only [List.append_nil] at h3
          simp only [List.nil_append] at h4
          rw [h1, h3, h4]; simp
        · intro y hy; exact Or.inr hy
        · intro y hy
          simp only [List.mem_cons] at hy ⊢
          exact hy
      | cons y e1 =>
        exfalso
        simp only [List.cons_append, List.cons.injEq] at h4
        apply hx
        apply hrun
        rw [h3, h4.1]
        simp

theorem nodup_map_insert {β : Type} (f : Node K V → β) (A B : List (Node K V)) (nd : Node K V)
    (h : ((A ++ B).map f).Nodup) (hn : ∀ x ∈ A ++ B, f x ≠ f nd) :
    ((A ++ nd :: B).map f).Nodup := by
  have hp : ((A ++ nd :: B).map f).Perm ((nd :: (A ++ B)).map f) := List.perm_middle.map f
  rw [hp.nodup_iff, List.map_cons, List.nodup_cons]
  refine ⟨?_, h⟩
  intro hmem
  obtain ⟨x, hx, hfx⟩ := List.mem_map.mp hmem
  exact hn x hx hfx

theorem length_takeWhile_dropWhile (p : Node K V → Bool) (l : List (Node K V)) :
    (l.takeWhile p).length + (l.dropWhile p).length = l.length := by
  have h := congrArg List.length (List.takeWhile_append_dropWhile p l)
  rw [List.length_append] at h
  exact h

theorem listInsert_length {data data1 : List (Node K V)} {pos : Iter} {nd : Node K V}
    (h : listInsert data pos nd = some data1) : data1.length = data.length + 1 := by
  cases pos with
  | sentinel =>
    simp only [listInsert, Option.some.injEq] at h
    rw [← h]; simp
  | node a =>
    simp only [listInsert] at h
    have hl := length_takeWhile_dropWhile (fun x : Node K V => x.id != a) data
    split at h
    · cases h
    · rename_i hd
      simp only [Option.some.injEq] at h
      rw [hd] at hl
      rw [← h]
      simp only [List.length_append, List.length_cons] at hl ⊢
      omega

theorem listErase_length {data data1 : List (Node K V)} {pos iter : Iter}
    (h : listErase data pos = some (data1, iter)) : data1.length + 1 = data.length := by
  cases pos with
  | sentinel => simp [listErase] at h
  | node a =>
    simp only [listErase] at h
    have hl := length_takeWhile_dropWhile (fun x : Node K V => x.id != a) data
    split at h
    · cases h
    · rename_i hd
      simp only [Option.some.injEq, Prod.mk.injEq] at h
      rw [hd] at hl
      rw [← h.1]
      simp only [List.length_append, List.length_cons] at hl ⊢
      omega

end ListLemmas

namespace HashMap

section Lemmas

set_option linter.unusedSectionVars false

variable {K V : Type} [DecidableEq K]

/-! ## Lemmas about the table -/

theorem chainWalk_suffix (key : K) (i : Nat) :
    ∀ (pre suf : List (Node K V)), ((pre ++ suf).map Node.id).Nodup → i ≤ suf.length →
      chainWalk (pre ++ suf) key i (iterOf suf) = some (locate (suf.take i) key) := by
  induction i with
  | zero => intro pre suf _ _; simp [chainWalk, locate]
  | succ i ih =>
    intro pre suf hnd hlen
    cases suf with
    | nil => simp at hlen
    | cons x r =>
      rw [chainWalk, listSeek_iterOf pre (x :: r) hnd]
      by_cases hk : x.key = key
      · simp [hk, locate, iterOf]
      · have h2 : (((pre ++ [x]) ++ r).map Node.id).Nodup := by simpa using hnd
        have h3 := ih (pre ++ [x]) r h2 (by simpa using hlen)
        simp only [List.append_assoc, List.singleton_append] at h3
        simp [hk, h3, locate]

theorem find?_key_none {l : List (Node K V)} {k : K} (h : ∀ nd ∈ l, nd.key ≠ k) :
    l.find? (fun nd => decide (nd.key = k)) = none := by
  rw [List.find?_eq_none]
  intro nd hm
  simpa using h nd hm

theorem locate_split (pre run post : List (Node K V)) (k : K)
    (hpre : ∀ nd ∈ pre, nd.key ≠ k) (hpost : ∀ nd ∈ post, nd.key ≠ k) :
    locate (pre ++ (run ++ post)) k = locate run k := by
  unfold locate
  rw [List.find?_append, List.find?_append, find?_key_none hpre, find?_key_none hpost]
  cases run.find? (fun nd => decide (nd.key = k)) <;> simp

theorem find_spec {hasher : K → Nat} {t : HashMap K V} (wf : WF hasher t) (k : K) :
    find hasher t k = some (locate t.data k) := by
  have hn : t.table.length ≠ 0 := by have := wf.buckets; omega
  have hb : hasher k % t.table.length < t.table.length := Nat.mod_lt _ (by omega)
  obtain ⟨pre, run, post, iter, hdata, htab, hiter, hrun, hpre, hpost⟩ := wf.chains _ hb
  have hpre2 : ∀ nd ∈ pre, nd.key ≠ k := fun nd hm he => hpre nd hm (by rw [he])
  have hpost2 : ∀ nd ∈ post, nd.key ≠ k := fun nd hm he => hpost nd hm (by rw [he])
  simp only [find, hash, hn, if_false, getElementByChain, htab]
  rw [hdata, locate_split pre run post k hpre2 hpost2]
  by_cases hlen : run.length = 0
  · have : run = [] := List.length_eq_zero.mp hlen
    simp [this, locate]
  · have hne : run ≠ [] := fun h => hlen (by simp [h])
    have hids : ((pre ++ (run ++ post)).map Node.id).Nodup := hdata ▸ wf.ids
    rw [if_neg hlen, hiter hne, ← iterOf_append_of_ne_nil post hne,
      chainWalk_suffix k run.length pre (run ++ post) hids (by simp)]
    simp

theorem wf_insert_at {hasher : K → Nat} {t : HashMap K V} (wf : WF hasher t)
    (A run post : List (Node K V)) (k : K) (v : V)
    (hdata : t.data = A ++ (run ++ post))
    (hA : ∀ nd ∈ A, hasher nd.key % t.table.length ≠ hasher k % t.table.length)
    (hrun : ∀ nd ∈ run, hasher nd.key % t.table.length = hasher k % t.table.length)
    (hpost : ∀ nd ∈ post, hasher nd.key % t.table.length ≠ hasher k % t.table.length)
    (hA0 : run = [] → A = [])
    (hk : ∀ nd ∈ t.data, nd.key ≠ k) :
    WF hasher { data := A ++ { id := t.next, key := k, val := v } :: (run ++ post),
                next := t.next + 1,
                table := t.table.set (hasher k % t.table.length)
                  (Iter.node t.next, run.length + 1) } := by
  have hn := wf.buckets
  have hblt : hasher k % t.table.length < t.table.length := Nat.mod_lt _ (by omega)
  constructor
  · simpa using hn
  · apply nodup_map_insert
    · rw [← hdata]; exact wf.ids
    · intro x hx
      rw [← hdata] at hx
      exact Nat.ne_of_lt (wf.fresh x hx)
  · intro nd hnd
    simp only [List.mem_append, List.mem_cons] at hnd
    have hmem : nd = { id := t.next, key := k, val := v } ∨ nd ∈ t.data := by
      rw [hdata]; simp only [List.mem_append]; tauto
    rcases hmem with h | h
    · rw [h]; exact Nat.lt_succ_self _
    · exact Nat.lt_succ_of_lt (wf.fresh nd h)
  · apply nodup_map_insert
    · rw [← hdata]; exact wf.keys
    · intro x hx
      rw [← hdata] at hx
      exact hk x hx
  · intro b hb
    simp only [List.length_set] at hb ⊢
    by_cases hbb : b = hasher k % t.table.length
    · refine ⟨A, { id := t.next, key := k, val := v } :: run, post, Iter.node t.next,
        by simp, ?_, ?_, ?_, ?_, ?_⟩
      · rw [hbb, List.getElem?_set_self hblt]; simp
      · intro _; rfl
      · intro nd hnd
        rcases List.mem_cons.mp hnd with h | h
        · rw [h, hbb]
        · rw [hbb]; exact hrun nd h
      · intro nd hnd; rw [hbb]; exact hA nd hnd
      · intro nd hnd; rw [hbb]; exact hpost nd hnd
    · obtain ⟨pre1, run1, post1, iter1, hd1, ht1, hi1, hr1, hp1, hq1⟩ := wf.chains b hb
      have hnew : hasher ({ id := t.next, key := k, val := v } : Node K V).key
          % t.table.length ≠ b := fun h => hbb h.symm
      have htab1 : (t.table.set (hasher k % t.table.length)
          (Iter.node t.next, run.length + 1))[b]? = some (iter1, run1.length) := by
        rw [List.getElem?_set_ne (fun h => hbb h.symm)]; exact ht1
      by_cases hrr : run = []
      · have hA1 := hA0 hrr
        refine ⟨{ id := t.next, key := k, val := v } :: pre1, run1, post1, iter1,
          ?_, htab1, hi1, hr1, ?_, hq1⟩
        · have hd2 : pre1 ++ (run1 ++ post1) = run ++ post := by
            rw [← hd1, hdata, hA1]; rfl
          rw [hA1, List.nil_append, List.cons_append, hd2]
        · intro nd hnd
          rcases List.mem_cons.mp hnd with h | h
          · rw [h]; exact hnew
          · exact hp1 nd h
      · obtain ⟨x, r, hrr⟩ := List.exists_cons_of_ne_nil hrr
        have hx : hasher x.key % t.table.length = hasher k % t.table.length :=
          hrun x (by rw [hrr]; exact List.mem_cons_self x r)
        have hsplit : A ++ x :: (r ++ post) = pre1 ++ (run1 ++ post1) := by
          rw [← hd1, hdata, hrr]; simp
        obtain ⟨pre2, post2, h1, h2, h3⟩ :=
          insert_between (P := fun y => hasher y.key % t.table.length = b) A (r ++ post)
            pre1 run1 post1 x { id := t.next, key := k, val := v } hsplit hr1
            (by show ¬ (hasher x.key % t.table.length = b); rw [hx]; exact fun h => hbb h.symm)
        refine ⟨pre2, run1, post2, iter1, ?_, htab1, hi1, hr1, ?_, ?_⟩
        · rw [hrr, ← h1]; simp
        · intro nd hnd
          rcases h2 nd hnd with h | h
          · rw [h]; exact hnew
          · exact hp1 nd h
        · intro nd hnd
          rcases h3 nd hnd with h | h
          · rw [h]; exact hnew
          · exact hq1 nd h

theorem hash_spec {hasher : K → Nat} {t : HashMap K V} (hn : 1 ≤ t.table.length) (k : K) :
    hash hasher t k = some (hasher k % t.table.length) := by
  have : t.table.length ≠ 0 := by omega
  simp [hash, this]

theorem getElementByChain_spec {hasher : K → Nat} {t : HashMap K V} (wf : WF hasher t) (k : K) :
    getElementByChain t (hasher k % t.table.length) k = some (locate t.data k) := by
  have h := find_spec wf k
  have hn : t.table.length ≠ 0 := by have := wf.buckets; omega
  simpa [find, hash, hn] using h

theorem locate_eq_sentinel {data : List (Node K V)} {k : K} :
    locate data k = Iter.sentinel ↔ ∀ nd ∈ data, nd.key ≠ k := by
  unfold locate
  constructor
  · intro h nd hnd
    cases hf : data.find? (fun nd => decide (nd.key = k)) with
    | none =>
      rw [List.find?_eq_none] at hf
      simpa using hf nd hnd
    | some x => rw [hf] at h; cases h
  · intro h
    rw [find?_key_none h]

theorem locate_ne_sentinel {data : List (Node K V)} {k : K}
    (h : locate data k ≠ Iter.sentinel) :
    ∃ nd, nd ∈ data ∧ nd.key = k ∧ locate data k = Iter.node nd.id := by
  unfold locate at h ⊢
  cases hf : data.find? (fun nd => decide (nd.key = k)) with
  | none => rw [hf] at h; exact absurd rfl h
  | some x =>
    refine ⟨x, List.mem_of_find?_eq_some hf, ?_, rfl⟩
    simpa using List.find?_some hf

theorem locate_insert (A B : List (Node K V)) (nd : Node K V)
    (hA : ∀ x ∈ A, x.key ≠ nd.key) :
    locate (A ++ nd :: B) nd.key = Iter.node nd.id := by
  unfold locate
  rw [List.find?_append, find?_key_none hA]
  simp

theorem linkNew_spec {hasher : K → Nat} {t : HashMap K V} (wf : WF hasher t) (k : K) (v : V)
    (hk : ∀ nd ∈ t.data, nd.key ≠ k) :
    ∃ t1, linkNew t (hasher k % t.table.length) k v = some t1 ∧ WF hasher t1 ∧
      t1.table.length = t.table.length ∧ t1.next = t.next + 1 ∧
      ∃ A B, t.data = A ++ B ∧ t1.data = A ++ { id := t.next, key := k, val := v } :: B := by
  have hn := wf.buckets
  have hblt : hasher k % t.table.length < t.table.length := Nat.mod_lt _ (by omega)
  obtain ⟨pre, run, post, iter, hdata, htab, hiter, hrun, hpre, hpost⟩ := wf.chains _ hblt
  by_cases hre : run = []
  · subst hre
    have hall : ∀ nd ∈ pre ++ post, hasher nd.key % t.table.length ≠ hasher k % t.table.length := by
      intro nd hnd
      rcases List.mem_append.mp hnd with h | h
      · exact hpre nd h
      · exact hpost nd h
    have hw := wf_insert_at wf [] [] (pre ++ post) k v (by simpa using hdata)
      (by simp) (by simp) hall (fun _ => rfl) hk
    refine ⟨_, ?_, hw, by simp, rfl, [], t.data, rfl, ?_⟩
    · simp [linkNew, htab, hdata]
    · simp [hdata]
  · have hlen : run.length ≠ 0 := fun h => hre (List.length_eq_zero.mp h)
    have hids : ((pre ++ (run ++ post)).map Node.id).Nodup := hdata ▸ wf.ids
    have hw := wf_insert_at wf pre run post k v hdata hpre hrun hpost
      (fun h => absurd h hre) hk
    refine ⟨_, ?_, hw, by simp, rfl, pre, run ++ post, hdata, rfl⟩
    simp only [linkNew, htab, hlen, if_false]
    rw [hiter hre, hdata, ← iterOf_append_of_ne_nil post hre,
      listInsert_iterOf pre (run ++ post) _ hids]

theorem insertWith_spec {hasher : K → Nat}
    (rehashFn : Nat → HashMap K V → Outcome (HashMap K V)) {t : HashMap K V}
    (wf : WF hasher t) (k : K) (v : V)
    (hrh : 4 * t.table.length < 5 * (t.size + 1) → ∀ t1 : HashMap K V, WF hasher t1 →
      t1.size = t.size + 1 → t1.table.length = t.table.length →
      ∃ t2, rehashFn (t.table.length * 2) t1 = Outcome.ok t2 ∧
        RehashPost hasher (t.table.length * 2) t1 t2) :
    ∃ r, insertWith hasher rehashFn t k v = Outcome.ok r ∧ InsertPost hasher t k v r := by
  have hn := wf.buckets
  by_cases hloc : locate t.data k = Iter.sentinel
  · have hk := locate_eq_sentinel.mp hloc
    obtain ⟨t1, hlink, wf1, hlen1, hnext1, A, B, hAB, hAB1⟩ := linkNew_spec wf k v hk
    have hsize1 : t1.size = t.size + 1 := by
      simp only [size, hAB, hAB1, List.length_append, List.length_cons]; omega
    have hkA : ∀ x ∈ A, x.key ≠ k := fun x hx => hk x (by rw [hAB]; simp [hx])
    have hperm1 : (entries t1).Perm ((k, v) :: entries t) := by
      unfold entries
      rw [hAB, hAB1]
      exact List.perm_middle.map _
    have hloc1 : locate t1.data k = Iter.node t.next := by
      rw [hAB1]
      exact locate_insert A B { id := t.next, key := k, val := v } hkA
    by_cases hload : 5 * t1.size > 4 * t1.table.length
    · have hload2 : 4 * t.table.length < 5 * (t.size + 1) := by
        rw [hsize1, hlen1] at hload; exact hload
      obtain ⟨t2, hr2, post2⟩ := hrh hload2 t1 wf1 hsize1 hlen1
      have hmem : ∃ nd, nd ∈ t2.data ∧ nd.key = k := by
        have h1 : (k, v) ∈ entries t2 :=
          (post2.perm.trans hperm1).symm.subset (List.mem_cons_self _ _)
        obtain ⟨nd, hnd, he⟩ := List.mem_map.mp h1
        exact ⟨nd, hnd, by simpa using congrArg Prod.fst he⟩
      have hloc2 : locate t2.data k ≠ Iter.sentinel := by
        intro h
        obtain ⟨nd, hnd, he⟩ := hmem
        exact locate_eq_sentinel.mp h nd hnd he
      obtain ⟨nd2, hnd2, hkey2, hit2⟩ := locate_ne_sentinel hloc2
      refine ⟨(t2, locate t2.data k, true), ?_, ?_⟩
      · have hload3 : 5 * t1.size > 4 * t.table.length := by rw [hlen1] at hload; exact hload
        simp only [insertWith, hash_spec hn, getElementByChain_spec wf, hloc, hlink,
          ne_eq, not_true_eq_false, if_false, hload3, if_true, hlen1, hr2,
          hash_spec post2.wf.buckets, getElementByChain_spec post2.wf]
      · refine ⟨post2.wf, rfl, ⟨nd2, hnd2, hkey2, hit2⟩, fun _ => hk, (fun h => Bool.noConfusion h),
          fun _ => post2.perm.trans hperm1, ?_, ?_, ?_⟩
        · have := post2.bucketsGe; show t.table.length ≤ t2.table.length; omega
        · intro h; omega
        · intro _ _ h
          show t2.table.length = 2 * t.table.length
          rw [post2.bucketsSame (by rw [hsize1]; omega)]; omega
    · refine ⟨(t1, Iter.node t.next, true), ?_, ?_⟩
      · simp only [insertWith, hash_spec hn, getElementByChain_spec wf, hloc, hlink,
          ne_eq, not_true_eq_false, if_false, hload]
      · refine ⟨wf1, hloc1.symm, ⟨{ id := t.next, key := k, val := v }, ?_, rfl, rfl⟩,
          fun _ => hk, (fun h => Bool.noConfusion h), fun _ => hperm1, ?_, ?_, ?_⟩
        · rw [hAB1]; simp
        · show t.table.length ≤ t1.table.length; omega
        · intro _; exact hlen1
        · intro _ h1 _
          rw [hsize1, hlen1] at hload
          omega
  · obtain ⟨nd, hnd, hkey, hit⟩ := locate_ne_sentinel hloc
    refine ⟨(t, locate t.data k, false), ?_, ?_⟩
    · simp only [insertWith, hash_spec hn, getElementByChain_spec wf, ne_eq, hloc,
        not_false_eq_true, if_true]
    · exact ⟨wf, rfl, ⟨nd, hnd, hkey, hit⟩, (fun h => Bool.noConfusion h), fun _ => ⟨rfl, nd, hnd, hkey⟩,
        (fun h => Bool.noConfusion h), Nat.le_refl _, fun _ => rfl, (fun h => Bool.noConfusion h)⟩

theorem wf_fresh (hasher : K → Nat) (m nxt : Nat) (hm : 1 ≤ m) :
    WF hasher ({ data := [], next := nxt, table := List.replicate m (Iter.sentinel, 0) } :
      HashMap K V) := by
  refine ⟨by simpa using hm, by simp, by simp, by simp, ?_⟩
  intro b hb
  simp only [List.length_replicate] at hb
  refine ⟨[], [], [], Iter.sentinel, rfl, ?_, fun h => absurd rfl h, by simp, by simp, by simp⟩
  simp [List.getElem?_replicate, hb]

theorem mem_data_of_perm {t1 t : HashMap K V} {p : K × V}
    (hperm : (entries t1).Perm (p :: entries t)) {nd : Node K V} (hnd : nd ∈ t1.data) :
    nd.key = p.1 ∨ ∃ x, x ∈ t.data ∧ x.key = nd.key := by
  have h1 : (nd.key, nd.val) ∈ entries t1 := List.mem_map.mpr ⟨nd, hnd, rfl⟩
  rcases List.mem_cons.mp (hperm.subset h1) with h | h
  · left; rw [← h]
  · right
    obtain ⟨x, hx, he⟩ := List.mem_map.mp h
    exact ⟨x, hx, by simpa using congrArg Prod.fst he⟩

theorem rehashLoop_spec {hasher : K → Nat}
    (ins : HashMap K V → K → V → Outcome (HashMap K V × Iter × Bool)) (bound : Nat)
    (hins : ∀ (t : HashMap K V) (k : K) (v : V), WF hasher t →
      5 * (t.size + 1) ≤ bound * t.table.length →
      ∃ r, ins t k v = Outcome.ok r ∧ InsertPost hasher t k v r) :
    ∀ (ps : List (K × V)) (t : HashMap K V), WF hasher t → (ps.map Prod.fst).Nodup →
      (∀ p ∈ ps, ∀ nd ∈ t.data, nd.key ≠ p.1) →
      5 * (t.size + ps.length) ≤ bound * t.table.length →
      ∃ t2, rehashLoop ins ps t = Outcome.ok t2 ∧ WF hasher t2 ∧
        (entries t2).Perm (ps ++ entries t) ∧ t.table.length ≤ t2.table.length ∧
        (5 * (t.size + ps.length) ≤ 4 * t.table.length → t2.table.length = t.table.length) := by
  intro ps
  induction ps with
  | nil =>
    intro t wf _ _ _
    exact ⟨t, rfl, wf, List.Perm.refl _, Nat.le_refl _, fun _ => rfl⟩
  | cons p ps ih =>
    intro t wf hnd hdis hload
    simp only [List.length_cons] at hload
    obtain ⟨r, hr, post⟩ := hins t p.1 p.2 wf (by omega)
    have hflag : r.2.2 = true := by
      cases hf : r.2.2 with
      | true => rfl
      | false =>
        obtain ⟨_, nd, hmem, hkey⟩ := post.flagF hf
        exact absurd hkey (hdis p (List.mem_cons_self p ps) nd hmem)
    have hperm : (entries r.1).Perm (p :: entries t) := post.perm hflag
    have hsize : r.1.size = t.size + 1 := by
      have := hperm.length_eq
      simpa [entries, size] using this
    rw [List.map_cons, List.nodup_cons] at hnd
    have hdis1 : ∀ q ∈ ps, ∀ nd ∈ r.1.data, nd.key ≠ q.1 := by
      intro q hq nd hmem heq
      rcases mem_data_of_perm hperm hmem with h | ⟨x, hx, hxk⟩
      · apply hnd.1
        rw [← h, heq]
        exact List.mem_map_of_mem Prod.fst hq
      · exact hdis q (List.mem_cons_of_mem p hq) x hx (by rw [hxk, heq])
    have hge := post.bucketsGe
    have hload1 : 5 * (r.1.size + ps.length) ≤ bound * r.1.table.length := by
      rw [hsize]
      calc 5 * (t.size + 1 + ps.length) = 5 * (t.size + (ps.length + 1)) := by ring
        _ ≤ bound * t.table.length := hload
        _ ≤ bound * r.1.table.length := Nat.mul_le_mul_left _ hge
    obtain ⟨t2, hr2, wf2, hperm2, hge2, hsame2⟩ := ih r.1 post.wf hnd.2 hdis1 hload1
    refine ⟨t2, ?_, wf2, ?_, Nat.le_trans hge hge2, ?_⟩
    · simp only [rehashLoop, hr]; exact hr2
    · refine hperm2.trans ?_
      refine (List.Perm.append_left ps hperm).trans ?_
      exact List.perm_middle
    · intro h
      simp only [List.length_cons] at h
      have h1 : r.1.table.length = t.table.length := post.bucketsSame (by omega)
      rw [hsame2 (by rw [hsize, h1]; omega), h1]

theorem pow_bound (s f : Nat) (h : s ≤ f) : s + 1 ≤ 2 ^ f :=
  Nat.lt_of_le_of_lt h (Nat.lt_two_pow f)

theorem insertFuel_spec {hasher : K → Nat} (fuel : Nat) :
    ∀ (t : HashMap K V) (k : K) (v : V), WF hasher t →
      5 * (t.size + 1) ≤ 4 * 2 ^ fuel * t.table.length →
      ∃ r, insertFuel hasher fuel t k v = Outcome.ok r ∧ InsertPost hasher t k v r := by
  induction fuel with
  | zero =>
    intro t k v wf hload
    simp only [insertFuel]
    apply insertWith_spec _ wf
    intro h
    simp only [pow_zero, Nat.mul_one] at hload
    omega
  | succ f ih =>
    intro t k v wf hload
    simp only [insertFuel]
    apply insertWith_spec _ wf
    intro _ t1 wf1 hsize1 hlen1
    have hn := wf.buckets
    have hkeys : ((t1.data.map (fun nd => (nd.key, nd.val))).map Prod.fst).Nodup := by
      rw [List.map_map]; exact wf1.keys
    have hload1 : 5 * ((⟨[], t1.next, List.replicate (t.table.length * 2) (Iter.sentinel, 0)⟩ :
        HashMap K V).size + (t1.data.map (fun nd => (nd.key, nd.val))).length)
        ≤ 4 * 2 ^ f * (⟨[], t1.next, List.replicate (t.table.length * 2) (Iter.sentinel, 0)⟩ :
        HashMap K V).table.length := by
      simp only [size, List.length_nil, List.length_map, List.length_replicate, Nat.zero_add]
      have : t1.data.length = t.size + 1 := hsize1
      rw [this]
      calc 5 * (t.size + 1) ≤ 4 * 2 ^ (f + 1) * t.table.length := hload
        _ = 4 * 2 ^ f * (t.table.length * 2) := by ring
    obtain ⟨t2, hr2, wf2, hperm2, hge2, hsame2⟩ :=
      rehashLoop_spec (insertFuel hasher f) (4 * 2 ^ f) ih
        (t1.data.map (fun nd => (nd.key, nd.val)))
        ⟨[], t1.next, List.replicate (t.table.length * 2) (Iter.sentinel, 0)⟩
        (wf_fresh hasher _ _ (by omega)) hkeys (by simp) hload1
    refine ⟨t2, ?_, wf2, ?_, ?_, ?_⟩
    · simp only [rehashWith, hlen1]; exact hr2
    · simpa [entries] using hperm2
    · simpa using hge2
    · intro h
      have := hsame2 (by
        simp only [size, List.length_nil, List.length_map, List.length_replicate, Nat.zero_add]
        exact h)
      simpa using this

theorem insert_spec {hasher : K → Nat} {t : HashMap K V} (wf : WF hasher t) (k : K) (v : V) :
    ∃ r, insert hasher t k v = Outcome.ok r ∧ InsertPost hasher t k v r := by
  apply insertFuel_spec (t.size + 1) t k v wf
  have h1 : t.size + 1 ≤ 2 ^ t.size := pow_bound t.size t.size (Nat.le_refl _)
  have hn := wf.buckets
  calc 5 * (t.size + 1) ≤ 8 * 2 ^ t.size * 1 := by omega
    _ ≤ 8 * 2 ^ t.size * t.table.length := Nat.mul_le_mul_left _ hn
    _ = 4 * 2 ^ (t.size + 1) * t.table.length := by ring

theorem insertAll_eq_rehashLoop (hasher : K → Nat) (ps : List (K × V)) (t : HashMap K V) :
    insertAll hasher ps t = rehashLoop (insert hasher) ps t := by
  induction ps generalizing t with
  | nil => rfl
  | cons p ps ih =>
    simp only [insertAll, rehashLoop]
    cases insert hasher t p.1 p.2 with
    | ok r => exact ih r.1
    | fault => rfl
    | timeout => rfl

theorem deref_of_mem {data : List (Node K V)} (hids : (data.map Node.id).Nodup)
    {nd : Node K V} (hnd : nd ∈ data) : deref data (Iter.node nd.id) = some (nd.key, nd.val) := by
  obtain ⟨pre, suf, hsplit⟩ := List.append_of_mem hnd
  subst hsplit
  have h := listSeek_iterOf pre (nd :: suf) hids
  simp only [iterOf] at h
  simp [deref, h]

theorem find_present {hasher : K → Nat} {t : HashMap K V} (wf : WF hasher t) {k : K} {v : V}
    (h : (k, v) ∈ entries t) :
    ∃ iter, iter ≠ Iter.sentinel ∧ find hasher t k = some iter ∧ deref t.data iter = some (k, v) := by
  obtain ⟨nd, hnd, he⟩ := List.mem_map.mp h
  have hkey : nd.key = k := by simpa using congrArg Prod.fst he
  have hval : nd.val = v := by simpa using congrArg Prod.snd he
  have hloc : locate t.data k ≠ Iter.sentinel := fun hs => locate_eq_sentinel.mp hs nd hnd hkey
  obtain ⟨x, hx, hxk, hxi⟩ := locate_ne_sentinel hloc
  have hxe : x = nd :=
    List.inj_on_of_nodup_map wf.keys hx hnd (by rw [hxk, hkey])
  refine ⟨Iter.node nd.id, by simp, ?_, ?_⟩
  · rw [find_spec wf k, hxi, hxe]
  · rw [deref_of_mem wf.ids hnd, hkey, hval]

theorem find_absent {hasher : K → Nat} {t : HashMap K V} (wf : WF hasher t) {k : K}
    (h : ∀ nd ∈ t.data, nd.key ≠ k) : find hasher t k = some Iter.sentinel := by
  rw [find_spec wf k, locate_eq_sentinel.mpr h]

theorem lookup_present {hasher : K → Nat} {t : HashMap K V} (wf : WF hasher t) {k : K} {v : V}
    (h : (k, v) ∈ entries t) : lookup hasher t k = some (some v) := by
  obtain ⟨iter, hne, hf, hd⟩ := find_present wf h
  simp [lookup, hf, hne, hd]

theorem lookup_absent {hasher : K → Nat} {t : HashMap K V} (wf : WF hasher t) {k : K}
    (h : ∀ nd ∈ t.data, nd.key ≠ k) : lookup hasher t k = some none := by
  simp [lookup, find_absent wf h]

theorem insertAll_spec {hasher : K → Nat} (ps : List (K × V)) (t : HashMap K V)
    (wf : WF hasher t) (hnd : (ps.map Prod.fst).Nodup)
    (hdis : ∀ p ∈ ps, ∀ nd ∈ t.data, nd.key ≠ p.1) :
    ∃ t2, insertAll hasher ps t = Outcome.ok t2 ∧ WF hasher t2 ∧
      (entries t2).Perm (ps ++ entries t) := by
  rw [insertAll_eq_rehashLoop]
  obtain ⟨t2, h1, h2, h3, _, _⟩ :=
    rehashLoop_spec (insert hasher) (5 * (t.size + ps.length))
      (fun t k v wf _ => insert_spec wf k v) ps t wf hnd hdis
      (Nat.le_mul_of_pos_right _ wf.buckets)
  exact ⟨t2, h1, h2, h3⟩

theorem linkNew_size {t t1 : HashMap K V} {b : Nat} {k : K} {v : V}
    (h : linkNew t b k v = some t1) :
    t1.size = t.size + 1 ∧ t1.table.length = t.table.length := by
  unfold linkNew at h
  split at h
  · cases h
  · simp only at h
    split at h
    · simp only [Option.some.injEq] at h
      rw [← h]; simp [size]
    · split at h
      · cases h
      · rename_i hins
        simp only [Option.some.injEq] at h
        rw [← h]
        simp [size, listInsert_length hins]

theorem insertWith_load {hasher : K → Nat}
    (rehashFn : Nat → HashMap K V → Outcome (HashMap K V))
    (hrh : ∀ m t1 t2, 1 ≤ m → rehashFn m t1 = Outcome.ok t2 → LoadOk t2)
    {t : HashMap K V} {k : K} {v : V} {r : HashMap K V × Iter × Bool}
    (hl : LoadOk t) (h : insertWith hasher rehashFn t k v = Outcome.ok r) : LoadOk r.1 := by
  unfold insertWith at h
  split at h
  · cases h
  · split at h
    · cases h
    · split at h
      · simp only [Outcome.ok.injEq] at h
        rw [← h]; exact hl
      · split at h
        · cases h
        · rename_i t1 hlink
          obtain ⟨hs, hn⟩ := linkNew_size hlink
          split at h
          · split at h
            · rename_i t2 hr
              have h2 : LoadOk t2 := hrh _ t1 t2 (by have := hl.1; omega) hr
              split at h
              · cases h
              · split at h
                · cases h
                · simp only [Outcome.ok.injEq] at h
                  rw [← h]; exact h2
            · cases h
            · cases h
          · rename_i hload
            simp only [Outcome.ok.injEq] at h
            rw [← h]
            exact ⟨by rw [hn]; exact hl.1, by show 5 * t1.size ≤ 4 * t1.table.length; omega⟩

theorem rehashLoop_load (ins : HashMap K V → K → V → Outcome (HashMap K V × Iter × Bool))
    (hins : ∀ t k v r, LoadOk t → ins t k v = Outcome.ok r → LoadOk r.1) :
    ∀ (ps : List (K × V)) (t t2 : HashMap K V), LoadOk t →
      rehashLoop ins ps t = Outcome.ok t2 → LoadOk t2 := by
  intro ps
  induction ps with
  | nil =>
    intro t t2 hl h
    simp only [rehashLoop, Outcome.ok.injEq] at h
    rw [← h]; exact hl
  | cons p ps ih =>
    intro t t2 hl h
    simp only [rehashLoop] at h
    split at h
    · rename_i r hr
      exact ih r.1 t2 (hins t p.1 p.2 r hl hr) h
    · cases h
    · cases h

theorem rehashWith_load (ins : HashMap K V → K → V → Outcome (HashMap K V × Iter × Bool))
    (hins : ∀ t k v r, LoadOk t → ins t k v = Outcome.ok r → LoadOk r.1)
    (m : Nat) (t1 t2 : HashMap K V) (hm : 1 ≤ m)
    (h : rehashWith ins m t1 = Outcome.ok t2) : LoadOk t2 := by
  unfold rehashWith at h
  refine rehashLoop_load ins hins _ _ t2 ?_ h
  exact ⟨by simpa using hm, by simp [size]⟩

theorem insertFuel_load {hasher : K → Nat} (fuel : Nat) :
    ∀ (t : HashMap K V) (k : K) (v : V) (r : HashMap K V × Iter × Bool), LoadOk t →
      insertFuel hasher fuel t k v = Outcome.ok r → LoadOk r.1 := by
  induction fuel with
  | zero =>
    intro t k v r hl h
    exact insertWith_load _ (fun _ _ _ _ h => by cases h) hl h
  | succ f ih =>
    intro t k v r hl h
    exact insertWith_load _ (rehashWith_load _ ih) hl h

theorem erase_load {hasher : K → Nat} {t : HashMap K V} {k : K} {r : HashMap K V × Iter}
    (hl : LoadOk t) (h : erase hasher t k = some r) : LoadOk r.1 := by
  unfold erase at h
  split at h
  · simp only [Option.some.injEq] at h
    rw [← h]; exact hl
  · split at h
    · cases h
    · split at h
      · cases h
      · split at h
        · simp only [Option.some.injEq] at h
          rw [← h]; exact hl
        · split at h
          · cases h
          · split at h
            · split at h
              · cases h
              · rename_i data1 newIter he
                simp only [Option.some.injEq] at h
                have hlen := listErase_length he
                rw [← h]
                refine ⟨by simpa using hl.1, ?_⟩
                have h2 := hl.2
                simp only [size, List.length_set] at h2 ⊢
                omega
            · simp only [Option.some.injEq] at h
              rw [← h]
              refine ⟨by simpa using hl.1, ?_⟩
              have h2 := hl.2
              simp only [size, List.length_set] at h2 ⊢
              exact h2

theorem subscript_load [Inhabited V] {hasher : K → Nat} {t : HashMap K V} {k : K}
    {r : HashMap K V × V} (hl : LoadOk t) (h : subscript hasher t k = Outcome.ok r) :
    LoadOk r.1 := by
  unfold subscript at h
  split at h
  · cases h
  · split at h
    · cases h
    · split at h
      · split at h
        · cases h
        · simp only [Outcome.ok.injEq] at h
          rw [← h]; exact hl
      · split at h
        · cases h
        · simp only at h
          split at h
          · cases h
          · rename_i chainInfo _ t1 hlink
            have hs : t1.size = t.size + 1 ∧ t1.table.length = t.table.length := by
              split at hlink
              · simp only [Option.some.injEq] at hlink
                rw [← hlink]; simp [size]
              · split at hlink
                · cases hlink
                · rename_i hins
                  simp only [Option.some.injEq] at hlink
                  rw [← hlink]
                  simp [size, listInsert_length hins]
            split at h
            · split at h
              · rename_i t2 hr
                have h2 : LoadOk t2 :=
                  rehashWith_load _ (insertFuel_load _) _ t1 t2 (by have := hl.1; omega) hr
                split at h
                · cases h
                · split at h
                  · cases h
                  · split at h
                    · cases h
                    · simp only [Outcome.ok.injEq] at h
                      rw [← h]; exact h2
              · cases h
              · cases h
            · simp only [Outcome.ok.injEq] at h
              rw [← h]
              exact ⟨by rw [hs.2]; exact hl.1, by show 5 * t1.size ≤ 4 * t1.table.length; omega⟩

theorem runOps_load [Inhabited V] {hasher : K → Nat} (ops : List (Op K V)) :
    ∀ (t t2 : HashMap K V), LoadOk t → runOps hasher ops t = Outcome.ok t2 → LoadOk t2 := by
  induction ops with
  | nil =>
    intro t t2 hl h
    simp only [runOps, Outcome.ok.injEq] at h
    rw [← h]; exact hl
  | cons op ops ih =>
    intro t t2 hl h
    simp only [runOps] at h
    split at h
    · rename_i t1 hop
      refine ih t1 t2 ?_ h
      cases op with
      | insert key value =>
        simp only [runOp] at hop
        split at hop
        · rename_i r hr
          simp only [Outcome.ok.injEq] at hop
          rw [← hop]; exact insertFuel_load _ t key value r hl hr
        · cases hop
        · cases hop
      | erase key =>
        simp only [runOp] at hop
        split at hop
        · rename_i r hr
          simp only [Outcome.ok.injEq] at hop
          rw [← hop]; exact erase_load hl hr
        · cases hop
      | subscript key =>
        simp only [runOp] at hop
        split at hop
        · rename_i r hr
          simp only [Outcome.ok.injEq] at hop
          rw [← hop]; exact subscript_load hl hr
        · cases hop
        · cases hop
    · cases h
    · cases h

theorem size_of_perm {t1 t : HashMap K V} {l : List (K × V)}
    (h : (entries t1).Perm (l ++ entries t)) : t1.size = l.length + t.size := by
  have := h.length_eq
  simpa [entries, size] using this

theorem insertAll_append (hasher : K → Nat) (a b : List (K × V)) (t : HashMap K V) :
    insertAll hasher (a ++ b) t =
      match insertAll hasher a t with
      | Outcome.ok t1 => insertAll hasher b t1
      | Outcome.fault => Outcome.fault
      | Outcome.timeout => Outcome.timeout := by
  induction a generalizing t with
  | nil => rfl
  | cons p ps ih =>
    simp only [List.cons_append, insertAll]
    cases insert hasher t p.1 p.2 with
    | ok r => exact ih r.1
    | fault => rfl
    | timeout => rfl

theorem insertAll_reach {hasher : K → Nat} (ps : List (K × V)) :
    ∀ (t t2 : HashMap K V), WF hasher t → LoadOk t →
      insertAll hasher ps t = Outcome.ok t2 → WF hasher t2 ∧ LoadOk t2 := by
  induction ps with
  | nil =>
    intro t t2 wf hl h
    simp only [insertAll, Outcome.ok.injEq] at h
    rw [← h]; exact ⟨wf, hl⟩
  | cons p ps ih =>
    intro t t2 wf hl h
    obtain ⟨r, hr, post⟩ := insert_spec wf p.1 p.2
    simp only [insertAll, hr] at h
    exact ih r.1 t2 post.wf (insertFuel_load _ t p.1 p.2 r hl hr) h

theorem reach_construct {hasher : K → Nat} {n : Nat} (hn : 1 ≤ n) {kvs : List (K × V)}
    {t : HashMap K V} (h : insertAll hasher kvs (construct n) = Outcome.ok t) :
    WF hasher t ∧ LoadOk t :=
  insertAll_reach kvs (construct n) t (wf_fresh hasher n 0 hn)
    ⟨by simpa [construct] using hn, by simp [construct, size]⟩ h

theorem insert_buckets_general {hasher : K → Nat} {n0 : Nat} (hn : 1 ≤ n0)
    {kvs : List (K × V)} {t : HashMap K V}
    (hreach : insertAll hasher kvs (construct n0) = Outcome.ok t) (k : K) (v : V) :
    ∃ r, insert hasher t k v = Outcome.ok r ∧
      (r.2.2 = true ↔ ∀ nd ∈ t.data, nd.key ≠ k) ∧
      (r.2.2 = false → r.1.table.length = t.table.length) ∧
      (r.2.2 = true → r.1.size = t.size + 1 ∧
        (5 * r.1.size ≤ 4 * t.table.length → r.1.table.length = t.table.length) ∧
        (4 * t.table.length < 5 * r.1.size → r.1.table.length = 2 * t.table.length)) := by
  obtain ⟨wf, hl⟩ := reach_construct hn hreach
  obtain ⟨r, hr, post⟩ := insert_spec wf k v
  refine ⟨r, hr, ⟨post.flagT, ?_⟩, ?_, ?_⟩
  · intro habs
    cases hf : r.2.2 with
    | true => rfl
    | false =>
      obtain ⟨_, nd, hnd, hkey⟩ := post.flagF hf
      exact absurd hkey (habs nd hnd)
  · intro hf
    rw [(post.flagF hf).1]
  · intro hf
    have hsize : r.1.size = t.size + 1 := by
      have h := size_of_perm (l := [(k, v)]) (post.perm hf)
      simpa [Nat.add_comm] using h
    refine ⟨hsize, ?_, ?_⟩
    · intro h; exact post.bucketsSame (by rw [hsize] at h; exact h)
    · intro h
      rw [hsize] at h
      have h1 := hl.1
      have h2 := hl.2
      refine post.bucketsTwice hf h ?_
      rcases Nat.lt_or_ge t.table.length 2 with h3 | h3
      · have h4 : t.table.length = 1 := by omega
        have h5 : t.size = 0 := by omega
        rw [h4, h5]; decide
      · omega

theorem sixteen_keep (hasher : K → Nat) (kvs : List (K × V))
    (hnd : (kvs.map Prod.fst).Nodup) (hlen : kvs.length ≤ 12) :
    ∃ t, insertAll hasher kvs (construct 16) = Outcome.ok t ∧ WF hasher t ∧
      (entries t).Perm kvs ∧ t.table.length = 16 := by
  have wf0 : WF hasher (construct 16 : HashMap K V) := wf_fresh hasher 16 0 (by decide)
  obtain ⟨t, h1, h2, h3, _, h5⟩ :=
    rehashLoop_spec (insert hasher) 4 (fun t k v wf _ => insert_spec wf k v) kvs (construct 16)
      wf0 hnd (by simp [construct]) (by simp [construct, size]; omega)
  refine ⟨t, by rw [insertAll_eq_rehashLoop]; exact h1, h2, by simpa [construct, entries] using h3, ?_⟩
  have := h5 (by simp [construct, size]; omega)
  simpa [construct] using this

theorem sixteen_grow (hasher : K → Nat) (kvs : List (K × V))
    (hnd : (kvs.map Prod.fst).Nodup) (hlen : kvs.length = 13) :
    ∃ t, insertAll hasher kvs (construct 16) = Outcome.ok t ∧ t.table.length = 32 := by
  have hne : kvs ≠ [] := by intro h; rw [h] at hlen; simp at hlen
  obtain ⟨front, last, hsplit⟩ : ∃ front last, kvs = front ++ [last] :=
    ⟨kvs.dropLast, kvs.getLast hne, (List.dropLast_append_getLast hne).symm⟩
  subst hsplit
  simp only [List.length_append, List.length_singleton] at hlen
  rw [List.map_append, List.nodup_append] at hnd
  obtain ⟨t, ht, wf, hperm, hlen16⟩ := sixteen_keep hasher front hnd.1 (by omega)
  have hsize : t.size = 12 := by
    have := hperm.length_eq
    simp only [entries, List.length_map] at this
    show t.data.length = 12
    omega
  have habs : ∀ nd ∈ t.data, nd.key ≠ last.1 := by
    intro nd hmem hkey
    have h1 : (nd.key, nd.val) ∈ front := hperm.subset (List.mem_map.mpr ⟨nd, hmem, rfl⟩)
    have h2 : nd.key ∈ front.map Prod.fst := List.mem_map.mpr ⟨_, h1, rfl⟩
    exact hnd.2.2 h2 (by rw [hkey]; simp)
  obtain ⟨r, hr, post⟩ := insert_spec wf last.1 last.2
  have hflag : r.2.2 = true := by
    cases hf : r.2.2 with
    | true => rfl
    | false =>
      obtain ⟨_, nd, hmem, hkey⟩ := post.flagF hf
      exact absurd hkey (habs nd hmem)
  refine ⟨r.1, ?_, ?_⟩
  · rw [insertAll_append, ht]
    simp only [insertAll, hr]
  · rw [post.bucketsTwice hflag (by rw [hsize, hlen16]; decide) (by rw [hsize, hlen16]; decide),
      hlen16]

theorem chainWalk_some {data : List (Node K V)} {key : K} (i : Nat) :
    ∀ {iter found : Iter}, chainWalk data key i iter = some found → found ≠ Iter.sentinel →
      ∃ nd rest, listSeek data found = nd :: rest ∧ nd.key = key := by
  induction i with
  | zero =>
    intro iter found h hne
    simp only [chainWalk, Option.some.injEq] at h
    exact absurd h.symm hne
  | succ i ih =>
    intro iter found h hne
    rw [chainWalk] at h
    split at h
    · cases h
    · rename_i nd rest hseek
      split at h
      · rename_i hkey
        simp only [Option.some.injEq] at h
        subst h
        exact ⟨nd, rest, hseek, hkey⟩
      · exact ih h hne


theorem find_some_deref {hasher : K → Nat} {t : HashMap K V} {k : K} {iter : Iter}
    (h : find hasher t k = some iter) (hne : iter ≠ Iter.sentinel) :
    t.table.length ≠ 0 ∧ getElementByChain t (hasher k % t.table.length) k = some iter ∧
      ∃ nd rest, listSeek t.data iter = nd :: rest ∧ nd.key = k := by
  unfold find at h
  split at h
  · simp only [Option.some.injEq] at h
    exact absurd h.symm hne
  · rename_i h0
    simp only [hash, h0, if_false] at h
    refine ⟨h0, h, ?_⟩
    unfold getElementByChain at h
    split at h
    · cases h
    · split at h
      · simp only [Option.some.injEq] at h
        exact absurd h.symm hne
      · exact chainWalk_some _ h hne


theorem insert_returns_record {hasher : K → Nat} {n0 : Nat} (hn : 1 ≤ n0)
    {kvs : List (K × V)} {t : HashMap K V}
    (hreach : insertAll hasher kvs (construct n0) = Outcome.ok t) (k : K) (v : V)
    (habs : ∀ nd ∈ t.data, nd.key ≠ k) :
    ∃ r, insert hasher t k v = Outcome.ok r ∧ r.2.2 = true ∧
      r.2.1 ≠ Iter.sentinel ∧ deref r.1.data r.2.1 = some (k, v) := by
  obtain ⟨wf, _⟩ := reach_construct hn hreach
  obtain ⟨r, hr, post⟩ := insert_spec wf k v
  have hflag : r.2.2 = true := by
    cases hf : r.2.2 with
    | true => rfl
    | false =>
      obtain ⟨_, nd, hnd, hkey⟩ := post.flagF hf
      exact absurd hkey (habs nd hnd)
  have hmem : (k, v) ∈ entries r.1 := (post.perm hflag).symm.subset (List.mem_cons_self _ _)
  obtain ⟨iter, hne, hfind, hderef⟩ := find_present post.wf hmem
  have hit : r.2.1 = iter := by
    have h1 := find_spec post.wf k
    rw [hfind] at h1
    rw [post.iter]
    exact (Option.some.inj h1).symm
  exact ⟨r, hr, hflag, by rw [hit]; exact hne, by rw [hit]; exact hderef⟩

theorem wf_afterInserts3 : WF (fun k : Nat => k) afterInserts3 := by
  have h : insertAll (fun k : Nat => k) [(0, 100), (16, 116), (32, 132)] (construct 16)
      = Outcome.ok afterInserts3 := by decide
  exact (reach_construct (by decide) h).1

theorem not_wf_afterErase16 : ¬ WF (fun k : Nat => k) afterErase16 := by
  intro wf
  have h := find_spec wf 32
  have h2 : find (fun k : Nat => k) afterErase16 32 = none := by decide
  rw [h2] at h
  cases h

end Lemmas

/-! ## The claims -/

section Claims

variable {K V : Type} [DecidableEq K]

/-- C1: for every bucket count `n ≥ 1` and every sequence of `insert(k_i, v_i)` calls with
pairwise different keys on a freshly constructed table (rehashes included), the run
completes, `size()` is the number of keys inserted, and for every `i` the call `find(k_i)`
returns an iterator to a record that holds exactly `(k_i, v_i)`. -/
theorem insert_distinct_size_find (hasher : K → Nat) (n : Nat) (hn : 1 ≤ n)
    (kvs : List (K × V)) (hnd : (kvs.map Prod.fst).Nodup) :
    ∃ t, insertAll hasher kvs (construct n) = Outcome.ok t ∧ t.size = kvs.length ∧
      ∀ p ∈ kvs, ∃ iter, iter ≠ Iter.sentinel ∧ find hasher t p.1 = some iter ∧
        deref t.data iter = some p := by
  obtain ⟨t, ht, wf, hperm⟩ :=
    insertAll_spec kvs (construct n) (wf_fresh hasher n 0 hn) hnd (by simp [construct])
  refine ⟨t, ht, ?_, ?_⟩
  · simpa [construct, size] using size_of_perm hperm
  · intro p hp
    have hmem : (p.1, p.2) ∈ entries t := hperm.symm.subset (by simp [hp])
    exact find_present wf hmem

/-- C1, at the thirteen inserts of the example of the specification (16 buckets, one
rehash). -/
theorem insert_distinct_size_find_witness :
    1 ≤ 16 ∧ (thirteen.map Prod.fst).Nodup ∧
    ∃ t, insertAll (fun k : Nat => k) thirteen (construct 16) = Outcome.ok t ∧
      t.size = thirteen.length ∧
      ∀ p ∈ thirteen, ∃ iter, iter ≠ Iter.sentinel ∧
        find (fun k : Nat => k) t p.1 = some iter ∧ deref t.data iter = some p :=
  ⟨by decide, by decide,
    insert_distinct_size_find (fun k : Nat => k) 16 (by decide) thirteen (by decide)⟩

/-- C2: in every table state, if `find(k)` returns a record (an iterator other than
`end()`), then `insert(k, v)` returns that iterator and `false` and leaves the whole state
(record store, bucket table, size) unchanged. -/
theorem insert_duplicate_unchanged (hasher : K → Nat) (t : HashMap K V) (k : K) (v : V)
    (iter : Iter) (h : find hasher t k = some iter) (hne : iter ≠ Iter.sentinel) :
    insert hasher t k v = Outcome.ok (t, iter, false) := by
  unfold find at h
  split at h
  · simp only [Option.some.injEq] at h
    exact absurd h.symm hne
  · split at h
    · cases h
    · rename_i chainIdx hh
      simp [insert, insertFuel, insertWith, hh, h, hne]

/-- C2, at key 16 of the table holding keys 0, 16 and 32. -/
theorem insert_duplicate_unchanged_witness :
    find (fun k : Nat => k) afterInserts3 16 = some (Iter.node 1) ∧
    Iter.node 1 ≠ Iter.sentinel ∧
    insert (fun k : Nat => k) afterInserts3 16 999
      = Outcome.ok (afterInserts3, Iter.node 1, false) :=
  ⟨by decide, by decide,
    insert_duplicate_unchanged (fun k : Nat => k) afterInserts3 16 999 (Iter.node 1)
      (by decide) (by decide)⟩

/-- C3 (the code departs from the claim): with 16 buckets and the identity hash, after
inserting keys 0, 16, 32 the key 32 is found; `erase(16)` sets the chain start of bucket 0
to the successor of the removed record although that record was not the chain head, and
afterwards `find(32)` walks two records from the record of key 0 and dereferences `end()`.
With the chain of bucket 1 behind the chain of bucket 0 the same walk stays inside the
store and `find(32)` returns `end()`: key 32 is lost. -/
theorem erase_loses_other_key :
    insertAll (fun k : Nat => k) [(0, 100), (16, 116), (32, 132)] (construct 16)
      = Outcome.ok afterInserts3 ∧
    lookup (fun k : Nat => k) afterInserts3 32 = some (some 132) ∧
    erase (fun k : Nat => k) afterInserts3 16 = some (afterErase16, Iter.node 0) ∧
    find (fun k : Nat => k) afterErase16 32 = none ∧
    insertAll (fun k : Nat => k) [(1, 101), (0, 100), (16, 116), (32, 132)] (construct 16)
      = Outcome.ok afterInserts4 ∧
    lookup (fun k : Nat => k) afterInserts4 32 = some (some 132) ∧
    erase (fun k : Nat => k) afterInserts4 16 = some (afterErase16b, Iter.node 1) ∧
    lookup (fun k : Nat => k) afterErase16b 32 = some none := by
  refine ⟨?_, ?_, ?_, ?_, ?_, ?_, ?_, ?_⟩ <;> decide

/-- C4 (the code departs from the claim): with 16 buckets and the identity hash, after
inserting keys 0, 16, 32 the call `erase(16)` removes one record (the size drops from 3 to
2), but afterwards `find(16)` does not return: the chain of bucket 0 has length 2 and
starts at the last record of the store, so the walk dereferences `end()`. -/
theorem erase_then_find_faults :
    insertAll (fun k : Nat => k) [(0, 100), (16, 116), (32, 132)] (construct 16)
      = Outcome.ok afterInserts3 ∧
    lookup (fun k : Nat => k) afterInserts3 16 = some (some 116) ∧
    erase (fun k : Nat => k) afterInserts3 16 = some (afterErase16, Iter.node 0) ∧
    afterErase16.size + 1 = afterInserts3.size ∧
    find (fun k : Nat => k) afterErase16 16 = none := by
  refine ⟨?_, ?_, ?_, ?_, ?_⟩ <;> decide

/-- Where `find(k)` returns `end()`, and so on every well-formed table without a record of
key `k`, `erase(k)` returns `end()` and leaves the whole state (size, record store, bucket
table) unchanged; in particular this holds on the freshly constructed table, for any bucket
count and any key. -/
theorem erase_absent_noop (hasher : K → Nat) :
    (∀ (t : HashMap K V) (k : K),
      (find hasher t k = some Iter.sentinel ∨ (WF hasher t ∧ ∀ nd ∈ t.data, nd.key ≠ k)) →
      erase hasher t k = some (t, Iter.sentinel)) ∧
    (∀ (n : Nat) (k : K),
      erase hasher (construct n : HashMap K V) k = some (construct n, Iter.sentinel)) := by
  have key : ∀ (t : HashMap K V) (k : K), find hasher t k = some Iter.sentinel →
      erase hasher t k = some (t, Iter.sentinel) := by
    intro t k hf
    unfold find at hf
    unfold erase
    split at hf
    · rename_i h0
      simp [h0]
    · rename_i h0
      split at hf
      · cases hf
      · rename_i chainIdx hh
        simp [h0, hh, hf]
  refine ⟨?_, ?_⟩
  · intro t k h
    rcases h with h | ⟨wf, habs⟩
    · exact key t k h
    · exact key t k (find_absent wf habs)
  · intro n k
    apply key
    rcases Nat.eq_zero_or_pos n with h0 | hpos
    · subst h0
      simp [find, construct]
    · exact find_absent (wf_fresh hasher n 0 hpos) (by simp)

/-- The lemma `erase_absent_noop` at key 5 of the empty table with 16 buckets. -/
theorem erase_absent_noop_witness :
    find (fun k : Nat => k) (construct 16 : HashMap Nat Nat) 5 = some Iter.sentinel ∧
    erase (fun k : Nat => k) (construct 16 : HashMap Nat Nat) 5
      = some (construct 16, Iter.sentinel) :=
  ⟨by decide,
    (erase_absent_noop (fun k : Nat => k)).1 (construct 16) 5 (Or.inl (by decide))⟩

/-- C5 (the code departs from the claim): with 16 buckets and the identity hash, after
`insert(0, 100)`, `insert(16, 116)`, `insert(32, 132)`, `erase(16)` the store holds the keys
32 and 0, so key 48 is not present; yet `erase(48)` does not return the end handle: the
chain of bucket 0 has length 2 and starts at the last record of the store, so the search
for key 48 compares that record, steps to `end()` and dereferences it.  On the table before
the `erase(16)`, and on the empty table, `erase(48)` returns `end()` and changes nothing. -/
theorem erase_absent_key_faults :
    runOps (fun k : Nat => k)
      [Op.insert 0 100, Op.insert 16 116, Op.insert 32 132, Op.erase 16] (construct 16)
      = Outcome.ok afterErase16 ∧
    afterErase16.data.map Node.key = [32, 0] ∧
    afterErase16.table[0]? = some (Iter.node 0, 2) ∧
    erase (fun k : Nat => k) afterErase16 48 = none ∧
    erase (fun k : Nat => k) afterErase16 48 ≠ some (afterErase16, Iter.sentinel) ∧
    erase (fun k : Nat => k) afterInserts3 48 = some (afterInserts3, Iter.sentinel) ∧
    erase (fun k : Nat => k) (construct 16 : HashMap Nat Nat) 48
      = some (construct 16, Iter.sentinel) := by
  refine ⟨?_, ?_, ?_, ?_, ?_, ?_, ?_⟩ <;> decide

/-- C6 (the code departs from the claim): with 16 buckets and the identity hash, after
inserting keys 0, 16, 32 and `erase(16)`, the call `insert(16, 7)` does not report
`inserted = true`: its search of the chain of bucket 0 dereferences `end()`. -/
theorem erase_then_insert_faults :
    insertAll (fun k : Nat => k) [(0, 100), (16, 116), (32, 132)] (construct 16)
      = Outcome.ok afterInserts3 ∧
    erase (fun k : Nat => k) afterInserts3 16 = some (afterErase16, Iter.node 0) ∧
    insert (fun k : Nat => k) afterErase16 16 7 = Outcome.fault := by
  refine ⟨?_, ?_, ?_⟩ <;> decide

/-- C7: for every well-formed table and every new bucket count `n ≥ 1`, `rehash(n)`
completes with a well-formed table of the same size in which every key has the same lookup
result (absent, or present with the same value) as before. -/
theorem rehash_preserves_lookup (hasher : K → Nat) (t : HashMap K V) (wf : WF hasher t)
    (n : Nat) (hn : 1 ≤ n) :
    ∃ t2, rehash hasher n t = Outcome.ok t2 ∧ WF hasher t2 ∧ t2.size = t.size ∧
      ∀ k, ∃ res, lookup hasher t k = some res ∧ lookup hasher t2 k = some res := by
  have hkeys : ((t.data.map (fun nd => (nd.key, nd.val))).map Prod.fst).Nodup := by
    rw [List.map_map]; exact wf.keys
  have hpow : t.size + 1 ≤ 2 ^ t.size := pow_bound t.size t.size (Nat.le_refl _)
  have hload : 5 * ((⟨[], t.next, List.replicate n (Iter.sentinel, 0)⟩ : HashMap K V).size
      + (t.data.map (fun nd => (nd.key, nd.val))).length)
      ≤ 4 * 2 ^ (t.size + 1)
        * (⟨[], t.next, List.replicate n (Iter.sentinel, 0)⟩ : HashMap K V).table.length := by
    simp only [size, List.length_nil, List.length_map, List.length_replicate, Nat.zero_add]
    have h1 : t.data.length + 1 ≤ 2 ^ t.data.length := hpow
    calc 5 * t.data.length ≤ 8 * 2 ^ t.data.length * 1 := by omega
      _ ≤ 8 * 2 ^ t.data.length * n := Nat.mul_le_mul_left _ hn
      _ = 4 * 2 ^ (t.data.length + 1) * n := by ring
  obtain ⟨t2, hr2, wf2, hperm2, _, _⟩ :=
    rehashLoop_spec (insertFuel hasher (t.size + 1)) (4 * 2 ^ (t.size + 1))
      (insertFuel_spec (t.size + 1)) (t.data.map (fun nd => (nd.key, nd.val)))
      ⟨[], t.next, List.replicate n (Iter.sentinel, 0)⟩
      (wf_fresh hasher _ _ hn) hkeys (by simp) hload
  have hperm : (entries t2).Perm (entries t) := by simpa [entries] using hperm2
  refine ⟨t2, hr2, wf2, ?_, ?_⟩
  · have := hperm.length_eq
    simpa [entries, size] using this
  · intro k
    by_cases hex : ∃ nd, nd ∈ t.data ∧ nd.key = k
    · obtain ⟨nd, hnd, hkey⟩ := hex
      have h1 : (k, nd.val) ∈ entries t := List.mem_map.mpr ⟨nd, hnd, by rw [hkey]⟩
      exact ⟨some nd.val, lookup_present wf h1, lookup_present wf2 (hperm.symm.subset h1)⟩
    · have habs : ∀ nd ∈ t.data, nd.key ≠ k := fun nd hnd hkey => hex ⟨nd, hnd, hkey⟩
      have habs2 : ∀ nd ∈ t2.data, nd.key ≠ k := by
        intro nd hnd hkey
        have h1 : (nd.key, nd.val) ∈ entries t := hperm.subset (List.mem_map.mpr ⟨nd, hnd, rfl⟩)
        obtain ⟨x, hx, he⟩ := List.mem_map.mp h1
        exact habs x hx (by rw [← hkey]; simpa using congrArg Prod.fst he)
      exact ⟨none, lookup_absent wf habs, lookup_absent wf2 habs2⟩

/-- C7, at `rehash(1)` of the table holding keys 0, 16 and 32 (the re-inserts trigger
nested rehashes). -/
theorem rehash_preserves_lookup_witness :
    WF (fun k : Nat => k) afterInserts3 ∧ 1 ≤ 1 ∧
    ∃ t2, rehash (fun k : Nat => k) 1 afterInserts3 = Outcome.ok t2 ∧
      WF (fun k : Nat => k) t2 ∧ t2.size = afterInserts3.size ∧
      ∀ k, ∃ res, lookup (fun k : Nat => k) afterInserts3 k = some res ∧
        lookup (fun k : Nat => k) t2 k = some res :=
  ⟨wf_afterInserts3, by decide,
    rehash_preserves_lookup (fun k : Nat => k) afterInserts3 wf_afterInserts3 1 (by decide)⟩

/-- C8: every state reached from a freshly constructed table with at least one bucket by a
sequence of `insert`, `erase(key)` and `operator[]` calls satisfies
`5 * size() ≤ 4 * bucketCount`. -/
theorem load_factor_bounded [Inhabited V] (hasher : K → Nat) (n : Nat) (hn : 1 ≤ n)
    (ops : List (Op K V)) (t : HashMap K V)
    (h : runOps hasher ops (construct n) = Outcome.ok t) :
    5 * t.size ≤ 4 * t.table.length :=
  (runOps_load ops (construct n) t ⟨by simpa [construct] using hn, by simp [construct, size]⟩
    h).2

/-- C8, at three inserts followed by an erase on 16 buckets. -/
theorem load_factor_bounded_witness :
    1 ≤ 16 ∧
    runOps (fun k : Nat => k)
      [Op.insert 0 100, Op.insert 16 116, Op.insert 32 132, Op.erase 16] (construct 16)
      = Outcome.ok afterErase16 ∧
    5 * afterErase16.size ≤ 4 * afterErase16.table.length :=
  ⟨by decide, by decide,
    load_factor_bounded (fun k : Nat => k) 16 (by decide)
      [Op.insert 0 100, Op.insert 16 116, Op.insert 32 132, Op.erase 16] afterErase16
      (by decide)⟩

/-- C9: on every table reached from a freshly constructed one (at least one bucket) by
inserts, `insert(k, v)` completes; it reports `true` exactly when the key was absent; an
insert of an existing key keeps the bucket count; an insert of a new key brings the size to
`s = size + 1` and keeps the bucket count `n` when `5 * s ≤ 4 * n` and makes it exactly
`2 * n` when `5 * s > 4 * n`.  Starting from 16 buckets, up to 12 inserts of different keys
keep 16 buckets and 13 inserts give 32. -/
theorem insert_bucket_count (hasher : K → Nat) :
    (∀ (n0 : Nat) (kvs : List (K × V)) (t : HashMap K V) (k : K) (v : V), 1 ≤ n0 →
      insertAll hasher kvs (construct n0) = Outcome.ok t →
      ∃ r, insert hasher t k v = Outcome.ok r ∧
        (r.2.2 = true ↔ ∀ nd ∈ t.data, nd.key ≠ k) ∧
        (r.2.2 = false → r.1.table.length = t.table.length) ∧
        (r.2.2 = true → r.1.size = t.size + 1 ∧
          (5 * r.1.size ≤ 4 * t.table.length → r.1.table.length = t.table.length) ∧
          (4 * t.table.length < 5 * r.1.size → r.1.table.length = 2 * t.table.length))) ∧
    (∀ kvs : List (K × V), (kvs.map Prod.fst).Nodup → kvs.length ≤ 12 →
      ∃ t, insertAll hasher kvs (construct 16) = Outcome.ok t ∧ t.table.length = 16) ∧
    (∀ kvs : List (K × V), (kvs.map Prod.fst).Nodup → kvs.length = 13 →
      ∃ t, insertAll hasher kvs (construct 16) = Outcome.ok t ∧ t.table.length = 32) := by
  refine ⟨fun n0 kvs t k v hn hreach => insert_buckets_general hn hreach k v, ?_, ?_⟩
  · intro kvs hnd hlen
    obtain ⟨t, h1, _, _, h4⟩ := sixteen_keep hasher kvs hnd hlen
    exact ⟨t, h1, h4⟩
  · exact fun kvs hnd hlen => sixteen_grow hasher kvs hnd hlen

/-- C9, at the thirteen inserts of the example of the specification. -/
theorem insert_bucket_count_witness :
    (thirteen.map Prod.fst).Nodup ∧ thirteen.length = 13 ∧
    ∃ t, insertAll (fun k : Nat => k) thirteen (construct 16) = Outcome.ok t ∧
      t.table.length = 32 :=
  ⟨by decide, by decide,
    (insert_bucket_count (fun k : Nat => k)).2.2 thirteen (by decide) (by decide)⟩

/-- C10 (the code departs from the claim): on a fresh table with 16 buckets and the
identity hash, `operator[](0)` stores a record for key 0 with the default value and the
size becomes 1, but the chain length of bucket 0 stays 0 (unlike `insert`, `operator[]`
never increments it), so `find(0)` returns `end()`: the key is not present. -/
theorem subscript_entry_not_found :
    subscript (fun k : Nat => k) (construct 16 : HashMap Nat Nat) 0
      = Outcome.ok (afterSubscript0, 0) ∧
    afterSubscript0.size = (construct 16 : HashMap Nat Nat).size + 1 ∧
    find (fun k : Nat => k) afterSubscript0 0 = some Iter.sentinel := by
  refine ⟨?_, ?_, ?_⟩ <;> decide

/-- C11 (the code departs from the claim): on an empty map with 16 buckets and the identity
hash the first `operator[](0)` creates one entry with the default value and the size is 1;
the second `operator[](0)` does not find that entry (the chain length of bucket 0 is still
0) and stores a second record for key 0: the size is 2. -/
theorem subscript_twice_two_entries :
    subscript (fun k : Nat => k) (construct 16 : HashMap Nat Nat) 0
      = Outcome.ok (afterSubscript0, 0) ∧
    afterSubscript0.size = 1 ∧
    subscript (fun k : Nat => k) afterSubscript0 0 = Outcome.ok (afterSubscript0Twice, 0) ∧
    afterSubscript0Twice.size = 2 ∧
    afterSubscript0Twice.data.map Node.key = [0, 0] := by
  refine ⟨?_, ?_, ?_, ?_, ?_⟩ <;> decide

/-- C12: in every table state, if `find(k)` returns a record (an iterator other than
`end()`), the record holds key `k` and some value `v`, and `operator[](k)` returns `v` and
leaves the whole state (record store, bucket table, bucket count, size) unchanged. -/
theorem subscript_hit_unchanged [Inhabited V] (hasher : K → Nat) (t : HashMap K V) (k : K)
    (iter : Iter) (h : find hasher t k = some iter) (hne : iter ≠ Iter.sentinel) :
    ∃ v, deref t.data iter = some (k, v) ∧ subscript hasher t k = Outcome.ok (t, v) := by
  obtain ⟨h0, hg, nd, rest, hseek, hkey⟩ := find_some_deref h hne
  refine ⟨nd.val, ?_, ?_⟩
  · simp [deref, hseek, hkey]
  · simp [subscript, hash, h0, hg, hne, hseek]

/-- C12, at key 16 of the table holding keys 0, 16 and 32. -/
theorem subscript_hit_unchanged_witness :
    find (fun k : Nat => k) afterInserts3 16 = some (Iter.node 1) ∧
    Iter.node 1 ≠ Iter.sentinel ∧
    ∃ v, deref afterInserts3.data (Iter.node 1) = some (16, v) ∧
      subscript (fun k : Nat => k) afterInserts3 16 = Outcome.ok (afterInserts3, v) :=
  ⟨by decide, by decide,
    subscript_hit_unchanged (fun k : Nat => k) afterInserts3 16 (Iter.node 1)
      (by decide) (by decide)⟩

/-- C13 (the code departs from the claim): with 16 buckets and the identity hash, after
`insert(0, 100)` key 0 is found with value 100; `operator[](16)` (same bucket) appends the
new record at the end of the store, makes it the chain start of bucket 0 and leaves the
chain length at 1, so afterwards `find(0)` returns `end()`: key 0 is lost. -/
theorem subscript_loses_other_key :
    insert (fun k : Nat => k) (construct 16) 0 100
      = Outcome.ok (afterInsert0, Iter.node 0, true) ∧
    lookup (fun k : Nat => k) afterInsert0 0 = some (some 100) ∧
    subscript (fun k : Nat => k) afterInsert0 16 = Outcome.ok (afterSubscript16, 0) ∧
    find (fun k : Nat => k) afterSubscript16 0 = some Iter.sentinel ∧
    lookup (fun k : Nat => k) afterSubscript16 0 = some none := by
  refine ⟨?_, ?_, ?_, ?_, ?_⟩ <;> decide

/-- C14 (the code departs from the claim): with 16 buckets and the identity hash, the calls
`insert(1, 101)`, `insert(0, 100)`, `insert(16, 116)`, `insert(32, 132)`, `erase(16)`,
`insert(32, 7)` all complete, and the record store then holds two records with key 32: after
the erase the chain of bucket 0 no longer covers the record of key 32, so the insert does
not see it. -/
theorem erase_insert_duplicate_key :
    runOps (fun k : Nat => k)
      [Op.insert 1 101, Op.insert 0 100, Op.insert 16 116, Op.insert 32 132, Op.erase 16,
        Op.insert 32 7] (construct 16) = Outcome.ok afterReinsert32 ∧
    afterReinsert32.data.map Node.key = [32, 32, 0, 1] ∧
    ¬ (afterReinsert32.data.map Node.key).Nodup := by
  refine ⟨?_, ?_, ?_⟩ <;> decide

/-- C15 (the code departs from the claim): with 16 buckets and the identity hash, after
`insert(0, 100)`, `insert(16, 116)`, `insert(32, 132)`, `erase(16)` no record has key 48,
and both `find(48)` and `erase(48)` walk two records from the last record of the store and
dereference `end()` instead of returning the end handle. -/
theorem find_erase_fault_after_erase :
    runOps (fun k : Nat => k)
      [Op.insert 0 100, Op.insert 16 116, Op.insert 32 132, Op.erase 16] (construct 16)
      = Outcome.ok afterErase16 ∧
    (∀ nd ∈ afterErase16.data, nd.key ≠ 48) ∧
    find (fun k : Nat => k) afterErase16 48 = none ∧
    erase (fun k : Nat => k) afterErase16 48 = none := by
  refine ⟨?_, ?_, ?_, ?_⟩ <;> decide

/-- C16 (the code departs from the claim): the constructor called with bucket count 0
builds a table with no bucket, and on that table `insert`, `operator[]` and `count` compute
`hasher(key) % 0`, while `find` and `erase` return `end()` through their test for an empty
table. -/
theorem zero_buckets_not_normalized :
    (construct 0 : HashMap Nat Nat).table.length = 0 ∧
    insert (fun k : Nat => k) (construct 0) 1 1 = Outcome.fault ∧
    subscript (fun k : Nat => k) (construct 0 : HashMap Nat Nat) 1 = Outcome.fault ∧
    count (fun k : Nat => k) (construct 0 : HashMap Nat Nat) 1 = none ∧
    find (fun k : Nat => k) (construct 0 : HashMap Nat Nat) 1 = some Iter.sentinel ∧
    erase (fun k : Nat => k) (construct 0 : HashMap Nat Nat) 1
      = some (construct 0, Iter.sentinel) := by
  refine ⟨?_, ?_, ?_, ?_, ?_, ?_⟩ <;> decide

/-- C17 (the code departs from the claim): `HashMap::contains` has no behaviour to compare
with `find`, because the member cannot be instantiated (see `count` above).  The part of the
claim about `count`, whose code runs, holds: on every table with at least one bucket
`count(k)` is 1 when `find(k)` returns an iterator other than `end()` and 0 when `find(k)`
returns `end()` (it faults exactly when `find` does), and it is never greater than 1. -/
theorem count_agrees_with_find (hasher : K → Nat) (t : HashMap K V) (k : K)
    (hn : 1 ≤ t.table.length) :
    count hasher t k
      = (find hasher t k).map (fun iter => if iter ≠ Iter.sentinel then 1 else 0) ∧
    ∀ c, count hasher t k = some c → c ≤ 1 := by
  have h0 : t.table.length ≠ 0 := by omega
  have hc : count hasher t k
      = (find hasher t k).map (fun iter => if iter ≠ Iter.sentinel then 1 else 0) := by
    simp only [count, find, hash, h0, if_false]
    cases getElementByChain t (hasher k % t.table.length) k <;> rfl
  refine ⟨hc, ?_⟩
  intro c hcc
  rw [hc] at hcc
  cases hf : find hasher t k with
  | none => rw [hf] at hcc; cases hcc
  | some iter =>
    rw [hf] at hcc
    simp only [Option.map_some', Option.some.injEq] at hcc
    rw [← hcc]
    split <;> decide

/-- C17, the part about `count`, at the present key 16 and the absent key 5 of the table
holding keys 0, 16, 32. -/
theorem count_agrees_with_find_witness :
    1 ≤ afterInserts3.table.length ∧
    find (fun k : Nat => k) afterInserts3 16 = some (Iter.node 1) ∧
    count (fun k : Nat => k) afterInserts3 16 = some 1 ∧
    find (fun k : Nat => k) afterInserts3 5 = some Iter.sentinel ∧
    count (fun k : Nat => k) afterInserts3 5 = some 0 ∧
    ∀ c, count (fun k : Nat => k) afterInserts3 16 = some c → c ≤ 1 :=
  ⟨by decide, by decide, by decide, by decide, by decide,
    (count_agrees_with_find (fun k : Nat => k) afterInserts3 16 (by decide)).2⟩

/-- C18 (the code departs from the claim): `insert` called with an rvalue key of a type
whose move leaves the null value 0 behind (`std::shared_ptr`), on a fresh table with one
bucket: the key is moved into the stored pair, the insert rehashes to two buckets, and the
handle is then re-located with the moved-from key, so the call returns `end()` with
`inserted = true` although the record `(7, 70)` is in the store.  The same call with an
lvalue key returns the handle of that record. -/
theorem insert_rvalue_returns_end :
    insertMoved (fun k : Nat => k) (fun _ => 0) (construct 1) 7 70
      = Outcome.ok (afterInsert7, Iter.sentinel, true) ∧
    lookup (fun k : Nat => k) afterInsert7 7 = some (some 70) ∧
    insert (fun k : Nat => k) (construct 1) 7 70
      = Outcome.ok (afterInsert7, Iter.node 1, true) ∧
    deref afterInsert7.data (Iter.node 1) = some (7, 70) := by
  refine ⟨?_, ?_, ?_, ?_⟩ <;> decide

/-- C19: on every table reached from a freshly constructed one (at least one bucket) by
inserts, for every record `nd` of the store, `erase(nd.key)` removes that record and returns
the handle of the record that followed it in store order, or `end()` if it was the last. -/
theorem erase_returns_next (hasher : K → Nat) (n0 : Nat) (hn : 1 ≤ n0) (kvs : List (K × V))
    (t : HashMap K V) (hreach : insertAll hasher kvs (construct n0) = Outcome.ok t)
    (pre rest : List (Node K V)) (nd : Node K V) (hsplit : t.data = pre ++ nd :: rest) :
    ∃ t2, erase hasher t nd.key = some (t2, iterOf rest) ∧ t2.data = pre ++ rest := by
  obtain ⟨wf, _⟩ := reach_construct hn hreach
  have h0 : t.table.length ≠ 0 := by have := wf.buckets; omega
  have hb : hasher nd.key % t.table.length < t.table.length := Nat.mod_lt _ (by omega)
  have hkeys : ((pre ++ nd :: rest).map Node.key).Nodup := hsplit ▸ wf.keys
  have hids : ((pre ++ nd :: rest).map Node.id).Nodup := hsplit ▸ wf.ids
  have hpre : ∀ x ∈ pre, x.key ≠ nd.key := by
    intro x hx heq
    rw [List.map_append, List.nodup_append] at hkeys
    exact hkeys.2.2 (List.mem_map_of_mem Node.key hx)
      (by rw [heq]; exact List.mem_map_of_mem Node.key (List.mem_cons_self nd rest))
  have hloc : locate t.data nd.key = Iter.node nd.id := by
    rw [hsplit]; exact locate_insert pre rest nd hpre
  have hg := getElementByChain_spec wf nd.key
  rw [hloc] at hg
  obtain ⟨p, run, q, iter, _, htab, _, _, _, _⟩ := wf.chains _ hb
  have hlen : run.length ≠ 0 := by
    intro hz
    simp [getElementByChain, htab, hz] at hg
  refine ⟨{ data := pre ++ rest, next := t.next,
             table := t.table.set (hasher nd.key % t.table.length)
               (iterOf rest, run.length - 1) }, ?_, rfl⟩
  simp only [erase, h0, if_false, hash, hg, htab, ne_eq, hlen, not_false_eq_true, if_true]
  rw [hsplit, listErase_node pre rest nd hids]
  simp

/-- C19, at `erase(16)` on the table holding keys 32, 16, 0 in store order. -/
theorem erase_returns_next_witness :
    1 ≤ 16 ∧
    insertAll (fun k : Nat => k) [(0, 100), (16, 116), (32, 132)] (construct 16)
      = Outcome.ok afterInserts3 ∧
    afterInserts3.data = [⟨2, 32, 132⟩] ++ ⟨1, 16, 116⟩ :: [⟨0, 0, 100⟩] ∧
    ∃ t2, erase (fun k : Nat => k) afterInserts3 16 = some (t2, Iter.node 0) ∧
      t2.data = [⟨2, 32, 132⟩] ++ [⟨0, 0, 100⟩] :=
  ⟨by decide, by decide, by decide,
    erase_returns_next (fun k : Nat => k) 16 (by decide) [(0, 100), (16, 116), (32, 132)]
      afterInserts3 (by decide) [⟨2, 32, 132⟩] [⟨0, 0, 100⟩] ⟨1, 16, 116⟩ (by decide)⟩

/-- C27: `insert` preserves the table invariants. On every table satisfying `WF` (the store
splits into the runs described by the bucket descriptors, keys pairwise different) and for
every key and value, `insert(k, v)` returns, and its result state satisfies `WF` again:
both when the bucket count stays the same (no rehash, `5 * (size + 1) ≤ 4 * bucketCount`)
and when the table grows. A duplicate leaves the table as it was; otherwise the records
are the old ones plus `(k, v)`. -/
theorem insert_preserves_invariant (hasher : K → Nat) (t : HashMap K V) (wf : WF hasher t)
    (k : K) (v : V) :
    ∃ r, insert hasher t k v = Outcome.ok r ∧ WF hasher r.1 ∧
      (r.2.2 = false → r.1 = t) ∧
      (r.2.2 = true → (entries r.1).Perm ((k, v) :: entries t)) ∧
      t.table.length ≤ r.1.table.length ∧
      (5 * (t.size + 1) ≤ 4 * t.table.length → r.1.table.length = t.table.length) := by
  obtain ⟨r, hr, post⟩ := insert_spec wf k v
  exact ⟨r, hr, post.wf, fun h => (post.flagF h).1, post.perm, post.bucketsGe,
    post.bucketsSame⟩

/-- C27, at `insert(48, 148)` on the table holding keys 32, 16, 0 (16 buckets). -/
theorem insert_preserves_invariant_witness :
    WF (fun k : Nat => k) afterInserts3 ∧
    ∃ r, insert (fun k : Nat => k) afterInserts3 48 148 = Outcome.ok r ∧
      WF (fun k : Nat => k) r.1 ∧
      (r.2.2 = false → r.1 = afterInserts3) ∧
      (r.2.2 = true → (entries r.1).Perm ((48, 148) :: entries afterInserts3)) ∧
      afterInserts3.table.length ≤ r.1.table.length ∧
      (5 * (afterInserts3.size + 1) ≤ 4 * afterInserts3.table.length →
        r.1.table.length = afterInserts3.table.length) :=
  ⟨wf_afterInserts3,
    insert_preserves_invariant (fun k : Nat => k) afterInserts3 wf_afterInserts3 48 148⟩

/-- C28: `erase` does not preserve the table invariants. The table holding keys 32, 16, 0
(16 buckets, identity hash, all three in the chain of bucket 0, chain head the record of
32) satisfies `WF`; `erase(16)` removes a record that is not the chain head, yet the
descriptor of bucket 0 afterwards starts at the record of key 0, the successor of the
removed record, instead of still designating the record of 32, and the resulting table
does not satisfy `WF`. -/
theorem erase_breaks_invariant :
    WF (fun k : Nat => k) afterInserts3 ∧
    afterInserts3.data = [⟨2, 32, 132⟩, ⟨1, 16, 116⟩, ⟨0, 0, 100⟩] ∧
    afterInserts3.table[0]? = some (Iter.node 2, 3) ∧
    erase (fun k : Nat => k) afterInserts3 16 = some (afterErase16, Iter.node 0) ∧
    afterErase16.data = [⟨2, 32, 132⟩, ⟨0, 0, 100⟩] ∧
    afterErase16.table[0]? = some (Iter.node 0, 2) ∧
    ¬ WF (fun k : Nat => k) afterErase16 :=
  ⟨wf_afterInserts3, by decide, by decide, by decide, by decide, by decide,
    not_wf_afterErase16⟩

/-- C29: lookup is sound and complete on well-formed tables. On every table satisfying
`WF` and for every key `k`: if a record of the store has key `k`, `find(k)` returns the
handle of that record, and dereferencing it gives the key `k` and the value of that
record; if no record has key `k`, `find(k)` returns `end()`. (`find` is a function of the
table: it returns no new state.) -/
theorem find_sound_complete (hasher : K → Nat) (t : HashMap K V) (wf : WF hasher t) (k : K) :
    (∀ nd ∈ t.data, nd.key = k →
      find hasher t k = some (Iter.node nd.id) ∧
      deref t.data (Iter.node nd.id) = some (k, nd.val)) ∧
    ((∀ nd ∈ t.data, nd.key ≠ k) → find hasher t k = some Iter.sentinel) := by
  refine ⟨?_, fun h => find_absent wf h⟩
  intro nd hnd hkey
  have hloc : locate t.data k ≠ Iter.sentinel := fun hs => locate_eq_sentinel.mp hs nd hnd hkey
  obtain ⟨x, hx, hxk, hxi⟩ := locate_ne_sentinel hloc
  have hxe : x = nd := List.inj_on_of_nodup_map wf.keys hx hnd (by rw [hxk, hkey])
  refine ⟨by rw [find_spec wf k, hxi, hxe], ?_⟩
  rw [deref_of_mem wf.ids hnd, hkey]

/-- C29, at key 16 on the table holding keys 32, 16, 0 (16 buckets). -/
theorem find_sound_complete_witness :
    WF (fun k : Nat => k) afterInserts3 ∧
    (∀ nd ∈ afterInserts3.data, nd.key = 16 →
      find (fun k : Nat => k) afterInserts3 16 = some (Iter.node nd.id) ∧
      deref afterInserts3.data (Iter.node nd.id) = some (16, nd.val)) ∧
    ((∀ nd ∈ afterInserts3.data, nd.key ≠ 16) →
      find (fun k : Nat => k) afterInserts3 16 = some Iter.sentinel) :=
  ⟨wf_afterInserts3,
    find_sound_complete (fun k : Nat => k) afterInserts3 wf_afterInserts3 16⟩

end Claims

end HashMap

/-! ## Lemmas about the priority queue -/

namespace PriorityQueue

section Lemmas

variable {T : Type}

theorem StrictWeakOrder.asymm {compare : T → T → Bool} (swo : StrictWeakOrder compare)
    {a b : T} (h : compare a b = true) : compare b a = false := by
  cases hba : compare b a with
  | false => rfl
  | true =>
    have := swo.trans a b a h hba
    rw [swo.irrefl a] at this
    cases this


theorem StrictWeakOrder.neg_trans {compare : T → T → Bool} (swo : StrictWeakOrder compare)
    {a b d : T} (h1 : compare a b = false) (h2 : compare b d = false) :
    compare a d = false := by
  cases had : compare a d with
  | false => rfl
  | true =>
    cases hba : compare b a with
    | true =>
      have := swo.trans b a d hba had
      rw [h2] at this; cases this
    | false =>
      cases hdb : compare d b with
      | true =>
        have := swo.trans a d b had hdb
        rw [h1] at this; cases this
      | false =>
        have := (swo.incomp_trans a b d h1 hba h2 hdb).1
        rw [had] at this; cases this


theorem StrictWeakOrder.not_lt_of_lt {compare : T → T → Bool} (swo : StrictWeakOrder compare)
    {a b d : T} (h1 : compare a d = false) (h2 : compare a b = true) :
    compare b d = false := by
  cases hbd : compare b d with
  | false => rfl
  | true =>
    have := swo.trans a b d h2 hbd
    rw [h1] at this; cases this


theorem getElem?_swap_snd {cs : List T} {i j : Nat} {a b : T} (hj : cs[j]? = some b) :
    ((cs.set i b).set j a)[j]? = some a := by
  have hlt : j < cs.length := by
    rcases List.getElem?_eq_some.mp hj with ⟨h, _⟩
    exact h
  rw [List.getElem?_set_self (by simpa using hlt)]


theorem getElem?_swap_fst {cs : List T} {i j : Nat} {a b : T} (hi : cs[i]? = some a)
    (hij : i ≠ j) : ((cs.set i b).set j a)[i]? = some b := by
  have hlt : i < cs.length := by
    rcases List.getElem?_eq_some.mp hi with ⟨h, _⟩
    exact h
  rw [List.getElem?_set_ne (fun h => hij h.symm), List.getElem?_set_self hlt]


theorem getElem?_swap_other {cs : List T} {i j k : Nat} (a b : T) (hki : k ≠ i) (hkj : k ≠ j) :
    ((cs.set i b).set j a)[k]? = cs[k]? := by
  rw [List.getElem?_set_ne (fun h => hkj h.symm), List.getElem?_set_ne (fun h => hki h.symm)]


theorem lt_length_of_getElem? {cs : List T} {i : Nat} {a : T} (h : cs[i]? = some a) :
    i < cs.length := by
  rcases List.getElem?_eq_some.mp h with ⟨h1, _⟩
  exact h1


theorem getElem?_of_lt (cs : List T) {i : Nat} (h : i < cs.length) : ∃ a, cs[i]? = some a :=
  ⟨cs[i], List.getElem?_eq_getElem h⟩


theorem sift_upFuel_spec {compare : T → T → Bool} (swo : StrictWeakOrder compare)
    (fuel : Nat) : ∀ (cs : List T) (i : Nat), i ≤ fuel → i < cs.length →
      HeapExceptUp compare cs i →
      ∃ cs2, sift_upFuel compare fuel cs i = Outcome.ok cs2 ∧ IsHeap compare cs2 ∧
        cs2.length = cs.length := by
  induction fuel with
  | zero =>
    intro cs i hi _ hinv
    have hi0 : i = 0 := by omega
    subst hi0
    refine ⟨cs, by simp [sift_upFuel], ?_, rfl⟩
    intro j a b hj ha hb
    exact hinv.1 j a b hj (by omega) ha hb
  | succ fuel ih =>
    intro cs i hi hlt hinv
    by_cases hi0 : i = 0
    · subst hi0
      refine ⟨cs, by simp [sift_upFuel], ?_, rfl⟩
      intro j a b hj ha hb
      exact hinv.1 j a b hj (by omega) ha hb
    · have hplt : (i - 1) / 2 < i := by omega
      obtain ⟨x, hx⟩ := getElem?_of_lt cs hlt
      obtain ⟨p, hp⟩ := getElem?_of_lt cs (Nat.lt_trans hplt hlt)
      cases hc : compare p x with
      | false =>
        refine ⟨cs, by simp [sift_upFuel, hi0, hp, hx, hc], ?_, rfl⟩
        intro j a b hj ha hb
        by_cases hji : j = i
        · subst hji
          rw [hp] at ha; rw [hx] at hb
          cases ha; cases hb
          exact hc
        · exact hinv.1 j a b hj hji ha hb
      | true =>
        have hne : (i - 1) / 2 ≠ i := by omega
        have hlen : ((cs.set ((i - 1) / 2) x).set i p).length = cs.length := by simp
        have hgi : ((cs.set ((i - 1) / 2) x).set i p)[i]? = some p := getElem?_swap_snd hx
        have hgp : ((cs.set ((i - 1) / 2) x).set i p)[(i - 1) / 2]? = some x :=
          getElem?_swap_fst hp hne
        have hgo : ∀ k, k ≠ (i - 1) / 2 → k ≠ i →
            ((cs.set ((i - 1) / 2) x).set i p)[k]? = cs[k]? :=
          fun k h1 h2 => getElem?_swap_other p x h1 h2
        have hinv2 : HeapExceptUp compare ((cs.set ((i - 1) / 2) x).set i p) ((i - 1) / 2) := by
          constructor
          · intro j a b hj hjp ha hb
            by_cases hji : j = i
            · subst hji
              rw [hgp] at ha; rw [hgi] at hb
              cases ha; cases hb
              exact swo.asymm hc
            · rw [hgo j hjp hji] at hb
              by_cases hq1 : (j - 1) / 2 = i
              · rw [hq1, hgi] at ha
                cases ha
                exact hinv.2 j p b (by omega) hq1 hj hp hb
              · by_cases hq2 : (j - 1) / 2 = (i - 1) / 2
                · rw [hq2, hgp] at ha
                  cases ha
                  have h1 : compare p b = false := hinv.1 j p b hj hji (by rw [hq2]; exact hp) hb
                  exact swo.not_lt_of_lt h1 hc
                · rw [hgo _ hq2 hq1] at ha
                  exact hinv.1 j a b hj hji ha hb
          · intro j a b hp1 hjp hj ha hb
            have hg1 : (((i - 1) / 2) - 1) / 2 ≠ (i - 1) / 2 := by omega
            have hg2 : (((i - 1) / 2) - 1) / 2 ≠ i := by omega
            rw [hgo _ hg1 hg2] at ha
            have hpa : compare a p = false := hinv.1 ((i - 1) / 2) a p hp1 hne ha hp
            by_cases hji : j = i
            · subst hji
              rw [hgi] at hb
              cases hb
              exact hpa
            · rw [hgo j (by omega) hji] at hb
              have h1 : compare p b = false :=
                hinv.1 j p b hj hji (by rw [hjp]; exact hp) hb
              exact swo.neg_trans hpa h1
        obtain ⟨cs2, h1, h2, h3⟩ := ih _ ((i - 1) / 2) (by omega) (by rw [hlen]; omega) hinv2
        exact ⟨cs2, by simp [sift_upFuel, hi0, hp, hx, hc, h1], h2, by rw [h3, hlen]⟩


theorem heap_of_exceptDown {compare : T → T → Bool} {cs : List T} {i : Nat}
    (hinv : HeapExceptDown compare cs i)
    (hch : ∀ j a b, 1 ≤ j → (j - 1) / 2 = i → cs[i]? = some a → cs[j]? = some b →
      compare a b = false) : IsHeap compare cs := by
  intro j a b hj ha hb
  by_cases hq : (j - 1) / 2 = i
  · exact hch j a b hj hq (by rw [← hq]; exact ha) hb
  · exact hinv.1 j a b hj hq ha hb


theorem exceptDown_swap {compare : T → T → Bool} (swo : StrictWeakOrder compare)
    {cs : List T} {i m : Nat} {x cm : T} (hinv : HeapExceptDown compare cs i)
    (hm : (m - 1) / 2 = i) (hm1 : 1 ≤ m) (hx : cs[i]? = some x) (hcm : cs[m]? = some cm)
    (hlt : compare x cm = true)
    (hsib : ∀ s b, 1 ≤ s → (s - 1) / 2 = i → s ≠ m → cs[s]? = some b → compare cm b = false) :
    HeapExceptDown compare ((cs.set m x).set i cm) m := by
  have hmi : m ≠ i := by omega
  have hgi : ((cs.set m x).set i cm)[i]? = some cm := getElem?_swap_snd hx
  have hgm : ((cs.set m x).set i cm)[m]? = some x := getElem?_swap_fst hcm hmi
  have hgo : ∀ k, k ≠ m → k ≠ i → ((cs.set m x).set i cm)[k]? = cs[k]? :=
    fun k h1 h2 => getElem?_swap_other cm x h1 h2
  constructor
  · intro j a b hj hq ha hb
    by_cases hqi : (j - 1) / 2 = i
    · rw [hqi, hgi] at ha
      cases ha
      by_cases hjm : j = m
      · subst hjm
        rw [hgm] at hb
        cases hb
        exact swo.asymm hlt
      · rw [hgo j hjm (by omega)] at hb
        exact hsib j b hj hqi hjm hb
    · rw [hgo _ hq hqi] at ha
      by_cases hji : j = i
      · subst hji
        rw [hgi] at hb
        cases hb
        exact hinv.2 m a cm hj hm hm1 ha hcm
      · have hjm : j ≠ m := fun h => hqi (by rw [h]; exact hm)
        rw [hgo j hjm hji] at hb
        exact hinv.1 j a b hj hqi ha hb
  · intro j a b _ hq hj ha hb
    rw [hm, hgi] at ha
    cases ha
    rw [hgo j (by omega) (by omega)] at hb
    exact hinv.1 j cm b hj (by omega) (by rw [hq]; exact hcm) hb


theorem pick_lt {compare : T → T → Bool} {cs : List T} {index cand : Nat} {a b : T}
    (ha : cs[index]? = some a) (hb : cs[cand]? = some b) :
    pick compare cs index cand = some (if compare a b then cand else index) := by
  simp [pick, lt_length_of_getElem? hb, ha, hb]


theorem pick_ge {compare : T → T → Bool} {cs : List T} {index cand : Nat}
    (h : cs.length ≤ cand) : pick compare cs index cand = some index := by
  simp [pick, Nat.not_lt.mpr h]


theorem swapAt_eq {cs : List T} {i j : Nat} {a b : T} (hi : cs[i]? = some a)
    (hj : cs[j]? = some b) : swapAt cs i j = some ((cs.set i b).set j a) := by
  simp [swapAt, hi, hj]


theorem sift_downFuel_spec {compare : T → T → Bool} (swo : StrictWeakOrder compare)
    (fuel : Nat) : ∀ (cs : List T) (i : Nat), cs.length - i ≤ fuel →
      HeapExceptDown compare cs i →
      ∃ cs2, sift_downFuel compare fuel cs i = Outcome.ok cs2 ∧ IsHeap compare cs2 ∧
        cs2.length = cs.length := by
  induction fuel with
  | zero =>
    intro cs i hf hinv
    refine ⟨cs, ?_, ?_, rfl⟩
    · have : ¬ (2 * i + 1 < cs.length) := by omega
      simp [sift_downFuel, this]
    · apply heap_of_exceptDown hinv
      intro j a b hj hq _ hb
      have := lt_length_of_getElem? hb
      omega
  | succ fuel ih =>
    intro cs i hf hinv
    have swapCase : ∀ (m : Nat) (x cm : T), (m - 1) / 2 = i → 1 ≤ m → cs[i]? = some x →
        cs[m]? = some cm → compare x cm = true →
        (∀ s b, 1 ≤ s → (s - 1) / 2 = i → s ≠ m → cs[s]? = some b → compare cm b = false) →
        ∃ cs2, sift_downFuel compare fuel ((cs.set m x).set i cm) m = Outcome.ok cs2 ∧
          IsHeap compare cs2 ∧ cs2.length = cs.length := by
      intro m x cm hm hm1 hx hcm hlt hsib
      have hmlt := lt_length_of_getElem? hcm
      have hlen : ((cs.set m x).set i cm).length = cs.length := by simp
      obtain ⟨cs2, h1, h2, h3⟩ := ih ((cs.set m x).set i cm) m (by rw [hlen]; omega)
        (exceptDown_swap swo hinv hm hm1 hx hcm hlt hsib)
      exact ⟨cs2, h1, h2, by rw [h3, hlen]⟩
    have hn1 : 2 * i + 1 ≠ i := by omega
    have hn2 : 2 * i + 2 ≠ i := by omega
    by_cases hl : 2 * i + 1 < cs.length
    · obtain ⟨x, hx⟩ := getElem?_of_lt cs (show i < cs.length by omega)
      obtain ⟨l, hlft⟩ := getElem?_of_lt cs hl
      by_cases hr : 2 * i + 2 < cs.length
      · obtain ⟨r, hrt⟩ := getElem?_of_lt cs hr
        cases hxl : compare x l with
        | false =>
          cases hxr : compare x r with
          | false =>
            refine ⟨cs, ?_, ?_, rfl⟩
            · simp [sift_downFuel, pick_lt hx hlft, pick_lt hx hrt, hxl, hxr]
            · apply heap_of_exceptDown hinv
              intro j a b hj hq ha hb
              rw [hx] at ha
              cases ha
              have hj2 : j = 2 * i + 1 ∨ j = 2 * i + 2 := by omega
              rcases hj2 with h | h
              · rw [h, hlft] at hb; cases hb; exact hxl
              · rw [h, hrt] at hb; cases hb; exact hxr
          | true =>
            obtain ⟨cs2, h1, h2, h3⟩ := swapCase (2 * i + 2) x r (by omega) (by omega) hx hrt hxr
              (by
                intro s b hs hq hne hb
                have hs1 : s = 2 * i + 1 := by omega
                rw [hs1, hlft] at hb
                cases hb
                exact swo.not_lt_of_lt hxl hxr)
            refine ⟨cs2, ?_, h2, h3⟩
            simp [sift_downFuel, pick_lt hx hlft, pick_lt hx hrt, hxl, hxr, hn2,
              swapAt_eq hrt hx, h1]
        | true =>
          cases hlr : compare l r with
          | false =>
            obtain ⟨cs2, h1, h2, h3⟩ := swapCase (2 * i + 1) x l (by omega) (by omega) hx hlft hxl
              (by
                intro s b hs hq hne hb
                have hs1 : s = 2 * i + 2 := by omega
                rw [hs1, hrt] at hb
                cases hb
                exact hlr)
            refine ⟨cs2, ?_, h2, h3⟩
            simp [sift_downFuel, pick_lt hx hlft, pick_lt hlft hrt, hxl, hlr, hn1,
              swapAt_eq hlft hx, h1]
          | true =>
            obtain ⟨cs2, h1, h2, h3⟩ := swapCase (2 * i + 2) x r (by omega) (by omega) hx hrt
              (swo.trans x l r hxl hlr)
              (by
                intro s b hs hq hne hb
                have hs1 : s = 2 * i + 1 := by omega
                rw [hs1, hlft] at hb
                cases hb
                exact swo.asymm hlr)
            refine ⟨cs2, ?_, h2, h3⟩
            simp [sift_downFuel, pick_lt hx hlft, pick_lt hlft hrt, hxl, hlr, hn2,
              swapAt_eq hrt hx, h1]
      · have hr2 : cs.length ≤ 2 * i + 2 := by omega
        cases hxl : compare x l with
        | false =>
          refine ⟨cs, ?_, ?_, rfl⟩
          · simp [sift_downFuel, pick_lt hx hlft, pick_ge hr2, hxl]
          · apply heap_of_exceptDown hinv
            intro j a b hj hq ha hb
            rw [hx] at ha
            cases ha
            have hjl := lt_length_of_getElem? hb
            have hj2 : j = 2 * i + 1 := by omega
            rw [hj2, hlft] at hb; cases hb; exact hxl
        | true =>
          obtain ⟨cs2, h1, h2, h3⟩ := swapCase (2 * i + 1) x l (by omega) (by omega) hx hlft hxl
            (by
              intro s b hs hq hne hb
              have hsl := lt_length_of_getElem? hb
              omega)
          refine ⟨cs2, ?_, h2, h3⟩
          simp [sift_downFuel, pick_lt hx hlft, pick_ge hr2, hxl, hn1, swapAt_eq hlft hx, h1]
    · have hl2 : cs.length ≤ 2 * i + 1 := by omega
      have hr2 : cs.length ≤ 2 * i + 2 := by omega
      refine ⟨cs, ?_, ?_, rfl⟩
      · simp [sift_downFuel, pick_ge hl2, pick_ge hr2]
      · apply heap_of_exceptDown hinv
        intro j a b hj hq _ hb
        have := lt_length_of_getElem? hb
        omega


theorem isHeap_nil (compare : T → T → Bool) : IsHeap compare ([] : List T) := by
  intro i a b _ _ hb
  simp at hb


theorem push_spec {compare : T → T → Bool} (swo : StrictWeakOrder compare)
    (q : PriorityQueue T) (val : T) (hq : IsHeap compare q.container) :
    ∃ q2, push compare q val = Outcome.ok q2 ∧ IsHeap compare q2.container ∧
      q2.container.length = q.container.length + 1 := by
  have hlen : (q.container ++ [val]).length = q.container.length + 1 := by simp
  have hinv : HeapExceptUp compare (q.container ++ [val]) q.container.length := by
    constructor
    · intro j a b hj hjn ha hb
      have hjl := lt_length_of_getElem? hb
      rw [hlen] at hjl
      have hjlt : j < q.container.length := by omega
      rw [List.getElem?_append_left hjlt] at hb
      rw [List.getElem?_append_left (by omega)] at ha
      exact hq j a b hj ha hb
    · intro j a b hn hjp _ _ hb
      have hjl := lt_length_of_getElem? hb
      rw [hlen] at hjl
      omega
  obtain ⟨cs2, h1, h2, h3⟩ := sift_upFuel_spec swo q.container.length (q.container ++ [val])
    q.container.length (Nat.le_refl _) (by rw [hlen]; omega) hinv
  refine ⟨⟨cs2⟩, ?_, h2, by rw [h3, hlen]⟩
  simp only [push, sift_up, hlen, Nat.add_sub_cancel, h1, Outcome.map]


theorem pop_spec {compare : T → T → Bool} (swo : StrictWeakOrder compare)
    (q : PriorityQueue T) (hq : IsHeap compare q.container) :
    ∃ q2, pop compare q = Outcome.ok q2 ∧ IsHeap compare q2.container ∧
      q2.container.length = q.container.length - 1 := by
  by_cases he : q.container.length = 0
  · refine ⟨q, ?_, hq, by omega⟩
    simp [pop, empty, size, he]
  · obtain ⟨f, hf⟩ := getElem?_of_lt q.container (show 0 < q.container.length by omega)
    obtain ⟨la, hla⟩ := getElem?_of_lt q.container
      (show q.container.length - 1 < q.container.length by omega)
    have hsw := swapAt_eq hf hla
    have hlen : (((q.container.set 0 la).set (q.container.length - 1) f).dropLast).length
        = q.container.length - 1 := by simp
    have hget : ∀ k, 1 ≤ k →
        (((q.container.set 0 la).set (q.container.length - 1) f).dropLast)[k]? = none ∨
        (((q.container.set 0 la).set (q.container.length - 1) f).dropLast)[k]?
          = q.container[k]? := by
      intro k hk
      rw [List.getElem?_dropLast]
      by_cases hkl : k < ((q.container.set 0 la).set (q.container.length - 1) f).length - 1
      · right
        rw [if_pos hkl]
        simp only [List.length_set] at hkl
        rw [getElem?_swap_other f la (by omega) (by omega)]
      · left
        rw [if_neg hkl]
    by_cases he2 : q.container.length = 1
    · refine ⟨⟨((q.container.set 0 la).set (q.container.length - 1) f).dropLast⟩, ?_, ?_, hlen⟩
      · have hemp : q.empty = false := by simp [empty, size, he]
        have hemp2 : (PriorityQueue.mk
            ((q.container.set 0 la).set (q.container.length - 1) f).dropLast).empty = true := by
          simp only [empty, size, hlen]
          rw [he2]
          rfl
        unfold pop
        rw [hemp]
        simp only [Bool.false_eq_true, if_false, hsw, hemp2, if_true]
      · intro i a b hi _ hb
        have := lt_length_of_getElem? hb
        rw [hlen] at this
        omega
    · have hinv : HeapExceptDown compare
          (((q.container.set 0 la).set (q.container.length - 1) f).dropLast) 0 := by
        constructor
        · intro j a b hj hp ha hb
          rcases hget j hj with h | h
          · rw [h] at hb; cases hb
          · rcases hget ((j - 1) / 2) (by omega) with h2 | h2
            · rw [h2] at ha; cases ha
            · rw [h] at hb; rw [h2] at ha
              exact hq j a b hj ha hb
        · intro j a b h0
          omega
      obtain ⟨cs2, h1, h2, h3⟩ := sift_downFuel_spec swo _ _ 0 (Nat.le_refl _) hinv
      refine ⟨⟨cs2⟩, ?_, h2, by rw [h3, hlen]⟩
      have hemp : q.empty = false := by simp [empty, size, he]
      have hemp2 : (PriorityQueue.mk
          ((q.container.set 0 la).set (q.container.length - 1) f).dropLast).empty = false := by
        simp only [empty, size, hlen]
        simp only [beq_eq_false_iff_ne, ne_eq]
        omega
      unfold pop
      rw [hemp]
      simp only [Bool.false_eq_true, if_false, hsw, hemp2, sift_down, h1, Outcome.map]


theorem runOps_heap {compare : T → T → Bool} (swo : StrictWeakOrder compare)
    (ops : List (Op T)) : ∀ q : PriorityQueue T, IsHeap compare q.container →
      ∃ q2, runOps compare ops q = Outcome.ok q2 ∧ IsHeap compare q2.container := by
  induction ops with
  | nil => intro q hq; exact ⟨q, rfl, hq⟩
  | cons op ops ih =>
    intro q hq
    cases op with
    | push val =>
      obtain ⟨q1, h1, h2, _⟩ := push_spec swo q val hq
      obtain ⟨q2, h3, h4⟩ := ih q1 h2
      exact ⟨q2, by simp only [runOps, runOp, h1]; exact h3, h4⟩
    | pop =>
      obtain ⟨q1, h1, h2, _⟩ := pop_spec swo q hq
      obtain ⟨q2, h3, h4⟩ := ih q1 h2
      exact ⟨q2, by simp only [runOps, runOp, h1]; exact h3, h4⟩


theorem heap_root_greatest {compare : T → T → Bool} (swo : StrictWeakOrder compare)
    {cs : List T} (hq : IsHeap compare cs) {a : T} (ha : cs[0]? = some a) :
    ∀ (j : Nat) (b : T), cs[j]? = some b → compare a b = false := by
  intro j
  induction j using Nat.strong_induction_on with
  | _ j ih =>
    intro b hb
    by_cases hj : j = 0
    · subst hj
      rw [ha] at hb
      cases hb
      exact swo.irrefl a
    · have hjl := lt_length_of_getElem? hb
      obtain ⟨p, hp⟩ := getElem?_of_lt cs (show (j - 1) / 2 < cs.length by omega)
      have h1 := ih ((j - 1) / 2) (by omega) p hp
      have h2 := hq j p b (by omega) hp hb
      exact swo.neg_trans h1 h2


theorem natLess_swo : StrictWeakOrder natLess := by
  refine ⟨?_, ?_, ?_⟩
  · intro x; simp [natLess]
  · intro x y z h1 h2
    simp only [natLess, decide_eq_true_eq] at h1 h2 ⊢
    omega
  · intro x y z h1 h2 h3 h4
    simp only [natLess, decide_eq_false_iff_not] at h1 h2 h3 h4 ⊢
    omega

end Lemmas

/-! ## The claims about the priority queue -/

section Claims

variable {T : Type}

/-- C20: for a comparator that is a strict weak order, every sequence of `push` and `pop`
calls on the empty queue completes, and if the resulting queue is not empty then `top()`
returns an element `a` such that `compare(a, x)` is false for every element `x` of the
queue. -/
theorem top_is_greatest (compare : T → T → Bool) (swo : StrictWeakOrder compare)
    (ops : List (Op T)) :
    ∃ q, runOps compare ops (PriorityQueue.mk []) = Outcome.ok q ∧
      (q.empty = false → ∃ a, top q = some a ∧ ∀ x ∈ q.container, compare a x = false) := by
  obtain ⟨q, h1, h2⟩ := runOps_heap swo ops (PriorityQueue.mk []) (isHeap_nil compare)
  refine ⟨q, h1, ?_⟩
  intro hne
  have hlen : 0 < q.container.length := by
    simp only [empty, size, beq_eq_false_iff_ne, ne_eq] at hne
    omega
  obtain ⟨a, ha⟩ := getElem?_of_lt q.container hlen
  refine ⟨a, by rw [top, List.head?_eq_getElem?]; exact ha, ?_⟩
  intro x hx
  obtain ⟨n, hn⟩ := List.mem_iff_getElem?.mp hx
  exact heap_root_greatest swo h2 ha n x hn

/-- C20, at `push(3)`, `push(1)`, `push(4)`, `pop()` with `std::less` on numbers. -/
theorem top_is_greatest_witness :
    StrictWeakOrder natLess ∧
    ∃ q, runOps natLess [Op.push 3, Op.push 1, Op.push 4, Op.pop] (PriorityQueue.mk [])
        = Outcome.ok q ∧
      (q.empty = false → ∃ a, top q = some a ∧ ∀ x ∈ q.container, natLess a x = false) :=
  ⟨natLess_swo,
    top_is_greatest natLess natLess_swo [Op.push 3, Op.push 1, Op.push 4, Op.pop]⟩

end Claims

end PriorityQueue

/-! ## Lemmas about raw storage -/

section StorageLemmas

variable {T : Type}

theorem readSlot_some {data : List (Option T)} {i : Nat} {x : T}
    (h : data[i]? = some (some x)) : readSlot data i = some x := by
  simp [readSlot, h]

theorem writeSlot_lt {data : List (Option T)} {i : Nat} (x : Option T) (h : i < data.length) :
    writeSlot data i x = some (data.set i x) := by
  simp [writeSlot, h]

theorem destroySlot_some {data : List (Option T)} {i : Nat} {x : T}
    (h : data[i]? = some (some x)) : destroySlot data i = some (data.set i none) := by
  simp [destroySlot, h]

end StorageLemmas

/-! ## Lemmas about the dynamic array -/

namespace Vector

section Lemmas

variable {T : Type}

theorem moveForward_spec (count : Nat) : ∀ (data : List (Option T)) (first dFirst : Nat),
    dFirst ≤ first → first + count ≤ data.length →
    (∀ j, j < count → ∃ x, data[first + j]? = some (some x)) →
    ∃ data2, moveForward data count first dFirst = some data2 ∧
      data2.length = data.length ∧
      ∀ i, data2[i]? = if dFirst ≤ i ∧ i < dFirst + count then data[first + (i - dFirst)]?
        else data[i]? := by
  induction count with
  | zero =>
    intro data first dFirst _ _ _
    refine ⟨data, rfl, rfl, ?_⟩
    intro i
    have : ¬ (dFirst ≤ i ∧ i < dFirst + 0) := by omega
    rw [if_neg this]
  | succ count ih =>
    intro data first dFirst hle hlen hlive
    obtain ⟨x, hx⟩ := hlive 0 (by omega)
    rw [Nat.add_zero] at hx
    have hw := writeSlot_lt (some x) (show dFirst < data.length by omega)
    have hlive2 : ∀ j, j < count → ∃ y, (data.set dFirst (some x))[first + 1 + j]? = some (some y) := by
      intro j hj
      obtain ⟨y, hy⟩ := hlive (j + 1) (by omega)
      refine ⟨y, ?_⟩
      rw [List.getElem?_set_ne (by omega)]
      rw [← hy]
      congr 1
      omega
    obtain ⟨data2, h1, h2, h3⟩ := ih (data.set dFirst (some x)) (first + 1) (dFirst + 1)
      (by omega) (by simp only [List.length_set]; omega) hlive2
    refine ⟨data2, ?_, by rw [h2]; simp, ?_⟩
    · simp only [moveForward, readSlot_some hx, hw, h1]
    · intro i
      rw [h3 i]
      by_cases hi : dFirst + 1 ≤ i ∧ i < dFirst + 1 + count
      · rw [if_pos hi, if_pos (by omega), List.getElem?_set_ne (by omega)]
        congr 1
        omega
      · rw [if_neg hi]
        by_cases hi2 : i = dFirst
        · subst hi2
          rw [if_pos (by omega), List.getElem?_set_self (by omega), Nat.sub_self, Nat.add_zero, hx]
        · rw [if_neg (by omega), List.getElem?_set_ne (fun h => hi2 h.symm)]

theorem destroyLoop_spec (count : Nat) : ∀ (data : List (Option T)) (i : Nat),
    i + count ≤ data.length →
    ∃ data2, destroyLoop data count i = some data2 ∧ data2.length = data.length ∧
      ∀ k, k < i → data2[k]? = data[k]? := by
  induction count with
  | zero =>
    intro data i _
    exact ⟨data, rfl, rfl, fun _ _ => rfl⟩
  | succ count ih =>
    intro data i hlen
    have hw := writeSlot_lt (T := T) none (show i < data.length by omega)
    obtain ⟨data2, h1, h2, h3⟩ := ih (data.set i none) (i + 1)
      (by simp only [List.length_set]; omega)
    refine ⟨data2, by simp only [destroyLoop, hw, h1], by rw [h2]; simp, ?_⟩
    intro k hk
    rw [h3 k (by omega), List.getElem?_set_ne (by omega)]

theorem holds_get {v : Vector T} {es : List T} (h : Holds v es) {j : Nat} (hj : j < es.length) :
    v.data[j]? = some (some es[j]) := by
  obtain ⟨hsize, hlen, helems⟩ := h
  have h1 : (v.data.take v.size)[j]? = (es.map some)[j]? := by
    rw [show v.data.take v.size = v.elems from rfl, helems]
  rw [List.getElem?_take, if_pos (by omega)] at h1
  rw [h1, List.getElem?_map, List.getElem?_eq_getElem hj]
  rfl

theorem iterDiff_add (v : Vector T) (a b : Nat) :
    iterDiff (iterAdd v.begin a) (iterAdd v.begin b) = some ((a : Int) - (b : Int)) := by
  simp [iterDiff, iterAdd, begin]

theorem iterDiff_begin (v : Vector T) (a : Nat) :
    iterDiff (iterAdd v.begin a) v.begin = some (a : Int) := by
  simp [iterDiff, iterAdd, begin]

theorem eraseRange_empty (v : Vector T) (s t : Nat) (h : t ≤ s) :
    eraseRange v (iterAdd v.begin s) (iterAdd v.begin t) = some v := by
  unfold eraseRange
  rw [iterDiff_add, iterDiff_begin, iterDiff_begin]
  simp only
  rw [if_pos (by omega)]

theorem eraseRange_spec {v : Vector T} {es : List T} (h : Holds v es) (s t : Nat)
    (hst : s ≤ t) (ht : t ≤ es.length) :
    ∃ v2, eraseRange v (iterAdd v.begin s) (iterAdd v.begin t) = some v2 ∧
      Holds v2 (es.take s ++ es.drop t) ∧ v2.getSize = es.length - (t - s) := by
  by_cases heq : s = t
  · subst heq
    refine ⟨v, eraseRange_empty v s s (Nat.le_refl s), ?_, ?_⟩
    · rw [List.take_append_drop]; exact h
    · rw [Nat.sub_self]; exact h.1
  have hlt : s < t := by omega
  have hsize := h.1
  have hlen := h.2.1
  have hmoved : ∃ data1,
      (if iterAdd v.begin t ≠ v.endIt then moveForward v.data (v.size - t) t s
        else some v.data) = some data1 ∧ data1.length = v.data.length ∧
      ∀ i, i < v.size - (t - s) →
        data1[i]? = if i < s then v.data[i]? else v.data[t + (i - s)]? := by
    by_cases hend : iterAdd v.begin t ≠ v.endIt
    · rw [if_pos hend]
      obtain ⟨data1, h1, h2, h3⟩ := moveForward_spec (v.size - t) v.data t s hst (by omega)
        (fun j hj => ⟨es[t + j], holds_get h (by omega)⟩)
      refine ⟨data1, h1, h2, ?_⟩
      intro i hi
      rw [h3 i]
      by_cases his : i < s
      · rw [if_neg (by omega), if_pos his]
      · rw [if_pos (by omega), if_neg his]
    · rw [if_neg hend]
      have ht2 : t = v.size := by
        have := not_not.mp hend
        simp [iterAdd, begin, endIt] at this
        exact this
      refine ⟨v.data, rfl, rfl, ?_⟩
      intro i hi
      rw [if_pos (by omega)]
  obtain ⟨data1, hm1, hm2, hm3⟩ := hmoved
  obtain ⟨data2, hd1, hd2, hd3⟩ := destroyLoop_spec (t - s) data1 (v.size - (t - s))
    (by omega)
  have hrange : ((t : Int) - (s : Int)).toNat = t - s := by omega
  refine ⟨{ v with data := data2, size := v.size - (t - s) }, ?_, ⟨?_, ?_, ?_⟩, ?_⟩
  · unfold eraseRange
    rw [iterDiff_add, iterDiff_begin, iterDiff_begin]
    simp only
    rw [if_neg (by omega), if_neg (by omega)]
    simp only [Int.toNat_ofNat, hrange, hm1, hd1]
  · show v.size - (t - s) = (es.take s ++ es.drop t).length
    rw [List.length_append, List.length_take, List.length_drop]
    omega
  · show v.size - (t - s) ≤ data2.length
    omega
  · show data2.take (v.size - (t - s)) = (es.take s ++ es.drop t).map some
    apply List.ext_getElem?
    intro i
    rw [List.getElem?_take, List.getElem?_map]
    by_cases hi : i < v.size - (t - s)
    · rw [if_pos hi, hd3 i hi, hm3 i hi]
      by_cases his : i < s
      · rw [if_pos his, holds_get h (show i < es.length by omega),
          List.getElem?_append_left (by rw [List.length_take]; omega),
          List.getElem?_take, if_pos his, List.getElem?_eq_getElem (show i < es.length by omega)]
        rfl
      · rw [if_neg his, holds_get h (show t + (i - s) < es.length by omega),
          List.getElem?_append_right (by rw [List.length_take]; omega),
          List.length_take, List.getElem?_drop,
          show t + (i - min s es.length) = t + (i - s) by rw [Nat.min_eq_left (by omega)],
          List.getElem?_eq_getElem (show t + (i - s) < es.length by omega)]
        rfl
    · rw [if_neg hi, List.getElem?_eq_none]
      · rfl
      · rw [List.length_append, List.length_take, List.length_drop]
        omega
  · show v.size - (t - s) = es.length - (t - s)
    rw [hsize]

theorem holds_abc : Holds abc [1, 2, 3] := ⟨by decide, by decide, by decide⟩

end Lemmas

/-! ## The claims about the dynamic array -/

section Claims

variable {T : Type}

/-- C23: `insert` before an element is not a shifting insert. The vector `[1, 2, 3]` is
built by three `emplace_back` calls (capacity 4); `insert(begin() + 1, 9)` then leaves the
slots `1, 9, 2` followed by a slot without an object, with `size` 4: the element 3 is
overwritten by the shift (`std::move_backward(data + idx, data + size - 1, data + size)`
moves the elements of `[idx, size - 1)` only) and the vector does not hold
`[1, 9, 2, 3]`. -/
theorem insert_loses_last_element :
    ((emplace_back (construct : Vector Nat) 1).bind (fun v => emplace_back v 2)).bind
      (fun v => emplace_back v 3) = some abc ∧
    Holds abc [1, 2, 3] ∧
    insert abc (iterAdd abc.begin 1) 9 =
      some { buf := 3, data := [some 1, some 9, some 2, none], size := 4, capacity := 4,
             nextBuf := 4 } ∧
    ¬ ∃ v2, insert abc (iterAdd abc.begin 1) 9 = some v2 ∧ Holds v2 [1, 9, 2, 3] := by
  refine ⟨by decide, holds_abc, by decide, ?_⟩
  rintro ⟨v2, h1, h2⟩
  have h3 : insert abc (iterAdd abc.begin 1) 9 =
      some { buf := 3, data := [some 1, some 9, some 2, none], size := 4, capacity := 4,
             nextBuf := 4 } := by decide
  rw [h3] at h1
  cases h1
  exact absurd h2.2.2 (by decide)

/-- C24: `erase` of a range is a shifting erase. For every vector holding the elements
`es` (length `n`): for `s ≤ t ≤ n`, `erase(begin() + s, begin() + t)` returns and the
vector then holds `es.take s ++ es.drop t`, with `getSize() = n - (t - s)`; for `t ≤ s`
the vector is returned unchanged; and `erase(pos)` is `erase(pos, pos + 1)`. -/
theorem erase_range_shifts (v : Vector T) (es : List T) (h : Holds v es) :
    (∀ s t, s ≤ t → t ≤ es.length →
      ∃ v2, eraseRange v (iterAdd v.begin s) (iterAdd v.begin t) = some v2 ∧
        Holds v2 (es.take s ++ es.drop t) ∧ v2.getSize = es.length - (t - s)) ∧
    (∀ s t, t ≤ s → eraseRange v (iterAdd v.begin s) (iterAdd v.begin t) = some v) ∧
    (∀ pos, erase v pos = eraseRange v pos (iterAdd pos 1)) :=
  ⟨fun s t hst ht => eraseRange_spec h s t hst ht, fun s t hts => eraseRange_empty v s t hts,
    fun _ => rfl⟩

/-- C24, at the vector `[1, 2, 3]`. -/
theorem erase_range_shifts_witness :
    Holds abc [1, 2, 3] ∧
    (∀ s t, s ≤ t → t ≤ [1, 2, 3].length →
      ∃ v2, eraseRange abc (iterAdd abc.begin s) (iterAdd abc.begin t) = some v2 ∧
        Holds v2 ([1, 2, 3].take s ++ [1, 2, 3].drop t) ∧
        v2.getSize = [1, 2, 3].length - (t - s)) ∧
    (∀ s t, t ≤ s → eraseRange abc (iterAdd abc.begin s) (iterAdd abc.begin t) = some abc) ∧
    (∀ pos, erase abc pos = eraseRange abc pos (iterAdd pos 1)) :=
  ⟨holds_abc, erase_range_shifts abc [1, 2, 3] holds_abc⟩

end Claims

end Vector

/-! ## Lemmas about circular buffers -/

section RingLemmas

variable {T : Type}

theorem mod_inj {c h i j : Nat} (hi : i < c) (hj : j < c)
    (heq : (h + i) % c = (h + j) % c) : i = j := by
  have h1 : i ≡ j [MOD c] := Nat.ModEq.add_left_cancel' h heq
  exact Nat.ModEq.eq_of_lt_of_lt h1 hi hj

theorem mod_pred {c x : Nat} (hc : 0 < c) :
    (if (x + 1) % c = 0 then c - 1 else (x + 1) % c - 1) = x % c := by
  have hx : x % c < c := Nat.mod_lt _ hc
  have h1 : (x + 1) % c = (x % c + 1) % c := by rw [Nat.mod_add_mod]
  by_cases hlast : x % c + 1 = c
  · have h2 : (x + 1) % c = 0 := by rw [h1, hlast, Nat.mod_self]
    rw [if_pos h2]; omega
  · have h2 : (x + 1) % c = x % c + 1 := by rw [h1, Nat.mod_eq_of_lt (by omega)]
    rw [if_neg (by omega), h2]; omega

theorem ringRep_read {data : List (Option T)} {c s : Nat} {m : List T}
    (h : RingRep data c s m) {i : Nat} (hi : i < m.length) :
    readSlot data ((s + i) % c) = m[i]? := by
  have h1 := h.2.2.2.2 i hi
  rw [List.getElem?_eq_getElem hi] at h1 ⊢
  exact readSlot_some h1

theorem ringRep_live {data : List (Option T)} {c s : Nat} {m : List T}
    (h : RingRep data c s m) {i : Nat} (hi : i < m.length) :
    data[(s + i) % c]? = some (some m[i]) := by
  have h1 := h.2.2.2.2 i hi
  rw [List.getElem?_eq_getElem hi] at h1
  exact h1

theorem ringRep_nil (n : Nat) : RingRep (List.replicate n (none : Option T)) n 0 [] := by
  refine ⟨by simp, by simp, fun h => h, fun _ => rfl, ?_⟩
  intro i hi
  simp at hi

theorem ringRep_push_back {data : List (Option T)} {c s : Nat} {m : List T}
    (h : RingRep data c s m) (hlt : m.length < c) (v : T) :
    RingRep (data.set ((s + m.length) % c) (some v)) c s (m ++ [v]) := by
  obtain ⟨h1, h2, h3, h4, h5⟩ := h
  have hc : 0 < c := by omega
  refine ⟨by simp [h1], by simp; omega, h3, h4, ?_⟩
  intro i hi
  simp only [List.length_append, List.length_singleton] at hi
  by_cases hil : i = m.length
  · subst hil
    rw [List.getElem?_set_self (by rw [h1]; exact Nat.mod_lt _ hc)]
    simp
  · have hi2 : i < m.length := by omega
    rw [List.getElem?_set_ne (fun he => hil (mod_inj hlt (by omega) he).symm), h5 i hi2,
      List.getElem?_append_left hi2]

theorem ringRep_push_front {data : List (Option T)} {c s : Nat} {m : List T}
    (h : RingRep data c s m) (hlt : m.length < c) (v : T) :
    RingRep (data.set (if s = 0 then c - 1 else s - 1) (some v)) c
      (if s = 0 then c - 1 else s - 1) (v :: m) := by
  obtain ⟨h1, h2, h3, h4, h5⟩ := h
  have hc : 0 < c := by omega
  have hs := h3 hc
  have hs2 : (if s = 0 then c - 1 else s - 1) < c := by split <;> omega
  have hshift : ∀ k, ((if s = 0 then c - 1 else s - 1) + (k + 1)) % c = (s + k) % c := by
    intro k
    by_cases hs0 : s = 0
    · rw [if_pos hs0, hs0, show c - 1 + (k + 1) = c + k by omega, Nat.add_mod_left,
        Nat.zero_add]
    · rw [if_neg hs0, show s - 1 + (k + 1) = s + k by omega]
  refine ⟨by simp [h1], by simp; omega, fun _ => hs2, fun h0 => by omega, ?_⟩
  intro i hi
  cases i with
  | zero =>
    rw [Nat.add_zero, Nat.mod_eq_of_lt hs2, List.getElem?_set_self (by rw [h1]; exact hs2)]
    simp
  | succ k =>
    simp only [List.length_cons] at hi
    have hk : k < m.length := by omega
    rw [hshift k, List.getElem?_set_ne, h5 k hk]
    · simp
    · intro he
      have he2 : ((if s = 0 then c - 1 else s - 1) + 0) % c
          = ((if s = 0 then c - 1 else s - 1) + (k + 1)) % c := by
        rw [Nat.add_zero, Nat.mod_eq_of_lt hs2, hshift k]; exact he
      have := mod_inj hc (show k + 1 < c by omega) he2
      omega

theorem ringRep_pop_back {data : List (Option T)} {c s : Nat} {m : List T}
    (h : RingRep data c s m) (hne : m ≠ []) :
    RingRep (data.set ((s + (m.length - 1)) % c) none) c s m.dropLast := by
  obtain ⟨h1, h2, h3, h4, h5⟩ := h
  have hpos : 0 < m.length := List.length_pos.mpr hne
  refine ⟨by simp [h1], by simp; omega, h3, h4, ?_⟩
  intro i hi
  simp only [List.length_dropLast] at hi
  rw [List.getElem?_set_ne, h5 i (by omega), List.dropLast_eq_take, List.getElem?_take,
    if_pos hi]
  intro he
  have := mod_inj (show m.length - 1 < c by omega) (show i < c by omega) he
  omega

theorem ringRep_pop_front {data : List (Option T)} {c s : Nat} {m : List T}
    (h : RingRep data c s m) (hne : m ≠ []) :
    RingRep (data.set s none) c ((s + 1) % c) m.tail := by
  obtain ⟨h1, h2, h3, h4, h5⟩ := h
  have hpos : 0 < m.length := List.length_pos.mpr hne
  have hc : 0 < c := by omega
  have hs := h3 hc
  refine ⟨by simp [h1], by simp; omega, fun _ => Nat.mod_lt _ hc, fun h0 => by omega, ?_⟩
  intro i hi
  simp only [List.length_tail] at hi
  rw [Nat.mod_add_mod, show s + 1 + i = s + (i + 1) by omega, List.getElem?_set_ne,
    h5 (i + 1) (by omega)]
  · cases m with
    | nil => exact absurd rfl hne
    | cons x xs => simp
  · intro he
    have he2 : (s + 0) % c = (s + (i + 1)) % c := by
      rw [Nat.add_zero, Nat.mod_eq_of_lt hs]; exact he
    have := mod_inj hc (show i + 1 < c by omega) he2
    omega

theorem ringRep_fresh {newData : List (Option T)} {n : Nat} {m : List T}
    (hlen : newData.length = n) (hle : m.length ≤ n)
    (hall : ∀ k, k < m.length → newData[k]? = some m[k]?) : RingRep newData n 0 m := by
  refine ⟨hlen, hle, fun h => h, fun _ => rfl, ?_⟩
  intro i hi
  rw [Nat.zero_add, Nat.mod_eq_of_lt (by omega)]
  exact hall i hi

end RingLemmas

/-! ## Lemmas about the deque -/

namespace Deque

section Lemmas

variable {T : Type}

theorem deque_resizeLoop_spec (head c n : Nat) (m : List T) (hm : m.length ≤ c) (count : Nat) :
    ∀ (i : Nat) (data newData : List (Option T)),
    i + count ≤ m.length → newData.length = n → m.length ≤ n →
    (∀ j, i ≤ j → j < i + count → data[(head + j) % c]? = some m[j]?) →
    ∃ data2 newData2, resizeLoop head c count i data newData = some (data2, newData2) ∧
      newData2.length = n ∧
      (∀ k, i ≤ k → k < i + count → newData2[k]? = some m[k]?) ∧
      (∀ k, k < i → newData2[k]? = newData[k]?) := by
  induction count with
  | zero =>
    intro i data newData _ hn _ _
    exact ⟨data, newData, rfl, hn, fun k h1 h2 => by omega, fun _ _ => rfl⟩
  | succ count ih =>
    intro i data newData hic hn hmn hlive
    have hi : i < m.length := by omega
    have hc : c ≠ 0 := by omega
    have hslot : data[(head + i) % c]? = some (some m[i]) := by
      rw [hlive i (Nat.le_refl i) (by omega), List.getElem?_eq_getElem hi]
    have hlive2 : ∀ j, i + 1 ≤ j → j < i + 1 + count →
        (data.set ((head + i) % c) none)[(head + j) % c]? = some m[j]? := by
      intro j h1 h2
      rw [List.getElem?_set_ne, hlive j (by omega) (by omega)]
      intro he
      have := mod_inj (show i < c by omega) (show j < c by omega) he
      omega
    obtain ⟨data2, newData2, h1, h2, h3, h4⟩ := ih (i + 1) (data.set ((head + i) % c) none)
      (newData.set i (some m[i])) (by omega) (by simp [hn]) hmn hlive2
    refine ⟨data2, newData2, ?_, h2, ?_, ?_⟩
    · simp only [resizeLoop, if_neg hc, readSlot_some hslot,
        writeSlot_lt (some m[i]) (show i < newData.length by omega),
        destroySlot_some hslot, h1]
    · intro k hk1 hk2
      by_cases hki : k = i
      · subst hki
        rw [h4 k (by omega), List.getElem?_set_self (by omega), List.getElem?_eq_getElem hi]
      · exact h3 k (by omega) (by omega)
    · intro k hk
      rw [h4 k (by omega), List.getElem?_set_ne (by omega)]

theorem deque_grow_spec {d : Deque T} {m : List T} (h : Rep d m) (hfull : d.capacity ≤ d.size) :
    ∃ d2, resize d (calculateCapacity d) = some d2 ∧ Rep d2 m ∧ d2.size < d2.capacity := by
  obtain ⟨hsize, hring, htail⟩ := h
  have hle : m.length ≤ d.capacity := hring.2.1
  have hn0 : calculateCapacity d ≠ 0 := by unfold calculateCapacity; split <;> omega
  have hgt : d.size < calculateCapacity d := by unfold calculateCapacity; split <;> omega
  obtain ⟨data2, newData2, h1, h2, h3, _⟩ := deque_resizeLoop_spec d.head d.capacity
    (calculateCapacity d) m hle m.length 0 d.data
    (List.replicate (calculateCapacity d) none) (by omega) (by simp) (by omega)
    (fun j _ hj => hring.2.2.2.2 j (by omega))
  refine ⟨{ data := newData2, size := d.size, capacity := calculateCapacity d, head := 0,
            tail := d.size }, ?_, ⟨hsize, ?_, ?_⟩, hgt⟩
  · unfold resize
    simp only [if_neg hn0]
    rw [Nat.min_eq_right (by omega), hsize, h1]
  · show RingRep newData2 (calculateCapacity d) 0 m
    exact ringRep_fresh h2 (by omega) (fun k hk => h3 k (Nat.zero_le k) (by omega))
  · show d.size = (0 + d.size) % calculateCapacity d
    rw [Nat.zero_add, Nat.mod_eq_of_lt hgt]

theorem deque_ensure_spec {d : Deque T} {m : List T} (h : Rep d m) :
    ∃ d2, (if d.size ≥ d.capacity then resize d (calculateCapacity d) else some d) = some d2 ∧
      Rep d2 m ∧ d2.size < d2.capacity := by
  by_cases hfull : d.size ≥ d.capacity
  · rw [if_pos hfull]; exact deque_grow_spec h hfull
  · rw [if_neg hfull]; exact ⟨d, rfl, h, by omega⟩

theorem deque_push_back_spec {d : Deque T} {m : List T} (h : Rep d m) (v : T) :
    ∃ d2, push_back d (Ref.object v) = some d2 ∧ Rep d2 (m ++ [v]) := by
  obtain ⟨d1, h1, ⟨hsize, hring, htail⟩, hlt⟩ := deque_ensure_spec h
  have hc : d1.capacity ≠ 0 := by omega
  have htl : d1.tail < d1.data.length := by
    rw [htail, hring.1]; exact Nat.mod_lt _ (by omega)
  refine ⟨{ d1 with data := d1.data.set d1.tail (some v),
                    tail := moveIndex d1 d1.tail true, size := d1.size + 1 }, ?_, ?_, ?_, ?_⟩
  · unfold push_back
    rw [h1]
    simp only [readRef, writeSlot_lt (some v) htl]
  · show d1.size + 1 = (m ++ [v]).length
    simp [hsize]
  · show RingRep (d1.data.set d1.tail (some v)) d1.capacity d1.head (m ++ [v])
    rw [htail, hsize]
    exact ringRep_push_back hring (by omega) v
  · show moveIndex d1 d1.tail true = (d1.head + (d1.size + 1)) % d1.capacity
    unfold moveIndex
    rw [if_neg hc, if_pos rfl, htail, Nat.mod_add_mod, Nat.add_assoc]

theorem deque_push_front_spec {d : Deque T} {m : List T} (h : Rep d m) (v : T) :
    ∃ d2, push_front d (Ref.object v) = some d2 ∧ Rep d2 (v :: m) := by
  obtain ⟨d1, h1, ⟨hsize, hring, htail⟩, hlt⟩ := deque_ensure_spec h
  have hc : d1.capacity ≠ 0 := by omega
  have hhead := hring.2.2.1 (by omega)
  have hmv : moveIndex d1 d1.head false = if d1.head = 0 then d1.capacity - 1 else d1.head - 1 := by
    unfold moveIndex
    rw [if_neg hc]
    simp
  have hmvlt : moveIndex d1 d1.head false < d1.data.length := by
    rw [hmv, hring.1]; split <;> omega
  refine ⟨{ d1 with data := d1.data.set (moveIndex d1 d1.head false) (some v),
                    head := moveIndex d1 d1.head false, size := d1.size + 1 }, ?_, ?_, ?_, ?_⟩
  · unfold push_front
    rw [h1]
    simp only [readRef, writeSlot_lt (some v) hmvlt]
  · show d1.size + 1 = (v :: m).length
    simp [hsize]
  · show RingRep (d1.data.set (moveIndex d1 d1.head false) (some v)) d1.capacity
      (moveIndex d1 d1.head false) (v :: m)
    rw [hmv]
    exact ringRep_push_front hring (by omega) v
  · show d1.tail = (moveIndex d1 d1.head false + (d1.size + 1)) % d1.capacity
    rw [htail, hmv]
    by_cases hs0 : d1.head = 0
    · rw [if_pos hs0, hs0, show d1.capacity - 1 + (d1.size + 1) = d1.capacity + d1.size by omega,
        Nat.add_mod_left, Nat.zero_add]
    · rw [if_neg hs0, show d1.head - 1 + (d1.size + 1) = d1.head + d1.size by omega]

theorem deque_tail_pred {d : Deque T} {m : List T} (h : Rep d m) (hne : m ≠ []) :
    d.capacity ≠ 0 ∧
    (if d.tail = 0 then d.capacity - 1 else d.tail - 1) = (d.head + (m.length - 1)) % d.capacity := by
  obtain ⟨hsize, hring, htail⟩ := h
  have hpos : 0 < m.length := List.length_pos.mpr hne
  have hc : 0 < d.capacity := by have := hring.2.1; omega
  refine ⟨by omega, ?_⟩
  have h1 := mod_pred (x := d.head + (m.length - 1)) hc
  rw [show d.head + (m.length - 1) + 1 = d.head + d.size by omega, ← htail] at h1
  exact h1

theorem deque_pop_back_spec {d : Deque T} {m : List T} (h : Rep d m) :
    ∃ d2, pop_back d = some d2 ∧ Rep d2 m.dropLast := by
  by_cases hne : m = []
  · subst hne
    refine ⟨d, ?_, h⟩
    unfold pop_back isEmpty
    rw [h.1]; rfl
  obtain ⟨hc, hpred⟩ := deque_tail_pred h hne
  obtain ⟨hsize, hring, htail⟩ := h
  have hpos : 0 < m.length := List.length_pos.mpr hne
  have hmv : moveIndex d d.tail false = (d.head + (m.length - 1)) % d.capacity := by
    unfold moveIndex
    rw [if_neg hc, ← hpred]
    simp
  have hlive := ringRep_live hring (show m.length - 1 < m.length by omega)
  refine ⟨{ d with data := d.data.set (moveIndex d d.tail false) none,
                   tail := moveIndex d d.tail false, size := d.size - 1 }, ?_, ?_, ?_, ?_⟩
  · unfold pop_back isEmpty
    have hs : (d.size == 0) = false := by simp; omega
    rw [hs, hmv]
    simp only [destroySlot_some hlive]
    simp
  · show d.size - 1 = m.dropLast.length
    simp [hsize]
  · show RingRep (d.data.set (moveIndex d d.tail false) none) d.capacity d.head m.dropLast
    rw [hmv]
    exact ringRep_pop_back hring hne
  · show moveIndex d d.tail false = (d.head + (d.size - 1)) % d.capacity
    rw [hmv, hsize]

theorem deque_pop_front_spec {d : Deque T} {m : List T} (h : Rep d m) :
    ∃ d2, pop_front d = some d2 ∧ Rep d2 m.tail := by
  by_cases hne : m = []
  · subst hne
    refine ⟨d, ?_, h⟩
    unfold pop_front isEmpty
    rw [h.1]; rfl
  obtain ⟨hsize, hring, htail⟩ := h
  have hpos : 0 < m.length := List.length_pos.mpr hne
  have hc : 0 < d.capacity := by have := hring.2.1; omega
  have hhead := hring.2.2.1 hc
  have hlive := ringRep_live hring hpos
  rw [Nat.add_zero, Nat.mod_eq_of_lt hhead] at hlive
  have hmv : moveIndex d d.head true = (d.head + 1) % d.capacity := by
    unfold moveIndex
    rw [if_neg (by omega), if_pos rfl]
  refine ⟨{ d with data := d.data.set d.head none,
                   head := moveIndex d d.head true, size := d.size - 1 }, ?_, ?_, ?_, ?_⟩
  · unfold pop_front isEmpty
    have hs : (d.size == 0) = false := by simp; omega
    rw [hs]
    simp only [destroySlot_some hlive]
    simp
  · show d.size - 1 = m.tail.length
    simp [hsize]
  · show RingRep (d.data.set d.head none) d.capacity (moveIndex d d.head true) m.tail
    rw [hmv]
    exact ringRep_pop_front hring hne
  · show d.tail = (moveIndex d d.head true + (d.size - 1)) % d.capacity
    rw [hmv, htail, Nat.mod_add_mod, show d.head + 1 + (d.size - 1) = d.head + d.size by omega]

theorem deque_runOp_spec {d : Deque T} {m : List T} (h : Rep d m) (op : Op T) :
    ∃ d2, runOp d op = some d2 ∧ Rep d2 (specOp m op) := by
  cases op with
  | push_back v => exact deque_push_back_spec h v
  | push_front v => exact deque_push_front_spec h v
  | pop_back => exact deque_pop_back_spec h
  | pop_front => exact deque_pop_front_spec h

theorem deque_runOps_spec (ops : List (Op T)) : ∀ (d : Deque T) (m : List T), Rep d m →
    ∃ d2, runOps ops d = some d2 ∧ Rep d2 (specOps ops m) := by
  induction ops with
  | nil => intro d m h; exact ⟨d, rfl, h⟩
  | cons op ops ih =>
    intro d m h
    obtain ⟨d1, h1, hrep⟩ := deque_runOp_spec h op
    obtain ⟨d2, h2, hrep2⟩ := ih d1 _ hrep
    exact ⟨d2, by simp only [runOps, h1, h2], hrep2⟩

theorem deque_rep_construct : Rep (construct : Deque T) [] :=
  ⟨rfl, ringRep_nil 0, rfl⟩

theorem deque_rep_get {d : Deque T} {m : List T} (h : Rep d m) {i : Nat} (hi : i < d.size) :
    get d i = m[i]? := by
  obtain ⟨hsize, hring, _⟩ := h
  have hc : d.capacity ≠ 0 := by have := hring.2.1; omega
  unfold get
  rw [if_neg hc]
  exact ringRep_read hring (by omega)

theorem deque_rep_front {d : Deque T} {m : List T} (h : Rep d m) (hne : m ≠ []) :
    front d = m.head? := by
  obtain ⟨hsize, hring, _⟩ := h
  have hpos : 0 < m.length := List.length_pos.mpr hne
  have hc : 0 < d.capacity := by have := hring.2.1; omega
  have h1 := ringRep_read hring hpos
  rw [Nat.add_zero, Nat.mod_eq_of_lt (hring.2.2.1 hc)] at h1
  unfold front
  rw [h1]
  cases m with
  | nil => exact absurd rfl hne
  | cons x xs => simp

theorem deque_rep_back {d : Deque T} {m : List T} (h : Rep d m) (hne : m ≠ []) :
    back d = m.getLast? := by
  obtain ⟨hc, hpred⟩ := deque_tail_pred h hne
  obtain ⟨hsize, hring, _⟩ := h
  have hpos : 0 < m.length := List.length_pos.mpr hne
  have h1 := ringRep_read hring (show m.length - 1 < m.length by omega)
  have ht : (if d.tail = 0 then d.capacity else d.tail) - 1
      = (d.head + (m.length - 1)) % d.capacity := by
    rw [← hpred]; split <;> rfl
  have ht0 : (if d.tail = 0 then d.capacity else d.tail) ≠ 0 := by split <;> omega
  unfold back
  simp only [if_neg ht0, ht, h1]
  rw [List.getLast?_eq_getElem?]

end Lemmas

/-! ## The claims about the deque -/

section Claims

variable {T : Type}

/-- The deque refines the plain list model as long as no push is given one of the
elements of the deque itself. For every finite sequence of `push_back`, `push_front`,
`pop_back` and `pop_front` calls on the default-constructed deque whose arguments are
objects outside the deque, all calls return, and for the list `specOps ops []` of the
model: `getSize()` is its length, `operator[](i)` is its `i`-th element for every
`i < size`, and when it is not empty `front()` and `back()` are its first and its last
element. -/
theorem deque_refines_list (ops : List (Op T)) :
    ∃ d, runOps ops construct = some d ∧
      d.getSize = (specOps ops []).length ∧
      (∀ i, i < d.getSize → d.get i = (specOps ops [])[i]?) ∧
      (specOps ops [] ≠ [] →
        d.front = (specOps ops []).head? ∧ d.back = (specOps ops []).getLast?) := by
  obtain ⟨d, hrun, hrep⟩ := deque_runOps_spec ops construct [] deque_rep_construct
  exact ⟨d, hrun, hrep.1, fun i hi => deque_rep_get hrep hi,
    fun hne => ⟨deque_rep_front hrep hne, deque_rep_back hrep hne⟩⟩

/-- The lemma `deque_refines_list` at a sequence of calls whose elements wrap around the end
of the buffer: the model list is `[0, 2]`, stored in slots 3 and 0 of a buffer of capacity
4. -/
theorem deque_refines_list_witness :
    runOps [Op.push_back 1, Op.push_back 2, Op.pop_front, Op.push_back 3, Op.push_front 0,
        Op.pop_back] (construct : Deque Nat)
      = some { data := [some 2, none, none, some 0], size := 2, capacity := 4, head := 3,
               tail := 1 } ∧
    specOps [Op.push_back 1, Op.push_back 2, Op.pop_front, Op.push_back 3, Op.push_front 0,
        Op.pop_back] ([] : List Nat) = [0, 2] ∧
    ∃ d, runOps [Op.push_back 1, Op.push_back 2, Op.pop_front, Op.push_back 3,
          Op.push_front 0, Op.pop_back] (construct : Deque Nat) = some d ∧
      d.getSize = (specOps [Op.push_back 1, Op.push_back 2, Op.pop_front, Op.push_back 3,
          Op.push_front 0, Op.pop_back] ([] : List Nat)).length ∧
      (∀ i, i < d.getSize → d.get i = (specOps [Op.push_back 1, Op.push_back 2, Op.pop_front,
          Op.push_back 3, Op.push_front 0, Op.pop_back] ([] : List Nat))[i]?) ∧
      (specOps [Op.push_back 1, Op.push_back 2, Op.pop_front, Op.push_back 3, Op.push_front 0,
          Op.pop_back] ([] : List Nat) ≠ [] →
        d.front = (specOps [Op.push_back 1, Op.push_back 2, Op.pop_front, Op.push_back 3,
          Op.push_front 0, Op.pop_back] ([] : List Nat)).head? ∧
        d.back = (specOps [Op.push_back 1, Op.push_back 2, Op.pop_front, Op.push_back 3,
          Op.push_front 0, Op.pop_back] ([] : List Nat)).getLast?) :=
  ⟨by decide, by decide,
    deque_refines_list [Op.push_back 1, Op.push_back 2, Op.pop_front, Op.push_back 3,
      Op.push_front 0, Op.pop_back]⟩

/-- C25 (the code departs from the claim): `push_back` and `push_front` take their argument
by reference and read it after `resize` has destroyed the elements of the old buffer and
deallocated it. On the default-constructed deque after `push_back(1)` (one element,
capacity 1) the list model of `push_back(front())` is `[1, 1]`, but the call resizes to
capacity 2 and then constructs the new element from the destroyed element in the freed
buffer; `push_front(front())` and `push_back(back())` do the same. Given a copy of the
element the same call returns the deque of the model, and so does `push_back(front())` on
a deque with a free slot, where no resize happens. -/
theorem push_own_element_reads_freed_buffer :
    push_back (construct : Deque Nat) (Ref.object 1) = some single ∧
    single.size ≥ single.capacity ∧
    front single = some 1 ∧ readRef single.data false (Ref.element single.head) = some 1 ∧
    specOps [Op.push_back 1, Op.push_back 1] ([] : List Nat) = [1, 1] ∧
    resize single (calculateCapacity single)
      = some { data := [some 1, none], size := 1, capacity := 2, head := 0, tail := 1 } ∧
    push_back single (Ref.element single.head) = none ∧
    push_front single (Ref.element single.head) = none ∧
    push_back single
        (Ref.element ((if single.tail = 0 then single.capacity else single.tail) - 1))
      = none ∧
    push_back single (Ref.object 1) = some twice ∧
    runOps [Op.push_back 1, Op.push_back 2, Op.pop_back] (construct : Deque Nat)
      = some singleOfTwo ∧
    push_back singleOfTwo (Ref.element singleOfTwo.head) = some twice := by
  refine ⟨?_, ?_, ?_, ?_, ?_, ?_, ?_, ?_, ?_, ?_, ?_, ?_⟩ <;> decide

end Claims

end Deque

/-! ## Lemmas about the queue -/

namespace Queue

section Lemmas

variable {T : Type}

end Lemmas

/-! ## The claims about the queue -/

section Claims

variable {T : Type}

end Claims

end Queue

/-! ## Lemmas about the doubly linked list -/

namespace LinkedList

section Lemmas

variable {T : Type}

theorem setNext_live {heap : List (Option (Node T))} {a : Nat} {nd : Node T}
    (h : heap[a]? = some (some nd)) (nx : Option Nat) :
    setNext heap (some a) nx = some (heap.set a (some { nd with next := nx })) := by
  have hlt : a < heap.length := by
    by_contra hge
    rw [List.getElem?_eq_none (by omega)] at h
    cases h
  simp only [setNext, readSlot_some h, writeSlot_lt _ hlt]

theorem setPrev_live {heap : List (Option (Node T))} {a : Nat} {nd : Node T}
    (h : heap[a]? = some (some nd)) (pv : Option Nat) :
    setPrev heap (some a) pv = some (heap.set a (some { nd with prev := pv })) := by
  have hlt : a < heap.length := by
    by_contra hge
    rw [List.getElem?_eq_none (by omega)] at h
    cases h
  simp only [setPrev, readSlot_some h, writeSlot_lt _ hlt]

theorem readNode_live {heap : List (Option (Node T))} {a : Nat} {nd : Node T}
    (h : heap[a]? = some (some nd)) : readNode heap (some a) = some nd := by
  simp only [readNode, readSlot_some h]

theorem deleteNode_live {heap : List (Option (Node T))} {a : Nat} {nd : Node T}
    (h : heap[a]? = some (some nd)) : deleteNode heap (some a) = some (heap.set a none) := by
  simp only [deleteNode, destroySlot_some h]

theorem live_lt {heap : List (Option (Node T))} {a : Nat} {nd : Node T}
    (h : heap[a]? = some (some nd)) : a < heap.length := by
  by_contra hge
  rw [List.getElem?_eq_none (by omega)] at h
  cases h

theorem firstAddr_append (xs ys : List (Nat × T)) (d : Option Nat) :
    firstAddr (xs ++ ys) d = firstAddr xs (firstAddr ys d) := by
  cases xs <;> rfl

theorem lastAddr_append (xs ys : List (Nat × T)) : ∀ d : Option Nat,
    lastAddr (xs ++ ys) d = lastAddr ys (lastAddr xs d) := by
  induction xs with
  | nil => intro d; rfl
  | cons x xs ih => intro d; exact ih (some x.1)

theorem seg_frame {heap heap2 : List (Option (Node T))} {cells : List (Nat × T)} :
    ∀ {before after : Option Nat}, (∀ cell ∈ cells, heap2[cell.1]? = heap[cell.1]?) →
    Seg heap before cells after → Seg heap2 before cells after := by
  induction cells with
  | nil => intro _ _ _ _; trivial
  | cons x xs ih =>
    intro before after hsame hseg
    refine ⟨?_, ih (fun cell hc => hsame cell (List.mem_cons_of_mem x hc)) hseg.2⟩
    rw [hsame x (List.mem_cons_self x xs)]
    exact hseg.1

theorem seg_append {heap : List (Option (Node T))} (xs ys : List (Nat × T)) :
    ∀ (before after : Option Nat),
    Seg heap before (xs ++ ys) after ↔
      Seg heap before xs (firstAddr ys after) ∧ Seg heap (lastAddr xs before) ys after := by
  induction xs with
  | nil => intro before after; simp [Seg, lastAddr]
  | cons x xs ih =>
    intro before after
    show (heap[x.1]? = some (some ⟨x.2, before, firstAddr (xs ++ ys) after⟩) ∧
        Seg heap (some x.1) (xs ++ ys) after) ↔
      (heap[x.1]? = some (some ⟨x.2, before, firstAddr xs (firstAddr ys after)⟩) ∧
          Seg heap (some x.1) xs (firstAddr ys after)) ∧
        Seg heap (lastAddr xs (some x.1)) ys after
    rw [ih (some x.1) after, firstAddr_append]
    exact and_assoc.symm

theorem seg_live {heap : List (Option (Node T))} {cells : List (Nat × T)} :
    ∀ {before after : Option Nat}, Seg heap before cells after →
    ∀ cell ∈ cells, cell.1 < heap.length := by
  induction cells with
  | nil => intro _ _ _ cell hc; cases hc
  | cons x xs ih =>
    intro before after hseg cell hc
    rcases List.mem_cons.mp hc with h | h
    · rw [h]; exact live_lt hseg.1
    · exact ih hseg.2 cell h

theorem seg_set {heap : List (Option (Node T))} {cells : List (Nat × T)}
    {before after : Option Nat} (a : Nat) (x : Option (Node T))
    (hne : ∀ cell ∈ cells, cell.1 ≠ a) (hseg : Seg heap before cells after) :
    Seg (heap.set a x) before cells after :=
  seg_frame (fun cell hc => List.getElem?_set_ne (fun h => hne cell hc h.symm)) hseg

theorem seg_alloc {heap : List (Option (Node T))} {cells : List (Nat × T)}
    {before after : Option Nat} (x : Option (Node T))
    (hseg : Seg heap before cells after) : Seg (heap ++ [x]) before cells after :=
  seg_frame (fun cell hc => List.getElem?_append_left (seg_live hseg cell hc)) hseg

theorem nodup_mid {pre post : List (Nat × T)} {x : Nat × T}
    (h : ((pre ++ x :: post).map Prod.fst).Nodup) :
    (∀ cell ∈ pre, cell.1 ≠ x.1) ∧ (∀ cell ∈ post, cell.1 ≠ x.1) ∧
    ((pre ++ post).map Prod.fst).Nodup := by
  rw [List.map_append, List.map_cons] at h
  have h2 := List.nodup_middle.mp h
  rw [List.nodup_cons] at h2
  refine ⟨?_, ?_, by rw [List.map_append]; exact h2.2⟩
  · intro cell hc he
    exact h2.1 (List.mem_append_left _ (he ▸ List.mem_map_of_mem Prod.fst hc))
  · intro cell hc he
    exact h2.1 (List.mem_append_right _ (he ▸ List.mem_map_of_mem Prod.fst hc))

theorem getElem?_alloc (heap : List (Option (Node T))) (x : Option (Node T)) :
    (heap ++ [x])[heap.length]? = some x := by
  simp

theorem wf_lt {l : LinkedList T} {cells : List (Nat × T)} (h : WF l cells) :
    ∀ cell ∈ cells, cell.1 < l.heap.length :=
  seg_live h.1

theorem list_push_front_spec {l : LinkedList T} {cells : List (Nat × T)} (h : WF l cells)
    (val : T) :
    ∃ l2, push_front l val = some l2 ∧ WF l2 ((l.heap.length, val) :: cells) ∧
      l2.head = some l.heap.length := by
  obtain ⟨hseg, hhead, htail, hsize, hnd⟩ := h
  have hfresh : ∀ cell ∈ cells, cell.1 ≠ l.heap.length :=
    fun cell hc => Nat.ne_of_lt (seg_live hseg cell hc)
  have hnd2 : (((l.heap.length, val) :: cells).map Prod.fst).Nodup := by
    rw [List.map_cons, List.nodup_cons]
    refine ⟨?_, hnd⟩
    intro hmem
    obtain ⟨cell, hc, he⟩ := List.mem_map.mp hmem
    exact hfresh cell hc he
  have e0 := getElem?_alloc l.heap (some ({ val := val, prev := none, next := none } : Node T))
  have s1 := setNext_live e0 l.head
  have e1 : ((l.heap ++ [some ({ val := val, prev := none, next := none } : Node T)]).set
      l.heap.length (some { val := val, prev := none, next := l.head }))[l.heap.length]?
      = some (some { val := val, prev := none, next := l.head }) :=
    List.getElem?_set_self (by simp)
  have s2 := setPrev_live e1 none
  cases cells with
  | nil =>
    have hrun : push_front l val = some
        { heap := ((l.heap ++ [some ({ val := val, prev := none, next := none } : Node T)]).set
            l.heap.length (some { val := val, prev := none, next := l.head })).set
            l.heap.length (some { val := val, prev := none, next := l.head }),
          head := some l.heap.length, tail := some l.heap.length, size := l.size + 1 } := by
      unfold push_front createNode isEmpty
      simp only [s1, s2, hsize]
      rfl
    refine ⟨_, hrun, ⟨⟨?_, trivial⟩, rfl, rfl, ?_, hnd2⟩, rfl⟩
    · rw [List.getElem?_set_self (by simp)]
      rw [hhead]
    · show l.size + 1 = 1
      rw [hsize]; rfl
  | cons b rest =>
    have hblt : b.1 < l.heap.length := seg_live hseg b (List.mem_cons_self b rest)
    have hb : b.1 ≠ l.heap.length := Nat.ne_of_lt hblt
    have hrest : ∀ cell ∈ rest, cell.1 ≠ b.1 := by
      rw [List.map_cons, List.nodup_cons] at hnd
      intro cell hc he
      exact hnd.1 (he ▸ List.mem_map_of_mem Prod.fst hc)
    have hh : l.head = some b.1 := hhead
    have e2 : (((l.heap ++ [some ({ val := val, prev := none, next := none } : Node T)]).set
        l.heap.length (some { val := val, prev := none, next := l.head })).set
        l.heap.length (some { val := val, prev := none, next := l.head }))[b.1]?
        = some (some { val := b.2, prev := none, next := firstAddr rest none }) := by
      rw [List.getElem?_set_ne (fun he => hb he.symm), List.getElem?_set_ne (fun he => hb he.symm),
        List.getElem?_append_left hblt]
      exact hseg.1
    have s3 := setPrev_live e2 (some l.heap.length)
    have hrun : push_front l val = some
        { heap := (((l.heap ++ [some ({ val := val, prev := none, next := none } : Node T)]).set
            l.heap.length (some { val := val, prev := none, next := l.head })).set
            l.heap.length (some { val := val, prev := none, next := l.head })).set b.1
            (some { val := b.2, prev := some l.heap.length, next := firstAddr rest none }),
          head := some l.heap.length, tail := l.tail, size := l.size + 1 } := by
      unfold push_front createNode isEmpty
      simp only [s1, s2, hsize]
      rw [hh] at s3 ⊢
      simp only [List.length_cons, Nat.add_one_ne_zero, beq_iff_eq, if_false, s3]
    refine ⟨_, hrun, ⟨⟨?_, ?_, ?_⟩, rfl, htail, ?_, hnd2⟩, rfl⟩
    · rw [List.getElem?_set_ne hb, List.getElem?_set_self (by simp), hh]
      rfl
    · rw [List.getElem?_set_self (by simp; omega)]
    · exact seg_set _ _ hrest (seg_set _ _ (fun cell hc => hfresh cell (List.mem_cons_of_mem b hc))
        (seg_set _ _ (fun cell hc => hfresh cell (List.mem_cons_of_mem b hc))
          (seg_alloc _ hseg.2)))
    · show l.size + 1 = (b :: rest).length + 1
      rw [hsize]

theorem firstAddr_of_ne_nil {cells : List (Nat × T)} (hne : cells ≠ []) (d d2 : Option Nat) :
    firstAddr cells d = firstAddr cells d2 := by
  cases cells with
  | nil => exact absurd rfl hne
  | cons x xs => rfl

theorem lastAddr_of_ne_nil {cells : List (Nat × T)} (hne : cells ≠ []) (d d2 : Option Nat) :
    lastAddr cells d = lastAddr cells d2 := by
  cases cells with
  | nil => exact absurd rfl hne
  | cons x xs => rfl

theorem nodup_concat_fresh {cells : List (Nat × T)} {a : Nat} (val : T)
    (hnd : (cells.map Prod.fst).Nodup) (hfresh : ∀ cell ∈ cells, cell.1 ≠ a) :
    ((cells ++ [(a, val)]).map Prod.fst).Nodup := by
  rw [List.map_append, List.nodup_append]
  refine ⟨hnd, by simp, ?_⟩
  intro x hx hx2
  obtain ⟨cell, hc, he⟩ := List.mem_map.mp hx
  simp at hx2
  exact hfresh cell hc (he.trans hx2)

theorem list_push_back_spec {l : LinkedList T} {cells : List (Nat × T)} (h : WF l cells)
    (val : T) :
    ∃ l2, push_back l val = some l2 ∧ WF l2 (cells ++ [(l.heap.length, val)]) := by
  obtain ⟨hseg, hhead, htail, hsize, hnd⟩ := h
  have hfresh : ∀ cell ∈ cells, cell.1 ≠ l.heap.length :=
    fun cell hc => Nat.ne_of_lt (seg_live hseg cell hc)
  have hnd2 := nodup_concat_fresh val hnd hfresh
  have e0 := getElem?_alloc l.heap (some ({ val := val, prev := none, next := none } : Node T))
  have s1 := setPrev_live e0 l.tail
  have e1 : ((l.heap ++ [some ({ val := val, prev := none, next := none } : Node T)]).set
      l.heap.length (some { val := val, prev := l.tail, next := none }))[l.heap.length]?
      = some (some { val := val, prev := l.tail, next := none }) :=
    List.getElem?_set_self (by simp)
  have s2 := setNext_live e1 none
  rcases List.eq_nil_or_concat cells with hnil | ⟨init, b, hcells⟩
  · subst hnil
    have hrun : push_back l val = some
        { heap := ((l.heap ++ [some ({ val := val, prev := none, next := none } : Node T)]).set
            l.heap.length (some { val := val, prev := l.tail, next := none })).set
            l.heap.length (some { val := val, prev := l.tail, next := none }),
          head := some l.heap.length, tail := some l.heap.length, size := l.size + 1 } := by
      unfold push_back createNode isEmpty
      simp only [s1, s2, hsize]
      rfl
    refine ⟨_, hrun, ⟨?_, trivial⟩, rfl, rfl, ?_, hnd2⟩
    · rw [List.getElem?_set_self (by simp)]
      rw [htail]
      rfl
    · show l.size + 1 = 1
      rw [hsize]; rfl
  · rw [List.concat_eq_append] at hcells
    subst hcells
    have hbmem : b ∈ init ++ [b] := by simp
    have hblt : b.1 < l.heap.length := seg_live hseg b hbmem
    have hb : b.1 ≠ l.heap.length := Nat.ne_of_lt hblt
    have hinit : ∀ cell ∈ init, cell.1 ≠ b.1 := (nodup_mid hnd).1
    have htl : l.tail = some b.1 := by
      rw [htail, lastAddr_append]; rfl
    obtain ⟨hseg1, hseg2⟩ := (seg_append init [b] none none).mp hseg
    have e2 : (((l.heap ++ [some ({ val := val, prev := none, next := none } : Node T)]).set
        l.heap.length (some { val := val, prev := l.tail, next := none })).set
        l.heap.length (some { val := val, prev := l.tail, next := none }))[b.1]?
        = some (some { val := b.2, prev := lastAddr init none, next := none }) := by
      rw [List.getElem?_set_ne (fun he => hb he.symm), List.getElem?_set_ne (fun he => hb he.symm),
        List.getElem?_append_left hblt]
      exact hseg2.1
    have s3 := setNext_live e2 (some l.heap.length)
    have hrun : push_back l val = some
        { heap := (((l.heap ++ [some ({ val := val, prev := none, next := none } : Node T)]).set
            l.heap.length (some { val := val, prev := l.tail, next := none })).set
            l.heap.length (some { val := val, prev := l.tail, next := none })).set b.1
            (some { val := b.2, prev := lastAddr init none, next := some l.heap.length }),
          head := l.head, tail := some l.heap.length, size := l.size + 1 } := by
      unfold push_back createNode isEmpty
      simp only [s1, s2, hsize]
      rw [htl] at s3 ⊢
      simp only [List.length_append, List.length_singleton, Nat.add_one_ne_zero, beq_iff_eq,
        if_false, s3]
    have hfi : ∀ cell ∈ init, cell.1 ≠ l.heap.length :=
      fun cell hc => hfresh cell (List.mem_append_left _ hc)
    refine ⟨_, hrun, ?_, ?_, ?_, ?_, hnd2⟩
    · refine (seg_append (init ++ [b]) [(l.heap.length, val)] none none).mpr ⟨?_, ⟨?_, trivial⟩⟩
      · refine (seg_append init [b] none _).mpr ⟨?_, ⟨?_, trivial⟩⟩
        · exact seg_set _ _ hinit (seg_set _ _ hfi (seg_set _ _ hfi (seg_alloc _ hseg1)))
        · rw [List.getElem?_set_self (by simp; omega)]
          rfl
      · rw [List.getElem?_set_ne hb, List.getElem?_set_self (by simp), lastAddr_append, htl]
        rfl
    · show l.head = firstAddr ((init ++ [b]) ++ [(l.heap.length, val)]) none
      rw [hhead, firstAddr_append (init ++ [b]) [(l.heap.length, val)]]
      exact @firstAddr_of_ne_nil T (init ++ [b]) (by simp) _ _
    · show some l.heap.length = lastAddr ((init ++ [b]) ++ [(l.heap.length, val)]) none
      rw [lastAddr_append]; rfl
    · show l.size + 1 = ((init ++ [b]) ++ [(l.heap.length, val)]).length
      rw [hsize]; simp

theorem firstAddr_mem {cells : List (Nat × T)} (hne : cells ≠ []) (d : Option Nat) :
    ∃ cell, cell ∈ cells ∧ firstAddr cells d = some cell.1 := by
  cases cells with
  | nil => exact absurd rfl hne
  | cons x xs => exact ⟨x, List.mem_cons_self x xs, rfl⟩

theorem lastAddr_mem {cells : List (Nat × T)} (hne : cells ≠ []) (d : Option Nat) :
    ∃ cell, cell ∈ cells ∧ lastAddr cells d = some cell.1 := by
  rcases List.eq_nil_or_concat cells with hnil | ⟨init, b, hcells⟩
  · exact absurd hnil hne
  · rw [List.concat_eq_append] at hcells
    subst hcells
    exact ⟨b, by simp, by rw [lastAddr_append]; rfl⟩

theorem list_pop_front_spec {l : LinkedList T} {x : Nat × T} {post : List (Nat × T)}
    (h : WF l (x :: post)) :
    ∃ l2, pop_front l = some l2 ∧ WF l2 post ∧ l2.head = firstAddr post none ∧
      l2.size + 1 = l.size := by
  obtain ⟨hseg, hhead, htail, hsize, hnd⟩ := h
  have hh : l.head = some x.1 := hhead
  have hpost : ∀ cell ∈ post, cell.1 ≠ x.1 := (@nodup_mid T [] _ _ hnd).2.1
  have hndp : (post.map Prod.fst).Nodup := (@nodup_mid T [] _ _ hnd).2.2
  cases post with
  | nil =>
    have ht : l.tail = some x.1 := htail
    have hrun : pop_front l = some
        { heap := l.heap.set x.1 none, head := none, tail := none, size := l.size - 1 } := by
      unfold pop_front
      rw [hh, ht]
      simp only [deleteNode_live hseg.1]
      simp
    refine ⟨_, hrun, ⟨trivial, rfl, rfl, ?_, hndp⟩, rfl, ?_⟩
    · show l.size - 1 = 0
      rw [hsize]; rfl
    · show l.size - 1 + 1 = l.size
      rw [hsize]; rfl
  | cons y rest =>
    have hyx : y.1 ≠ x.1 := hpost y (List.mem_cons_self y rest)
    have hne : l.head ≠ l.tail := by
      rw [hh, htail]
      obtain ⟨cell, hc, he⟩ := lastAddr_mem (show y :: rest ≠ [] by simp) (some x.1)
      show some x.1 ≠ lastAddr (y :: rest) (some x.1)
      rw [he]
      intro heq
      exact hpost cell hc (Option.some.inj heq).symm
    have ey : l.heap[y.1]? = some (some ⟨y.2, some x.1, firstAddr rest none⟩) := hseg.2.1
    have s1 := setPrev_live ey none
    have ex : (l.heap.set y.1 (some ⟨y.2, none, firstAddr rest none⟩))[x.1]? = some (some ⟨x.2, none, some y.1⟩) := by
      rw [List.getElem?_set_ne hyx]
      exact hseg.1
    have s2 := deleteNode_live ex
    have hrun : pop_front l = some
        { heap := (l.heap.set y.1 (some ⟨y.2, none, firstAddr rest none⟩)).set x.1 none,
          head := some y.1, tail := l.tail, size := l.size - 1 } := by
      have ex0 : l.heap[x.1]? = some (some ⟨x.2, none, some y.1⟩) := hseg.1
      unfold pop_front
      rw [if_neg (by rw [hh]; simp), if_neg hne, hh]
      simp only [readNode_live ex0, s1, s2]
    have hrest : ∀ cell ∈ rest, cell.1 ≠ y.1 := (@nodup_mid T [] _ _ hndp).2.1
    refine ⟨_, hrun, ⟨⟨?_, ?_⟩, rfl, htail, ?_, hndp⟩, rfl, ?_⟩
    · rw [List.getElem?_set_ne (fun he => hyx he.symm),
        List.getElem?_set_self (live_lt ey)]
    · exact seg_set _ _ (fun cell hc => hpost cell (List.mem_cons_of_mem y hc))
        (seg_set _ _ hrest hseg.2.2)
    · show l.size - 1 = (y :: rest).length
      rw [hsize]; rfl
    · show l.size - 1 + 1 = l.size
      rw [hsize]; rfl

theorem list_pop_back_spec {l : LinkedList T} {x : Nat × T} {pre : List (Nat × T)}
    (h : WF l (pre ++ [x])) :
    ∃ l2, pop_back l = some l2 ∧ WF l2 pre ∧ l2.size + 1 = l.size := by
  obtain ⟨hseg, hhead, htail, hsize, hnd⟩ := h
  have ht : l.tail = some x.1 := by rw [htail, lastAddr_append]; rfl
  have hpre : ∀ cell ∈ pre, cell.1 ≠ x.1 := (nodup_mid hnd).1
  have hndp : (pre.map Prod.fst).Nodup := by
    have := (nodup_mid hnd).2.2
    rwa [List.append_nil] at this
  obtain ⟨hseg1, hseg2⟩ := (seg_append pre [x] none none).mp hseg
  have ex : l.heap[x.1]? = some (some ⟨x.2, lastAddr pre none, none⟩) := hseg2.1
  rcases List.eq_nil_or_concat pre with hnil | ⟨init, p, hcells⟩
  · subst hnil
    have hh : l.head = some x.1 := hhead
    have hrun : pop_back l = some
        { heap := l.heap.set x.1 none, head := none, tail := none, size := l.size - 1 } := by
      unfold pop_back
      rw [hh, ht]
      simp only [deleteNode_live ex]
      simp
    refine ⟨_, hrun, ⟨trivial, rfl, rfl, ?_, hndp⟩, ?_⟩
    · show l.size - 1 = 0
      rw [hsize]; rfl
    · show l.size - 1 + 1 = l.size
      rw [hsize]; rfl
  · rw [List.concat_eq_append] at hcells
    subst hcells
    have hpx : p.1 ≠ x.1 := hpre p (by simp)
    have hlast : lastAddr (init ++ [p]) none = some p.1 := by rw [lastAddr_append]; rfl
    have hne : l.head ≠ l.tail := by
      rw [hhead, ht, firstAddr_append]
      obtain ⟨cell, hc, he⟩ := firstAddr_mem (show init ++ [p] ≠ [] by simp)
        (firstAddr [x] none)
      rw [he]
      intro heq
      exact hpre cell hc (Option.some.inj heq)
    obtain ⟨hseg3, hseg4⟩ := (seg_append init [p] none _).mp hseg1
    have ep : l.heap[p.1]? = some (some ⟨p.2, lastAddr init none, some x.1⟩) := hseg4.1
    rw [hlast] at ex
    have s1 := setNext_live ep none
    have ex2 : (l.heap.set p.1 (some ⟨p.2, lastAddr init none, none⟩))[x.1]? = some (some ⟨x.2, some p.1, none⟩) := by
      rw [List.getElem?_set_ne hpx]
      exact ex
    have s2 := deleteNode_live ex2
    have hrun : pop_back l = some
        { heap := (l.heap.set p.1 (some ⟨p.2, lastAddr init none, none⟩)).set x.1 none,
          head := l.head, tail := some p.1, size := l.size - 1 } := by
      unfold pop_back
      rw [if_neg (by rw [ht]; simp), if_neg hne, ht]
      simp only [readNode_live ex, s1, s2]
    have hinit : ∀ cell ∈ init, cell.1 ≠ p.1 := (nodup_mid hndp).1
    refine ⟨_, hrun, ⟨?_, ?_, hlast.symm, ?_, hndp⟩, ?_⟩
    · refine (seg_append init [p] none none).mpr ⟨?_, ⟨?_, trivial⟩⟩
      · exact seg_set _ _ (fun cell hc => hpre cell (List.mem_append_left _ hc))
          (seg_set _ _ hinit hseg3)
      · rw [List.getElem?_set_ne (fun he => hpx he.symm),
          List.getElem?_set_self (live_lt ep)]
        rfl
    · show l.head = firstAddr (init ++ [p]) none
      rw [hhead, firstAddr_append (init ++ [p]) [x]]
      exact @firstAddr_of_ne_nil T (init ++ [p]) (by simp) _ _
    · show l.size - 1 = (init ++ [p]).length
      rw [hsize]; simp
    · show l.size - 1 + 1 = l.size
      rw [hsize]; simp

theorem list_remove_spec {l : LinkedList T} {pre post : List (Nat × T)} {x : Nat × T}
    (h : WF l (pre ++ x :: post)) :
    ∃ l2, remove l (some x.1) = some (l2, firstAddr post none) ∧ WF l2 (pre ++ post) ∧
      l2.getSize + 1 = l.getSize := by
  rcases List.eq_nil_or_concat pre with hnil | ⟨init, p, hpre⟩
  · subst hnil
    obtain ⟨l2, hrun, hwf, hhead2, hsize2⟩ := list_pop_front_spec h
    have hh : l.head = some x.1 := h.2.1
    refine ⟨l2, ?_, hwf, hsize2⟩
    unfold remove
    simp only [hh, if_true, hrun, begin, hhead2]
  rw [List.concat_eq_append] at hpre
  subst hpre
  have hwf := h
  obtain ⟨hseg, hhead, htail, hsize, hnd⟩ := h
  obtain ⟨hpre, hpost, hnd2⟩ := nodup_mid hnd
  have hpx : p.1 ≠ x.1 := hpre p (by simp)
  have hne1 : some x.1 ≠ l.head := by
    rw [hhead, firstAddr_append]
    obtain ⟨cell, hc, he⟩ := firstAddr_mem (show init ++ [p] ≠ [] by simp)
      (firstAddr (x :: post) none)
    rw [he]
    intro heq
    exact hpre cell hc (Option.some.inj heq).symm
  cases post with
  | nil =>
    obtain ⟨l2, hrun, hwf2, hsize2⟩ := list_pop_back_spec hwf
    have ht : l.tail = some x.1 := by rw [htail, lastAddr_append]; rfl
    refine ⟨l2, ?_, by rw [List.append_nil]; exact hwf2, hsize2⟩
    unfold remove
    simp only [if_neg hne1, ht, if_true, hrun, endIt]
    rfl
  | cons y rest =>
    have hyx : y.1 ≠ x.1 := hpost y (List.mem_cons_self y rest)
    have hne2 : some x.1 ≠ l.tail := by
      rw [htail, lastAddr_append]
      obtain ⟨cell, hc, he⟩ := lastAddr_mem (show y :: rest ≠ [] by simp) (some x.1)
      show some x.1 ≠ lastAddr (y :: rest) (some x.1)
      rw [he]
      intro heq
      exact hpost cell hc (Option.some.inj heq).symm
    have hlast : lastAddr (init ++ [p]) none = some p.1 := by rw [lastAddr_append]; rfl
    obtain ⟨hsegA, hsegB⟩ := (seg_append (init ++ [p]) (x :: y :: rest) none none).mp hseg
    obtain ⟨hsegI, hsegP⟩ := (seg_append init [p] none _).mp hsegA
    rw [hlast] at hsegB
    have ep : l.heap[p.1]? = some (some ⟨p.2, lastAddr init none, some x.1⟩) := hsegP.1
    have ex : l.heap[x.1]? = some (some ⟨x.2, some p.1, some y.1⟩) := hsegB.1
    have ey : l.heap[y.1]? = some (some ⟨y.2, some x.1, firstAddr rest none⟩) := hsegB.2.1
    have hpy : p.1 ≠ y.1 := by
      have := (nodup_mid hnd2).1
      intro he
      have hmem : y ∈ y :: rest := List.mem_cons_self y rest
      rw [List.map_append, List.nodup_append] at hnd2
      exact hnd2.2.2 (List.mem_map_of_mem Prod.fst (show p ∈ init ++ [p] by simp))
        (he ▸ List.mem_map_of_mem Prod.fst hmem)
    have s1 := setNext_live ep (some y.1)
    have ex1 : (l.heap.set p.1 (some ⟨p.2, lastAddr init none, some y.1⟩))[x.1]?
        = some (some ⟨x.2, some p.1, some y.1⟩) := by
      rw [List.getElem?_set_ne hpx]; exact ex
    have ey1 : (l.heap.set p.1 (some ⟨p.2, lastAddr init none, some y.1⟩))[y.1]?
        = some (some ⟨y.2, some x.1, firstAddr rest none⟩) := by
      rw [List.getElem?_set_ne hpy]; exact ey
    have s2 := setPrev_live ey1 (some p.1)
    have ex2 : ((l.heap.set p.1 (some ⟨p.2, lastAddr init none, some y.1⟩)).set y.1
        (some ⟨y.2, some p.1, firstAddr rest none⟩))[x.1]?
        = some (some ⟨x.2, some p.1, some y.1⟩) := by
      rw [List.getElem?_set_ne hyx]; exact ex1
    have s3 := deleteNode_live ex2
    have hrun : remove l (some x.1) = some
        ({ heap := ((l.heap.set p.1 (some ⟨p.2, lastAddr init none, some y.1⟩)).set y.1
            (some ⟨y.2, some p.1, firstAddr rest none⟩)).set x.1 none,
           head := l.head, tail := l.tail, size := l.size - 1 }, some y.1) := by
      unfold remove
      simp only [if_neg hne1, if_neg hne2, readNode_live ex, s1, readNode_live ex1, s2,
        readNode_live ex2, s3]
    have hinit : ∀ cell ∈ init, cell.1 ≠ p.1 := by
      have hndp : ((init ++ [p]).map Prod.fst).Nodup := by
        rw [List.map_append, List.nodup_append] at hnd2
        exact hnd2.1
      exact (nodup_mid hndp).1
    have hrest : ∀ cell ∈ rest, cell.1 ≠ y.1 := by
      have hndp : ((y :: rest).map Prod.fst).Nodup := by
        rw [List.map_append, List.nodup_append] at hnd2
        exact hnd2.2.1
      exact (@nodup_mid T [] _ _ hndp).2.1
    have hdisj : ∀ c1 ∈ init ++ [p], ∀ c2 ∈ y :: rest, c1.1 ≠ c2.1 := by
      intro c1 h1 c2 h2 he
      rw [List.map_append, List.nodup_append] at hnd2
      exact hnd2.2.2 (List.mem_map_of_mem Prod.fst h1) (he ▸ List.mem_map_of_mem Prod.fst h2)
    refine ⟨_, hrun, ⟨?_, ?_, ?_, ?_, hnd2⟩, ?_⟩
    · refine (seg_append (init ++ [p]) (y :: rest) none none).mpr ⟨?_, ?_⟩
      · refine (seg_append init [p] none _).mpr ⟨?_, ⟨?_, trivial⟩⟩
        · exact seg_set _ _ (fun cell hc => hpre cell (List.mem_append_left _ hc))
            (seg_set _ _ (fun cell hc => hdisj cell (List.mem_append_left _ hc) y
              (List.mem_cons_self y rest)) (seg_set _ _ hinit hsegI))
        · rw [List.getElem?_set_ne (fun he => hpx he.symm), List.getElem?_set_ne (fun he => hpy he.symm),
            List.getElem?_set_self (live_lt ep)]
          rfl
      · rw [hlast]
        refine ⟨?_, ?_⟩
        · rw [List.getElem?_set_ne (fun he => hyx he.symm),
            List.getElem?_set_self (by rw [List.length_set]; exact live_lt ey)]
        · exact seg_set _ _ (fun cell hc => hpost cell (List.mem_cons_of_mem y hc))
            (seg_set _ _ hrest (seg_set _ _
              (fun cell hc he => hdisj p (by simp) cell (List.mem_cons_of_mem y hc) he.symm)
              hsegB.2.2))
    · show l.head = firstAddr ((init ++ [p]) ++ y :: rest) none
      rw [hhead, firstAddr_append (init ++ [p]) (x :: y :: rest),
        firstAddr_append (init ++ [p]) (y :: rest)]
      exact @firstAddr_of_ne_nil T (init ++ [p]) (by simp) _ _
    · show l.tail = lastAddr ((init ++ [p]) ++ y :: rest) none
      rw [htail, lastAddr_append (init ++ [p]) (x :: y :: rest),
        lastAddr_append (init ++ [p]) (y :: rest)]
      rfl
    · show l.size - 1 = ((init ++ [p]) ++ y :: rest).length
      rw [hsize]; simp
    · show l.size - 1 + 1 = l.size
      rw [hsize]
      simp only [List.length_append, List.length_cons, List.length_nil]
      omega

theorem list_insert_spec {l : LinkedList T} {pre post : List (Nat × T)} (h : WF l (pre ++ post))
    (val : T) :
    ∃ l2 r, insert l (firstAddr post none) val = some (l2, r) ∧
      WF l2 (pre ++ (l.heap.length, val) :: post) ∧ l2.getSize = l.getSize + 1 := by
  rcases List.eq_nil_or_concat pre with hnil | ⟨init, p, hpre⟩
  · subst hnil
    obtain ⟨l2, hrun, hwf, _⟩ := list_push_front_spec h val
    have hh : l.head = firstAddr post none := h.2.1
    refine ⟨l2, l2.begin, ?_, hwf, ?_⟩
    · unfold insert
      simp only [begin, hh, if_true, hrun]
    · show l2.size = l.size + 1
      rw [hwf.2.2.2.1, h.2.2.2.1]
      rfl
  rw [List.concat_eq_append] at hpre
  subst hpre
  have hwf := h
  obtain ⟨hseg, hhead, htail, hsize, hnd⟩ := h
  obtain ⟨c0, hc0, hfirst⟩ := firstAddr_mem (show init ++ [p] ≠ [] by simp)
    (firstAddr post none)
  have hh : l.head = some c0.1 := by rw [hhead, firstAddr_append, hfirst]
  cases post with
  | nil =>
    obtain ⟨l2, hrun, hwf2⟩ := list_push_back_spec hwf val
    rw [List.append_nil] at hwf2
    refine ⟨l2, l2.endIt, ?_, hwf2, ?_⟩
    · unfold insert
      simp only [begin, endIt, firstAddr, hh, hrun]
      simp
    · show l2.size = l.size + 1
      rw [hwf2.2.2.2.1, hsize]
      simp
  | cons y rest =>
    have hfresh : ∀ cell ∈ (init ++ [p]) ++ y :: rest, cell.1 ≠ l.heap.length :=
      fun cell hc => Nat.ne_of_lt (seg_live hseg cell hc)
    have hndA : ((init ++ [p]).map Prod.fst).Nodup := by
      rw [List.map_append, List.nodup_append] at hnd
      exact hnd.1
    have hndB : ((y :: rest).map Prod.fst).Nodup := by
      rw [List.map_append, List.nodup_append] at hnd
      exact hnd.2.1
    have hdisj : ∀ c1 ∈ init ++ [p], ∀ c2 ∈ y :: rest, c1.1 ≠ c2.1 := by
      intro c1 h1 c2 h2 he
      rw [List.map_append, List.nodup_append] at hnd
      exact hnd.2.2 (List.mem_map_of_mem Prod.fst h1) (he ▸ List.mem_map_of_mem Prod.fst h2)
    have hinit : ∀ cell ∈ init, cell.1 ≠ p.1 := (nodup_mid hndA).1
    have hrest : ∀ cell ∈ rest, cell.1 ≠ y.1 := (@nodup_mid T [] _ _ hndB).2.1
    have hpy : p.1 ≠ y.1 := hdisj p (by simp) y (List.mem_cons_self y rest)
    have hpa : p.1 ≠ l.heap.length := hfresh p (by simp)
    have hya : y.1 ≠ l.heap.length := hfresh y (by simp)
    have hne1 : some y.1 ≠ l.head := by
      rw [hh]
      intro heq
      exact hdisj c0 hc0 y (List.mem_cons_self y rest) (Option.some.inj heq).symm
    have hlast : lastAddr (init ++ [p]) none = some p.1 := by rw [lastAddr_append]; rfl
    obtain ⟨hsegA, hsegB⟩ := (seg_append (init ++ [p]) (y :: rest) none none).mp hseg
    obtain ⟨hsegI, hsegP⟩ := (seg_append init [p] none _).mp hsegA
    rw [hlast] at hsegB
    have ep : l.heap[p.1]? = some (some ⟨p.2, lastAddr init none, some y.1⟩) := hsegP.1
    have ey : l.heap[y.1]? = some (some ⟨y.2, some p.1, firstAddr rest none⟩) := hsegB.1
    have e0 := getElem?_alloc l.heap (some (⟨val, none, none⟩ : Node T))
    have s1 := setNext_live e0 (some y.1)
    have ey1 : ((l.heap ++ [some (⟨val, none, none⟩ : Node T)]).set l.heap.length
        (some ⟨val, none, some y.1⟩))[y.1]?
        = some (some ⟨y.2, some p.1, firstAddr rest none⟩) := by
      rw [List.getElem?_set_ne (fun he => hya he.symm),
        List.getElem?_append_left (live_lt ey)]
      exact ey
    have e1 : ((l.heap ++ [some (⟨val, none, none⟩ : Node T)]).set l.heap.length
        (some ⟨val, none, some y.1⟩))[l.heap.length]?
        = some (some ⟨val, none, some y.1⟩) := List.getElem?_set_self (by simp)
    have s2 := setPrev_live e1 (some p.1)
    have ep2 : (((l.heap ++ [some (⟨val, none, none⟩ : Node T)]).set l.heap.length
        (some ⟨val, none, some y.1⟩)).set l.heap.length
        (some ⟨val, some p.1, some y.1⟩))[p.1]?
        = some (some ⟨p.2, lastAddr init none, some y.1⟩) := by
      rw [List.getElem?_set_ne (fun he => hpa he.symm),
        List.getElem?_set_ne (fun he => hpa he.symm), List.getElem?_append_left (live_lt ep)]
      exact ep
    have s3 := setNext_live ep2 (some l.heap.length)
    have ey3 : ((((l.heap ++ [some (⟨val, none, none⟩ : Node T)]).set l.heap.length
        (some ⟨val, none, some y.1⟩)).set l.heap.length
        (some ⟨val, some p.1, some y.1⟩)).set p.1
        (some ⟨p.2, lastAddr init none, some l.heap.length⟩))[y.1]?
        = some (some ⟨y.2, some p.1, firstAddr rest none⟩) := by
      rw [List.getElem?_set_ne hpy, List.getElem?_set_ne (fun he => hya he.symm)]
      exact ey1
    have s4 := setPrev_live ey3 (some l.heap.length)
    have hrun : insert l (some y.1) val = some
        ({ heap := ((((l.heap ++ [some (⟨val, none, none⟩ : Node T)]).set l.heap.length
            (some ⟨val, none, some y.1⟩)).set l.heap.length
            (some ⟨val, some p.1, some y.1⟩)).set p.1
            (some ⟨p.2, lastAddr init none, some l.heap.length⟩)).set y.1
            (some ⟨y.2, some l.heap.length, firstAddr rest none⟩),
           head := l.head, tail := l.tail, size := l.size + 1 }, some l.heap.length) := by
      unfold insert createNode
      rw [if_neg (show ¬ some y.1 = l.begin from hne1),
        if_neg (show ¬ some y.1 = l.endIt by simp [endIt])]
      simp only [s1, readNode_live ey1, s2]
      rw [if_pos (show (some p.1 : Option Nat) ≠ none by simp)]
      simp only [s3, s4]
    have hfi : ∀ cell ∈ init, cell.1 ≠ l.heap.length :=
      fun cell hc => hfresh cell (by simp [hc])
    have hfr : ∀ cell ∈ rest, cell.1 ≠ l.heap.length :=
      fun cell hc => hfresh cell (by simp [hc])
    refine ⟨_, _, hrun, ⟨?_, ?_, ?_, ?_, ?_⟩, ?_⟩
    · refine (seg_append (init ++ [p]) ((l.heap.length, val) :: y :: rest) none none).mpr
        ⟨?_, ?_⟩
      · refine (seg_append init [p] none _).mpr ⟨?_, ⟨?_, trivial⟩⟩
        · exact seg_set _ _ (fun cell hc => hdisj cell (List.mem_append_left _ hc) y
              (List.mem_cons_self y rest))
            (seg_set _ _ hinit (seg_set _ _ hfi (seg_set _ _ hfi (seg_alloc _ hsegI))))
        · rw [List.getElem?_set_ne (fun he => hpy he.symm),
            List.getElem?_set_self (by simp; exact Nat.lt_succ_of_lt (live_lt ep))]
          rfl
      · rw [hlast]
        refine ⟨?_, ?_, ?_⟩
        · rw [List.getElem?_set_ne hya, List.getElem?_set_ne hpa,
            List.getElem?_set_self (by simp)]
          rfl
        · rw [List.getElem?_set_self (by simp; exact Nat.lt_succ_of_lt (live_lt ey))]
        · exact seg_set _ _ hrest
            (seg_set _ _ (fun cell hc he => hdisj p (by simp) cell (List.mem_cons_of_mem y hc) he.symm)
              (seg_set _ _ hfr (seg_set _ _ hfr (seg_alloc _ hsegB.2))))
    · show l.head = firstAddr ((init ++ [p]) ++ (l.heap.length, val) :: y :: rest) none
      rw [hhead, firstAddr_append (init ++ [p]) (y :: rest),
        firstAddr_append (init ++ [p]) ((l.heap.length, val) :: y :: rest)]
      exact @firstAddr_of_ne_nil T (init ++ [p]) (by simp) _ _
    · show l.tail = lastAddr ((init ++ [p]) ++ (l.heap.length, val) :: y :: rest) none
      rw [htail, lastAddr_append (init ++ [p]) (y :: rest),
        lastAddr_append (init ++ [p]) ((l.heap.length, val) :: y :: rest)]
      rfl
    · show l.size + 1 = ((init ++ [p]) ++ (l.heap.length, val) :: y :: rest).length
      rw [hsize]
      simp only [List.length_append, List.length_cons, List.length_nil]
      omega
    · rw [List.map_append, List.map_cons]
      apply List.nodup_middle.mpr
      rw [List.nodup_cons, ← List.map_append]
      refine ⟨?_, hnd⟩
      intro hmem
      obtain ⟨cell, hc, he⟩ := List.mem_map.mp hmem
      exact hfresh cell hc he
    · show l.size + 1 = l.size + 1
      rfl

theorem wf_threeNodes : WF threeNodes [(0, 10), (1, 20), (2, 30)] :=
  ⟨⟨rfl, rfl, rfl, trivial⟩, rfl, rfl, rfl, by decide⟩

end Lemmas

/-! ## The claims about the doubly linked list -/

section Claims

variable {T : Type}

/-- C21: `remove` deletes exactly the designated record. For every list holding the
records `pre ++ x :: post` (addresses and values, in order) and the handle of the record
`x`: `remove(it)` returns, the list then holds `pre ++ post` (all other records, same
addresses, same values, same order), `getSize()` has decreased by 1, and the returned
handle is that of the first record of `post`, or `end()` when `post` is empty. -/
theorem remove_deletes_record (l : LinkedList T) (pre post : List (Nat × T)) (x : Nat × T)
    (h : WF l (pre ++ x :: post)) :
    ∃ l2, remove l (some x.1) = some (l2, firstAddr post none) ∧ WF l2 (pre ++ post) ∧
      l2.getSize + 1 = l.getSize :=
  list_remove_spec h

/-- C21, at the list `10, 20, 30` built by three `push_back` calls and the handle of the
record 20. -/
theorem remove_deletes_record_witness :
    (((push_back (construct : LinkedList Nat) 10).bind (fun l => push_back l 20)).bind
      (fun l => push_back l 30) = some threeNodes) ∧
    WF threeNodes ([(0, 10)] ++ (1, 20) :: [(2, 30)]) ∧
    ∃ l2, remove threeNodes (some 1) = some (l2, firstAddr [(2, 30)] none) ∧
      WF l2 ([(0, 10)] ++ [(2, 30)]) ∧ l2.getSize + 1 = threeNodes.getSize :=
  ⟨by decide, wf_threeNodes,
    remove_deletes_record threeNodes [(0, 10)] [(2, 30)] (1, 20) wf_threeNodes⟩

/-- C22: `insert` puts the value immediately before the designated record. For every list
holding the records `pre ++ post` and the handle `it` of the first record of `post`
(`end()` when `post` is empty): `insert(it, val)` returns, the list then holds
`pre ++ (a, val) :: post` where `a` is the address of the new node (all previous records
keep their addresses, values and order), and `getSize()` has increased by 1. -/
theorem insert_before_handle (l : LinkedList T) (pre post : List (Nat × T)) (val : T)
    (h : WF l (pre ++ post)) :
    ∃ l2 r, insert l (firstAddr post none) val = some (l2, r) ∧
      WF l2 (pre ++ (l.heap.length, val) :: post) ∧ l2.getSize = l.getSize + 1 :=
  list_insert_spec h val

/-- C22, at the list `10, 20, 30` and the handle of the record 20. -/
theorem insert_before_handle_witness :
    WF threeNodes ([(0, 10)] ++ [(1, 20), (2, 30)]) ∧
    ∃ l2 r, insert threeNodes (firstAddr [(1, 20), (2, 30)] none) 9 = some (l2, r) ∧
      WF l2 ([(0, 10)] ++ (threeNodes.heap.length, 9) :: [(1, 20), (2, 30)]) ∧
      l2.getSize = threeNodes.getSize + 1 :=
  ⟨wf_threeNodes, insert_before_handle threeNodes [(0, 10)] [(1, 20), (2, 30)] 9 wf_threeNodes⟩

end Claims

end LinkedList

/-! ## Lemmas about the hash set -/

namespace HashSet

section Lemmas

set_option linter.unusedSectionVars false

variable {K : Type} [DecidableEq K]

theorem set_dropWhile_map (data : List (Node K Unit)) (a : Nat) :
    (data.map (fun nd => ({ id := nd.id, key := nd.key } : KeyNode K))).dropWhile
        (fun nd => nd.id != a)
      = (data.dropWhile (fun nd => nd.id != a)).map
          (fun nd => ({ id := nd.id, key := nd.key } : KeyNode K)) := by
  rw [List.dropWhile_map]; rfl

theorem set_takeWhile_map (data : List (Node K Unit)) (a : Nat) :
    (data.map (fun nd => ({ id := nd.id, key := nd.key } : KeyNode K))).takeWhile
        (fun nd => nd.id != a)
      = (data.takeWhile (fun nd => nd.id != a)).map
          (fun nd => ({ id := nd.id, key := nd.key } : KeyNode K)) := by
  rw [List.takeWhile_map]; rfl

theorem set_listSeek_map (data : List (Node K Unit)) (it : Iter) :
    listSeek (data.map (fun nd => ({ id := nd.id, key := nd.key } : KeyNode K))) it
      = (DS.listSeek data it).map (fun nd => ({ id := nd.id, key := nd.key } : KeyNode K)) := by
  cases it with
  | node a => exact set_dropWhile_map data a
  | sentinel => rfl

theorem set_iterOf_map (xs : List (Node K Unit)) :
    iterOf (xs.map (fun nd => ({ id := nd.id, key := nd.key } : KeyNode K))) = DS.iterOf xs := by
  cases xs <;> rfl

theorem set_listInsert_map (data : List (Node K Unit)) (pos : Iter) (nd : Node K Unit) :
    listInsert (data.map (fun nd => ({ id := nd.id, key := nd.key } : KeyNode K))) pos
        { id := nd.id, key := nd.key }
      = (DS.listInsert data pos nd).map
          (List.map (fun nd => ({ id := nd.id, key := nd.key } : KeyNode K))) := by
  cases pos with
  | sentinel => simp [listInsert, DS.listInsert]
  | node a =>
    simp only [listInsert, DS.listInsert, set_dropWhile_map, set_takeWhile_map]
    cases data.dropWhile (fun x => x.id != a) with
    | nil => rfl
    | cons x rest => simp

theorem set_listErase_map (data : List (Node K Unit)) (pos : Iter) :
    listErase (data.map (fun nd => ({ id := nd.id, key := nd.key } : KeyNode K))) pos
      = (DS.listErase data pos).map
          (fun r => (r.1.map (fun nd => ({ id := nd.id, key := nd.key } : KeyNode K)), r.2)) := by
  cases pos with
  | sentinel => rfl
  | node a =>
    simp only [listErase, DS.listErase, set_dropWhile_map, set_takeWhile_map]
    cases data.dropWhile (fun x => x.id != a) with
    | nil => rfl
    | cons x rest => simp [set_iterOf_map]

theorem set_chainWalk_map (data : List (Node K Unit)) (key : K) (i : Nat) : ∀ it : Iter,
    chainWalk (data.map (fun nd => ({ id := nd.id, key := nd.key } : KeyNode K))) key i it
      = HashMap.chainWalk data key i it := by
  induction i with
  | zero => intro it; rfl
  | succ i ih =>
    intro it
    simp only [chainWalk, HashMap.chainWalk, set_listSeek_map]
    cases DS.listSeek data it with
    | nil => rfl
    | cons nd rest =>
      simp only [List.map_cons]
      rw [ih, set_iterOf_map]

theorem set_getElementByChain (t : HashMap K Unit) (chainIdx : Nat) (key : K) :
    getElementByChain (ofMap t) chainIdx key = HashMap.getElementByChain t chainIdx key := by
  simp only [getElementByChain, HashMap.getElementByChain, ofMap, set_chainWalk_map]

theorem set_hash (hasher : K → Nat) (t : HashMap K Unit) (key : K) :
    hash hasher (ofMap t) key = HashMap.hash hasher t key := rfl

theorem set_find (hasher : K → Nat) (t : HashMap K Unit) (key : K) :
    find hasher (ofMap t) key = HashMap.find hasher t key := by
  simp only [find, HashMap.find, set_hash, set_getElementByChain]
  rfl

theorem set_size (t : HashMap K Unit) : (ofMap t).size = t.size := by
  simp [size, HashMap.size, ofMap]

theorem set_linkNew (t : HashMap K Unit) (chainIdx : Nat) (key : K) :
    linkNew (ofMap t) chainIdx key = (HashMap.linkNew t chainIdx key ()).map ofMap := by
  unfold linkNew HashMap.linkNew
  show (match t.table[chainIdx]? with
    | none => none
    | some chainInfo => _) = _
  cases t.table[chainIdx]? with
  | none => rfl
  | some chainInfo =>
    simp only
    by_cases h0 : chainInfo.2 = 0
    · simp only [h0, if_true]
      rfl
    · simp only [h0, if_false]
      have := set_listInsert_map t.data chainInfo.1 { id := t.next, key := key, val := () }
      show (match listInsert (ofMap t).data chainInfo.1 { id := t.next, key := key } with
        | none => none
        | some data1 => _) = _
      show (match listInsert (t.data.map (fun nd => ({ id := nd.id, key := nd.key } : KeyNode K)))
          chainInfo.1 { id := t.next, key := key } with
        | none => none
        | some data1 => _) = _
      rw [this]
      cases DS.listInsert t.data chainInfo.1 { id := t.next, key := key, val := () } with
      | none => rfl
      | some data1 => rfl

theorem set_insertWith (hasher : K → Nat)
    (rs : Nat → HashSet K → Outcome (HashSet K))
    (rm : Nat → HashMap K Unit → Outcome (HashMap K Unit))
    (hr : ∀ n t, rs n (ofMap t) = (rm n t).map ofMap)
    (t : HashMap K Unit) (key : K) :
    insertWith hasher rs (ofMap t) key
      = (HashMap.insertWith hasher rm t key ()).map (fun r => (ofMap r.1, r.2)) := by
  unfold insertWith HashMap.insertWith
  rw [set_hash]
  cases HashMap.hash hasher t key with
  | none => rfl
  | some chainIdx =>
    simp only [set_getElementByChain]
    cases HashMap.getElementByChain t chainIdx key with
    | none => rfl
    | some foundIter =>
      simp only
      by_cases hf : foundIter ≠ Iter.sentinel
      · rw [if_pos hf, if_pos hf]; rfl
      · rw [if_neg hf, if_neg hf, set_linkNew]
        cases HashMap.linkNew t chainIdx key () with
        | none => rfl
        | some t1 =>
          simp only [Option.map_some', set_size]
          have htab : (ofMap t1).table = t1.table := rfl
          have hnext : (ofMap t).next = t.next := rfl
          rw [htab, hnext]
          by_cases hload : 5 * t1.size > 4 * t1.table.length
          · rw [if_pos hload, if_pos hload, hr]
            cases rm (t1.table.length * 2) t1 with
            | ok t2 =>
              simp only [Outcome.map, set_hash, set_getElementByChain]
              cases HashMap.hash hasher t2 key with
              | none => rfl
              | some newChainIdx =>
                simp only
                cases HashMap.getElementByChain t2 newChainIdx key with
                | none => rfl
                | some newIter => rfl
            | fault => rfl
            | timeout => rfl
          · rw [if_neg hload, if_neg hload]; rfl

theorem set_rehashLoop
    (is : HashSet K → K → Outcome (HashSet K × Iter × Bool))
    (im : HashMap K Unit → K → Unit → Outcome (HashMap K Unit × Iter × Bool))
    (hi : ∀ t key, is (ofMap t) key = (im t key ()).map (fun r => (ofMap r.1, r.2)))
    (kvs : List (K × Unit)) : ∀ t : HashMap K Unit,
    rehashLoop is (kvs.map Prod.fst) (ofMap t) = (HashMap.rehashLoop im kvs t).map ofMap := by
  induction kvs with
  | nil => intro t; rfl
  | cons p ps ih =>
    intro t
    simp only [List.map_cons, rehashLoop, HashMap.rehashLoop, hi]
    cases im t p.1 () with
    | ok r => simp only [Outcome.map]; exact ih r.1
    | fault => rfl
    | timeout => rfl

theorem set_rehashWith
    (is : HashSet K → K → Outcome (HashSet K × Iter × Bool))
    (im : HashMap K Unit → K → Unit → Outcome (HashMap K Unit × Iter × Bool))
    (hi : ∀ t key, is (ofMap t) key = (im t key ()).map (fun r => (ofMap r.1, r.2)))
    (n : Nat) (t : HashMap K Unit) :
    rehashWith is n (ofMap t) = (HashMap.rehashWith im n t).map ofMap := by
  unfold rehashWith HashMap.rehashWith
  have h := set_rehashLoop is im hi (t.data.map (fun nd => (nd.key, nd.val)))
    { data := [], next := t.next, table := List.replicate n (Iter.sentinel, 0) }
  rw [← h]
  simp only [ofMap, List.map_map, List.map_nil]
  rfl

theorem set_insertFuel (hasher : K → Nat) (fuel : Nat) : ∀ (t : HashMap K Unit) (key : K),
    insertFuel hasher fuel (ofMap t) key
      = (HashMap.insertFuel hasher fuel t key ()).map (fun r => (ofMap r.1, r.2)) := by
  induction fuel with
  | zero =>
    intro t key
    exact set_insertWith hasher _ _ (fun _ _ => rfl) t key
  | succ fuel ih =>
    intro t key
    exact set_insertWith hasher _ _
      (fun n t2 => set_rehashWith _ _ ih n t2) t key

theorem set_insert (hasher : K → Nat) (t : HashMap K Unit) (key : K) :
    insert hasher (ofMap t) key
      = (HashMap.insert hasher t key ()).map (fun r => (ofMap r.1, r.2)) := by
  unfold insert HashMap.insert
  rw [set_size]
  exact set_insertFuel hasher _ t key

theorem set_erase (hasher : K → Nat) (t : HashMap K Unit) (key : K) :
    erase hasher (ofMap t) key
      = (HashMap.erase hasher t key).map (fun r => (ofMap r.1, r.2)) := by
  unfold erase HashMap.erase
  have htab : (ofMap t).table = t.table := rfl
  rw [htab]
  by_cases h0 : t.table.length = 0
  · rw [if_pos h0, if_pos h0]; rfl
  rw [if_neg h0, if_neg h0, set_hash]
  cases HashMap.hash hasher t key with
  | none => rfl
  | some chainIdx =>
    simp only [set_getElementByChain]
    cases HashMap.getElementByChain t chainIdx key with
    | none => rfl
    | some foundIt =>
      simp only
      by_cases hf : foundIt = Iter.sentinel
      · rw [if_pos hf, if_pos hf]; rfl
      · rw [if_neg hf, if_neg hf]
        cases t.table[chainIdx]? with
        | none => rfl
        | some chainInfo =>
          simp only
          by_cases hc : chainInfo.2 ≠ 0
          · rw [if_pos hc, if_pos hc]
            have := set_listErase_map t.data foundIt
            show (match listErase (t.data.map
                (fun nd => ({ id := nd.id, key := nd.key } : KeyNode K))) foundIt with
              | none => none
              | some (data1, newIter) => _) = _
            rw [this]
            cases DS.listErase t.data foundIt with
            | none => rfl
            | some r => rfl
          · rw [if_neg hc, if_neg hc]; rfl

theorem set_runOp (hasher : K → Nat) (t : HashMap K Unit) (op : Op K) :
    runOp hasher (ofMap t) op
      = (runMapOp hasher t op).map (fun r => (ofMap r.1, r.2)) := by
  cases op with
  | insert key =>
    simp only [runOp, runMapOp, set_insert]
    cases HashMap.insert hasher t key () <;> rfl
  | erase key =>
    simp only [runOp, runMapOp, set_erase]
    cases HashMap.erase hasher t key <;> rfl

theorem set_runOps (hasher : K → Nat) (ops : List (Op K)) : ∀ t : HashMap K Unit,
    runOps hasher ops (ofMap t)
      = (runMapOps hasher ops t).map (fun r => (ofMap r.1, r.2)) := by
  induction ops with
  | nil => intro t; rfl
  | cons op ops ih =>
    intro t
    simp only [runOps, runMapOps, set_runOp]
    cases runMapOp hasher t op with
    | ok r =>
      simp only [Outcome.map, ih]
      cases runMapOps hasher ops r.1 <;> rfl
    | fault => rfl
    | timeout => rfl

theorem set_construct (n : Nat) : (construct n : HashSet K) = ofMap (HashMap.construct n) := rfl

end Lemmas

/-! ## The claims about the hash set -/

section Claims

variable {K : Type} [DecidableEq K]

/-- C30 (the code departs from the claim): `HashSet::contains` and `HashSet::count` give no
result to compare with the map, because they do not compile (their chain walk reads
`iter->first` on an iterator of `std::list<K>`), while `HashMap::count` runs.  The rest of
the claim holds. For every hasher, every bucket count and every finite sequence of
`insert(k)` / `erase(k)` calls, running the sequence on a freshly constructed set gives the
outcome of running `insert(k, unit)` / `erase(k)` on a freshly constructed map with the unit
value type: the same fault or completion, the same returned iterators and inserted flags,
and a final set state that is the map state without the values. Such a set state has the
same `size()`, the same keys at the same addresses in the same store order, the same bucket
descriptors, and the same `find` result for every key. -/
theorem hashset_simulates_hashmap (hasher : K → Nat) (n : Nat) (ops : List (Op K)) :
    runOps hasher ops (construct n)
      = (runMapOps hasher ops (HashMap.construct n)).map (fun r => (ofMap r.1, r.2)) ∧
    ∀ t : HashMap K Unit,
      (ofMap t).size = t.size ∧
      (ofMap t).data.map KeyNode.key = t.data.map Node.key ∧
      (ofMap t).data.map KeyNode.id = t.data.map Node.id ∧
      (ofMap t).table = t.table ∧
      ∀ key, find hasher (ofMap t) key = HashMap.find hasher t key := by
  refine ⟨?_, ?_⟩
  · rw [set_construct]; exact set_runOps hasher ops _
  · intro t
    refine ⟨set_size t, ?_, ?_, rfl, fun key => set_find hasher t key⟩
    · simp [ofMap, List.map_map, Function.comp_def]
    · simp [ofMap, List.map_map, Function.comp_def]

/-- C30, at the calls `insert(0)`, `insert(16)`, `insert(32)`, `erase(16)` on 16 buckets
with the identity hasher: the final set state and what the four calls returned. -/
theorem hashset_simulates_hashmap_witness :
    runOps (fun k : Nat => k) [Op.insert 0, Op.insert 16, Op.insert 32, Op.erase 16]
        (construct 16)
      = Outcome.ok ({ data := [⟨2, 32⟩, ⟨0, 0⟩], next := 3,
                      table := (Iter.node 0, 2) :: List.replicate 15 (Iter.sentinel, 0) },
          [(Iter.node 0, some true), (Iter.node 1, some true), (Iter.node 2, some true),
           (Iter.node 0, none)]) ∧
    runOps (fun k : Nat => k) [Op.insert 0, Op.insert 16, Op.insert 32, Op.erase 16]
        (construct 16)
      = (runMapOps (fun k : Nat => k) [Op.insert 0, Op.insert 16, Op.insert 32, Op.erase 16]
          (HashMap.construct 16)).map (fun r => (ofMap r.1, r.2)) :=
  ⟨by decide,
    (hashset_simulates_hashmap (fun k : Nat => k) 16
      [Op.insert 0, Op.insert 16, Op.insert 32, Op.erase 16]).1⟩

end Claims

end HashSet

/-! ## Termination of `insert` and the sum of the chain lengths -/

namespace HashMap

section TerminationLemmas

set_option linter.unusedSectionVars false

variable {K V : Type} [DecidableEq K]

theorem insertPost_size {hasher : K → Nat} {t : HashMap K V} {k : K} {v : V}
    {r : HashMap K V × Iter × Bool} (post : InsertPost hasher t k v r) :
    r.1.size ≤ t.size + 1 := by
  cases hflag : r.2.2 with
  | true =>
    have h := size_of_perm (l := [(k, v)]) (post.perm hflag)
    simp only [List.length_singleton] at h
    omega
  | false =>
    rw [(post.flagF hflag).1]
    omega

theorem rehashLoop_total {hasher : K → Nat}
    (ins : HashMap K V → K → V → Outcome (HashMap K V × Iter × Bool)) (bound : Nat)
    (hins : ∀ (t : HashMap K V) (k : K) (v : V), WF hasher t →
      5 * (t.size + 1) ≤ bound * t.table.length →
      ∃ r, ins t k v = Outcome.ok r ∧ InsertPost hasher t k v r) :
    ∀ (ps : List (K × V)) (t : HashMap K V), WF hasher t →
      5 * (t.size + ps.length) ≤ bound * t.table.length →
      ∃ t2, rehashLoop ins ps t = Outcome.ok t2 ∧ WF hasher t2 := by
  intro ps
  induction ps with
  | nil => intro t wf _; exact ⟨t, rfl, wf⟩
  | cons p ps ih =>
    intro t wf hb
    simp only [List.length_cons] at hb
    obtain ⟨r, hr, post⟩ := hins t p.1 p.2 wf (by omega)
    have hsz := insertPost_size post
    have hge := post.bucketsGe
    have hmul : bound * t.table.length ≤ bound * r.1.table.length :=
      Nat.mul_le_mul_left _ hge
    obtain ⟨t2, h2, wf2⟩ := ih r.1 post.wf (by omega)
    exact ⟨t2, by simp only [rehashLoop, hr, h2], wf2⟩

theorem rehashWith_total (hasher : K → Nat) (fuel n : Nat) (t1 : HashMap K V) (hn : 1 ≤ n)
    (hb : 5 * t1.size ≤ 4 * 2 ^ fuel * n) :
    ∃ t2, rehashWith (insertFuel hasher fuel) n t1 = Outcome.ok t2 ∧ WF hasher t2 := by
  unfold rehashWith
  apply rehashLoop_total (insertFuel hasher fuel) (4 * 2 ^ fuel)
    (fun t k v wf hb2 => insertFuel_spec fuel t k v wf hb2)
  · exact wf_fresh hasher n t1.next hn
  · simp only [size, List.length_nil, List.length_map, List.length_replicate, Nat.zero_add]
    exact hb

theorem insertWith_no_timeout (hasher : K → Nat)
    (rehashFn : Nat → HashMap K V → Outcome (HashMap K V)) (t : HashMap K V) (k : K) (v : V)
    (hrh : ∀ t1 : HashMap K V, t1.size = t.size + 1 → t1.table.length = t.table.length →
      rehashFn (t1.table.length * 2) t1 ≠ Outcome.timeout) :
    insertWith hasher rehashFn t k v ≠ Outcome.timeout := by
  unfold insertWith
  cases hash hasher t k with
  | none => simp
  | some chainIdx =>
    simp only
    cases getElementByChain t chainIdx k with
    | none => simp
    | some foundIter =>
      simp only
      by_cases hf : foundIter ≠ Iter.sentinel
      · rw [if_pos hf]; simp
      · rw [if_neg hf]
        cases hl : linkNew t chainIdx k v with
        | none => simp
        | some t1 =>
          simp only
          obtain ⟨hs, hlen⟩ := linkNew_size hl
          by_cases hload : 5 * t1.size > 4 * t1.table.length
          · rw [if_pos hload]
            have := hrh t1 hs hlen
            cases hr : rehashFn (t1.table.length * 2) t1 with
            | ok t2 =>
              simp only
              cases hash hasher t2 k with
              | none => simp
              | some newChainIdx =>
                simp only
                cases getElementByChain t2 newChainIdx k <;> simp
            | fault => simp
            | timeout => exact absurd hr this
          · rw [if_neg hload]; simp

theorem insertFuel_no_timeout (hasher : K → Nat) (fuel : Nat) (t : HashMap K V) (k : K) (v : V)
    (hn : 1 ≤ t.table.length) (hb : 5 * (t.size + 1) ≤ 8 * 2 ^ fuel * t.table.length) :
    insertFuel hasher (fuel + 1) t k v ≠ Outcome.timeout := by
  show insertWith hasher (rehashWith (insertFuel hasher fuel)) t k v ≠ Outcome.timeout
  apply insertWith_no_timeout
  intro t1 hs hlen
  obtain ⟨t2, h2, _⟩ := rehashWith_total hasher fuel (t1.table.length * 2) t1
    (by omega) (by
      rw [hs, hlen]
      calc 5 * (t.size + 1) ≤ 8 * 2 ^ fuel * t.table.length := hb
        _ = 4 * 2 ^ fuel * (t.table.length * 2) := by ring)
  rw [h2]; simp

theorem insert_no_timeout (hasher : K → Nat) (t : HashMap K V) (k : K) (v : V)
    (hn : 1 ≤ t.table.length) : insert hasher t k v ≠ Outcome.timeout := by
  unfold insert
  apply insertFuel_no_timeout hasher t.size t k v hn
  have h1 : t.size + 1 ≤ 2 ^ t.size := pow_bound t.size t.size (Nat.le_refl _)
  calc 5 * (t.size + 1) ≤ 8 * 2 ^ t.size * 1 := by omega
    _ ≤ 8 * 2 ^ t.size * t.table.length := Nat.mul_le_mul_left _ hn

theorem insertWith_mono (hasher : K → Nat)
    (r1 r2 : Nat → HashMap K V → Outcome (HashMap K V))
    (h : ∀ n t, r1 n t ≠ Outcome.timeout → r2 n t = r1 n t)
    (t : HashMap K V) (k : K) (v : V)
    (hne : insertWith hasher r1 t k v ≠ Outcome.timeout) :
    insertWith hasher r2 t k v = insertWith hasher r1 t k v := by
  unfold insertWith at hne ⊢
  cases hh : hash hasher t k with
  | none => rfl
  | some chainIdx =>
    rw [hh] at hne
    simp only at hne ⊢
    cases hg : getElementByChain t chainIdx k with
    | none => rfl
    | some foundIter =>
      rw [hg] at hne
      simp only at hne ⊢
      by_cases hf : foundIter ≠ Iter.sentinel
      · rw [if_pos hf, if_pos hf]
      · rw [if_neg hf] at hne
        rw [if_neg hf, if_neg hf]
        cases hl : linkNew t chainIdx k v with
        | none => rfl
        | some t1 =>
          rw [hl] at hne
          simp only at hne ⊢
          by_cases hload : 5 * t1.size > 4 * t1.table.length
          · rw [if_pos hload] at hne
            rw [if_pos hload, if_pos hload]
            have hr : r1 (t1.table.length * 2) t1 ≠ Outcome.timeout := by
              intro hto
              rw [hto] at hne
              exact hne rfl
            rw [h _ _ hr]
          · rw [if_neg hload, if_neg hload]

theorem rehashLoop_mono
    (i1 i2 : HashMap K V → K → V → Outcome (HashMap K V × Iter × Bool))
    (h : ∀ t k v, i1 t k v ≠ Outcome.timeout → i2 t k v = i1 t k v) :
    ∀ (ps : List (K × V)) (t : HashMap K V), rehashLoop i1 ps t ≠ Outcome.timeout →
      rehashLoop i2 ps t = rehashLoop i1 ps t := by
  intro ps
  induction ps with
  | nil => intro t _; rfl
  | cons p ps ih =>
    intro t hne
    simp only [rehashLoop] at hne ⊢
    have hi : i1 t p.1 p.2 ≠ Outcome.timeout := by
      intro hto
      rw [hto] at hne
      exact hne rfl
    rw [h _ _ _ hi]
    cases hr : i1 t p.1 p.2 with
    | ok r =>
      rw [hr] at hne
      exact ih r.1 hne
    | fault => rfl
    | timeout => exact absurd hr hi

theorem insertFuel_succ (hasher : K → Nat) (fuel : Nat) : ∀ (t : HashMap K V) (k : K) (v : V),
    insertFuel hasher fuel t k v ≠ Outcome.timeout →
    insertFuel hasher (fuel + 1) t k v = insertFuel hasher fuel t k v := by
  induction fuel with
  | zero =>
    intro t k v hne
    exact insertWith_mono hasher (fun _ _ => Outcome.timeout) _
      (fun _ _ hx => absurd rfl hx) t k v hne
  | succ fuel ih =>
    intro t k v hne
    exact insertWith_mono hasher (rehashWith (insertFuel hasher fuel))
      (rehashWith (insertFuel hasher (fuel + 1)))
      (fun n t1 hx => rehashLoop_mono _ _ ih _ _ hx) t k v hne

theorem insertFuel_stable (hasher : K → Nat) (t : HashMap K V) (k : K) (v : V)
    (hn : 1 ≤ t.table.length) (extra : Nat) :
    insertFuel hasher (t.size + 1 + extra) t k v = insert hasher t k v := by
  induction extra with
  | zero => rfl
  | succ extra ih =>
    have hne : insertFuel hasher (t.size + 1 + extra) t k v ≠ Outcome.timeout := by
      rw [ih]; exact insert_no_timeout hasher t k v hn
    rw [show t.size + 1 + (extra + 1) = (t.size + 1 + extra) + 1 by omega,
      insertFuel_succ hasher _ t k v hne, ih]


theorem sum_snd_set : ∀ (l : List (Iter × Nat)) (i : Nat) (x c : Iter × Nat),
    l[i]? = some c → ((l.set i x).map Prod.snd).sum + c.2 = (l.map Prod.snd).sum + x.2 := by
  intro l
  induction l with
  | nil => intro i x c h; simp at h
  | cons y t ih =>
    intro i x c h
    cases i with
    | zero =>
      simp only [List.getElem?_cons_zero, Option.some.injEq] at h
      subst h
      simp only [List.set_cons_zero, List.map_cons, List.sum_cons]
      omega
    | succ i =>
      simp only [List.getElem?_cons_succ] at h
      have := ih i x c h
      simp only [List.set_cons_succ, List.map_cons, List.sum_cons]
      omega

theorem linkNew_sum {t t1 : HashMap K V} {b : Nat} {k : K} {v : V}
    (h : linkNew t b k v = some t1) (hs : chainSum t = t.size) : chainSum t1 = t1.size := by
  have hsz := (linkNew_size h).1
  unfold linkNew at h
  split at h
  · cases h
  · rename_i chainInfo htab
    have hsum := sum_snd_set t.table b (Iter.node t.next, chainInfo.2 + 1) chainInfo htab
    simp only [chainSum] at hs ⊢
    split at h
    · simp only [Option.some.injEq] at h
      rw [← h] at hsz ⊢
      simp only at hsz ⊢
      omega
    · simp only at h
      split at h
      · cases h
      · simp only [Option.some.injEq] at h
        rw [← h] at hsz ⊢
        simp only at hsz ⊢
        omega

theorem insertWith_sum {hasher : K → Nat}
    (rehashFn : Nat → HashMap K V → Outcome (HashMap K V))
    (hrh : ∀ m t1 t2, rehashFn m t1 = Outcome.ok t2 → chainSum t2 = t2.size)
    {t : HashMap K V} {k : K} {v : V} {r : HashMap K V × Iter × Bool}
    (hs : chainSum t = t.size) (h : insertWith hasher rehashFn t k v = Outcome.ok r) :
    chainSum r.1 = r.1.size := by
  unfold insertWith at h
  split at h
  · cases h
  · split at h
    · cases h
    · split at h
      · simp only [Outcome.ok.injEq] at h
        rw [← h]; exact hs
      · split at h
        · cases h
        · rename_i t1 hlink
          have h1 := linkNew_sum hlink hs
          split at h
          · split at h
            · rename_i t2 hr
              have h2 := hrh _ t1 t2 hr
              split at h
              · cases h
              · split at h
                · cases h
                · simp only [Outcome.ok.injEq] at h
                  rw [← h]; exact h2
            · cases h
            · cases h
          · simp only [Outcome.ok.injEq] at h
            rw [← h]; exact h1

theorem rehashLoop_sum (ins : HashMap K V → K → V → Outcome (HashMap K V × Iter × Bool))
    (hins : ∀ t k v r, chainSum t = t.size → ins t k v = Outcome.ok r →
      chainSum r.1 = r.1.size) :
    ∀ (ps : List (K × V)) (t t2 : HashMap K V), chainSum t = t.size →
      rehashLoop ins ps t = Outcome.ok t2 → chainSum t2 = t2.size := by
  intro ps
  induction ps with
  | nil =>
    intro t t2 hs h
    simp only [rehashLoop, Outcome.ok.injEq] at h
    rw [← h]; exact hs
  | cons p ps ih =>
    intro t t2 hs h
    simp only [rehashLoop] at h
    split at h
    · rename_i r hr
      exact ih r.1 t2 (hins _ _ _ _ hs hr) h
    · cases h
    · cases h

theorem rehashWith_sum (ins : HashMap K V → K → V → Outcome (HashMap K V × Iter × Bool))
    (hins : ∀ t k v r, chainSum t = t.size → ins t k v = Outcome.ok r →
      chainSum r.1 = r.1.size)
    (m : Nat) (t1 t2 : HashMap K V) (h : rehashWith ins m t1 = Outcome.ok t2) :
    chainSum t2 = t2.size := by
  unfold rehashWith at h
  refine rehashLoop_sum ins hins _ _ t2 ?_ h
  simp [chainSum, size]

theorem insertFuel_sum {hasher : K → Nat} (fuel : Nat) :
    ∀ (t : HashMap K V) (k : K) (v : V) (r : HashMap K V × Iter × Bool),
      chainSum t = t.size → insertFuel hasher fuel t k v = Outcome.ok r →
      chainSum r.1 = r.1.size := by
  induction fuel with
  | zero =>
    intro t k v r hs h
    exact insertWith_sum _ (fun _ _ _ hx => by cases hx) hs h
  | succ fuel ih =>
    intro t k v r hs h
    exact insertWith_sum _ (fun m t1 t2 hx => rehashWith_sum _ ih m t1 t2 hx) hs h

theorem getElementByChain_nonzero {t : HashMap K V} {b : Nat} {k : K} {found : Iter}
    {chainInfo : Iter × Nat} (hg : getElementByChain t b k = some found)
    (hne : found ≠ Iter.sentinel) (htab : t.table[b]? = some chainInfo) : chainInfo.2 ≠ 0 := by
  intro h0
  unfold getElementByChain at hg
  rw [htab] at hg
  simp only [h0, if_true, Option.some.injEq] at hg
  exact hne hg.symm

theorem erase_sum {hasher : K → Nat} {t : HashMap K V} {k : K} {r : HashMap K V × Iter}
    (hs : chainSum t = t.size) (h : erase hasher t k = some r) : chainSum r.1 = r.1.size := by
  unfold erase at h
  split at h
  · simp only [Option.some.injEq] at h
    rw [← h]; exact hs
  · split at h
    · cases h
    · split at h
      · cases h
      · rename_i foundIt hg
        split at h
        · simp only [Option.some.injEq] at h
          rw [← h]; exact hs
        · rename_i hne
          split at h
          · cases h
          · rename_i chainInfo htab
            have hnz := getElementByChain_nonzero hg hne htab
            split at h
            · split at h
              · cases h
              · rename_i data1 newIter he
                simp only [Option.some.injEq] at h
                have hlen := listErase_length he
                have hsum := sum_snd_set t.table _ (newIter, chainInfo.2 - 1) chainInfo htab
                rw [← h]
                simp only [chainSum, size] at hs ⊢
                omega
            · rename_i hz
              exact absurd hz (by simpa using hnz)

theorem runOps_sum [Inhabited V] (hasher : K → Nat) (ops : List (Op K V)) :
    ∀ (t : HashMap K V), (∀ op ∈ ops, Op.insertOrErase op = true) → LoadOk t →
      chainSum t = t.size →
      runOps hasher ops t ≠ Outcome.timeout ∧
      ∀ t2, runOps hasher ops t = Outcome.ok t2 → chainSum t2 = t2.size ∧ LoadOk t2 := by
  induction ops with
  | nil =>
    intro t _ hl hs
    refine ⟨by simp [runOps], ?_⟩
    intro t2 h
    simp only [runOps, Outcome.ok.injEq] at h
    rw [← h]; exact ⟨hs, hl⟩
  | cons op ops ih =>
    intro t hops hl hs
    have hops2 : ∀ o ∈ ops, Op.insertOrErase o = true :=
      fun o ho => hops o (List.mem_cons_of_mem op ho)
    have hop := hops op (List.mem_cons_self op ops)
    have hstep : runOp hasher t op ≠ Outcome.timeout ∧
        ∀ t1, runOp hasher t op = Outcome.ok t1 → chainSum t1 = t1.size ∧ LoadOk t1 := by
      cases op with
      | insert key value =>
        have hnt := insert_no_timeout hasher t key value hl.1
        simp only [runOp]
        cases hr : insert hasher t key value with
        | ok r =>
          refine ⟨by simp, ?_⟩
          intro t1 h1
          simp only [Outcome.ok.injEq] at h1
          rw [← h1]
          exact ⟨insertFuel_sum _ t key value r hs hr, insertFuel_load _ t key value r hl hr⟩
        | fault => exact ⟨by simp, fun t1 h1 => by cases h1⟩
        | timeout => exact absurd hr hnt
      | erase key =>
        simp only [runOp]
        cases hr : erase hasher t key with
        | some r =>
          refine ⟨by simp, ?_⟩
          intro t1 h1
          simp only [Outcome.ok.injEq] at h1
          rw [← h1]
          exact ⟨erase_sum hs hr, erase_load hl hr⟩
        | none => exact ⟨by simp, fun t1 h1 => by cases h1⟩
      | subscript key => cases hop
    simp only [runOps]
    cases hr : runOp hasher t op with
    | ok t1 =>
      obtain ⟨hs1, hl1⟩ := hstep.2 t1 hr
      exact ih t1 hops2 hl1 hs1
    | fault => exact ⟨by simp, fun t2 h2 => by cases h2⟩
    | timeout => exact absurd hr hstep.1

end TerminationLemmas

section TerminationClaims

variable {K V : Type} [DecidableEq K]

/-- C32: the chain lengths sum to the size. For every bucket count `n ≥ 1` and every
finite sequence of `insert` and `erase` calls on the constructed table, the run does not
run out of recursion budget, and in the state it reaches the sum of `chainLength` over all
bucket descriptors equals `size()`. -/
theorem chain_lengths_sum_to_size [Inhabited V] (hasher : K → Nat) (n : Nat) (hn : 1 ≤ n)
    (ops : List (Op K V)) (hops : ∀ op ∈ ops, Op.insertOrErase op = true) :
    runOps hasher ops (construct n) ≠ Outcome.timeout ∧
    ∀ t, runOps hasher ops (construct n) = Outcome.ok t → chainSum t = t.size := by
  have h := runOps_sum hasher ops (construct n) hops
    ⟨by simpa [construct] using hn, by simp [construct, size]⟩
    (by simp [chainSum, construct, size])
  exact ⟨h.1, fun t ht => (h.2 t ht).1⟩

/-- C32, at `insert(0)`, `insert(16)`, `insert(32)`, `erase(16)` on 16 buckets: the run
reaches the table with two records and bucket 0 of length 2. -/
theorem chain_lengths_sum_to_size_witness :
    1 ≤ 16 ∧
    (∀ op ∈ [Op.insert 0 100, Op.insert 16 116, Op.insert 32 132, (Op.erase 16 : Op Nat Nat)],
      Op.insertOrErase op = true) ∧
    runOps (fun k : Nat => k)
      [Op.insert 0 100, Op.insert 16 116, Op.insert 32 132, Op.erase 16] (construct 16)
      = Outcome.ok afterErase16 ∧
    chainSum afterErase16 = 2 ∧ afterErase16.size = 2 ∧
    (runOps (fun k : Nat => k)
        [Op.insert 0 100, Op.insert 16 116, Op.insert 32 132, Op.erase 16] (construct 16)
        ≠ Outcome.timeout ∧
      ∀ t, runOps (fun k : Nat => k)
        [Op.insert 0 100, Op.insert 16 116, Op.insert 32 132, Op.erase 16] (construct 16)
        = Outcome.ok t → chainSum t = t.size) :=
  ⟨by decide, by decide, by decide, by decide, by decide,
    chain_lengths_sum_to_size (fun k : Nat => k) 16 (by decide)
      [Op.insert 0 100, Op.insert 16 116, Op.insert 32 132, Op.erase 16] (by decide)⟩

/-- C33: `insert` terminates on every table with at least one bucket. Whatever the records
and the bucket descriptors are, `insert(k, v)` does not use up the recursion budget
`size + 1` for nested `rehash` calls, and any larger budget gives the same result: the
recursion `insert → rehash → insert` ends. On a table that satisfies the invariants the
call returns. -/
theorem insert_terminates (hasher : K → Nat) (t : HashMap K V) (hn : 1 ≤ t.table.length)
    (k : K) (v : V) :
    insert hasher t k v ≠ Outcome.timeout ∧
    (∀ extra, insertFuel hasher (t.size + 1 + extra) t k v = insert hasher t k v) ∧
    (WF hasher t → ∃ r, insert hasher t k v = Outcome.ok r) :=
  ⟨insert_no_timeout hasher t k v hn, fun extra => insertFuel_stable hasher t k v hn extra,
    fun wf => (insert_spec wf k v).imp (fun _ h => h.1)⟩

/-- C33, at `insert(48, 148)` on the table left by `erase(16)`, whose bucket descriptors
do not satisfy the invariants. -/
theorem insert_terminates_witness :
    1 ≤ afterErase16.table.length ∧
    (insert (fun k : Nat => k) afterErase16 48 148 ≠ Outcome.timeout ∧
      (∀ extra, insertFuel (fun k : Nat => k) (afterErase16.size + 1 + extra) afterErase16 48 148
        = insert (fun k : Nat => k) afterErase16 48 148) ∧
      (WF (fun k : Nat => k) afterErase16 →
        ∃ r, insert (fun k : Nat => k) afterErase16 48 148 = Outcome.ok r)) :=
  ⟨by decide, insert_terminates (fun k : Nat => k) afterErase16 (by decide) 48 148⟩

end TerminationClaims

end HashMap

/-! ## The heap invariant and the contents of the priority queue -/

namespace PriorityQueue

section PermLemmas

variable {T : Type}

theorem set_perm_cons {x b : T} : ∀ (xs : List T) (j : Nat), xs[j]? = some b →
    (b :: xs.set j x).Perm (x :: xs) := by
  intro xs
  induction xs with
  | nil => intro j h; simp at h
  | cons y t ih =>
    intro j h
    cases j with
    | zero =>
      simp only [List.getElem?_cons_zero, Option.some.injEq] at h
      subst h
      exact List.Perm.swap x y t
    | succ j =>
      simp only [List.getElem?_cons_succ] at h
      simp only [List.set_cons_succ]
      exact (List.Perm.swap y b _).trans (((ih j h).cons y).trans (List.Perm.swap x y t))

theorem swap_perm : ∀ (cs : List T) (i j : Nat) (a b : T), cs[i]? = some a → cs[j]? = some b →
    ((cs.set i b).set j a).Perm cs := by
  intro cs
  induction cs with
  | nil => intro i j a b h; simp at h
  | cons x xs ih =>
    intro i j a b hi hj
    cases i with
    | zero =>
      simp only [List.getElem?_cons_zero, Option.some.injEq] at hi
      subst hi
      cases j with
      | zero =>
        simp only [List.getElem?_cons_zero, Option.some.injEq] at hj
        subst hj
        simp
      | succ j =>
        simp only [List.getElem?_cons_succ] at hj
        simp only [List.set_cons_zero, List.set_cons_succ]
        exact set_perm_cons xs j hj
    | succ i =>
      simp only [List.getElem?_cons_succ] at hi
      cases j with
      | zero =>
        simp only [List.getElem?_cons_zero, Option.some.injEq] at hj
        subst hj
        simp only [List.set_cons_zero, List.set_cons_succ]
        exact set_perm_cons xs i hi
      | succ j =>
        simp only [List.getElem?_cons_succ] at hj
        simp only [List.set_cons_succ]
        exact (ih i j a b hi hj).cons x

theorem sift_upFuel_perm (compare : T → T → Bool) (fuel : Nat) :
    ∀ (cs : List T) (i : Nat), i ≤ fuel → i < cs.length →
      ∃ cs2, sift_upFuel compare fuel cs i = Outcome.ok cs2 ∧ cs2.Perm cs := by
  induction fuel with
  | zero =>
    intro cs i hi _
    have h0 : i = 0 := by omega
    subst h0
    exact ⟨cs, by simp [sift_upFuel], List.Perm.refl cs⟩
  | succ fuel ih =>
    intro cs i hi hlt
    by_cases h0 : i = 0
    · subst h0
      exact ⟨cs, by simp [sift_upFuel], List.Perm.refl cs⟩
    obtain ⟨x, hx⟩ := getElem?_of_lt cs hlt
    obtain ⟨p, hp⟩ := getElem?_of_lt cs (show (i - 1) / 2 < cs.length by omega)
    by_cases hc : compare p x = true
    · obtain ⟨cs2, h1, h2⟩ := ih ((cs.set ((i - 1) / 2) x).set i p) ((i - 1) / 2)
        (by omega) (by simp only [List.length_set]; omega)
      refine ⟨cs2, ?_, h2.trans (swap_perm cs ((i - 1) / 2) i p x hp hx)⟩
      simp only [sift_upFuel, ne_eq, h0, not_false_eq_true, if_true, hp, hx, hc, h1]
    · refine ⟨cs, ?_, List.Perm.refl cs⟩
      simp only [sift_upFuel, ne_eq, h0, not_false_eq_true, if_true, hp, hx, hc]
      simp

theorem pick_cases (compare : T → T → Bool) (cs : List T) (index cand : Nat)
    (hi : index < cs.length) :
    ∃ r, pick compare cs index cand = some r ∧ (r = index ∨ (r = cand ∧ cand < cs.length)) := by
  by_cases hc : cand < cs.length
  · obtain ⟨a, ha⟩ := getElem?_of_lt cs hi
    obtain ⟨b, hb⟩ := getElem?_of_lt cs hc
    rw [pick_lt ha hb]
    by_cases hab : compare a b = true
    · exact ⟨cand, by simp [hab], Or.inr ⟨rfl, hc⟩⟩
    · exact ⟨index, by simp [hab], Or.inl rfl⟩
  · exact ⟨index, pick_ge (by omega), Or.inl rfl⟩

theorem sift_downFuel_perm (compare : T → T → Bool) (fuel : Nat) :
    ∀ (cs : List T) (i : Nat), cs.length - i ≤ fuel → i < cs.length →
      ∃ cs2, sift_downFuel compare fuel cs i = Outcome.ok cs2 ∧ cs2.Perm cs := by
  induction fuel with
  | zero =>
    intro cs i hf hi
    omega
  | succ fuel ih =>
    intro cs i hf hi
    obtain ⟨r1, hr1, hc1⟩ := pick_cases compare cs i (2 * i + 1) hi
    have hr1lt : r1 < cs.length := by rcases hc1 with h | ⟨h, h2⟩ <;> omega
    obtain ⟨r2, hr2, hc2⟩ := pick_cases compare cs r1 (2 * i + 2) hr1lt
    have hr2lt : r2 < cs.length := by rcases hc2 with h | ⟨h, h2⟩ <;> omega
    have hr2ge : i = r2 ∨ i < r2 := by
      rcases hc1 with h | ⟨h, _⟩ <;> rcases hc2 with h2 | ⟨h2, _⟩ <;> omega
    by_cases hne : r2 = i
    · refine ⟨cs, ?_, List.Perm.refl cs⟩
      simp only [sift_downFuel, hr1, hr2, hne]
      simp
    · obtain ⟨a, ha⟩ := getElem?_of_lt cs hr2lt
      obtain ⟨b, hb⟩ := getElem?_of_lt cs hi
      have hsw := swapAt_eq ha hb
      obtain ⟨cs2, h1, h2⟩ := ih ((cs.set r2 b).set i a) r2
        (by simp only [List.length_set]; omega) (by simp only [List.length_set]; omega)
      refine ⟨cs2, ?_, h2.trans (swap_perm cs r2 i a b ha hb)⟩
      simp only [sift_downFuel, hr1, hr2, ne_eq, hne, not_false_eq_true, if_true, hsw, h1]

theorem push_perm (compare : T → T → Bool) (q : PriorityQueue T) (val : T) :
    ∃ q2, push compare q val = Outcome.ok q2 ∧ q2.container.Perm (val :: q.container) := by
  obtain ⟨cs2, h1, h2⟩ := sift_upFuel_perm compare ((q.container ++ [val]).length - 1)
    (q.container ++ [val]) ((q.container ++ [val]).length - 1) (Nat.le_refl _) (by simp)
  refine ⟨PriorityQueue.mk cs2, ?_, h2.trans ?_⟩
  · unfold push sift_up
    rw [h1]; rfl
  · exact List.perm_append_comm

theorem pop_perm (compare : T → T → Bool) (q : PriorityQueue T) (hne : q.empty = false) :
    ∃ a q2, top q = some a ∧ pop compare q = Outcome.ok q2 ∧
      q.container.Perm (a :: q2.container) := by
  have hlen : 0 < q.container.length := by
    simp only [empty, size, beq_eq_false_iff_ne, ne_eq] at hne
    omega
  obtain ⟨a, ha⟩ := getElem?_of_lt q.container hlen
  obtain ⟨b, hb⟩ := getElem?_of_lt q.container (show q.container.length - 1 < q.container.length by omega)
  have hsw := swapAt_eq ha hb
  have hperm := swap_perm q.container 0 (q.container.length - 1) a b ha hb
  have hlast : ((q.container.set 0 b).set (q.container.length - 1) a)[q.container.length - 1]?
      = some a := getElem?_swap_snd hb
  have hsplit : (q.container.set 0 b).set (q.container.length - 1) a
      = ((q.container.set 0 b).set (q.container.length - 1) a).dropLast ++ [a] := by
    have hl : ((q.container.set 0 b).set (q.container.length - 1) a).getLast? = some a := by
      rw [List.getLast?_eq_getElem?]
      simp only [List.length_set]
      exact hlast
    exact (List.dropLast_append_getLast? a hl).symm
  have hperm2 : q.container.Perm
      (a :: ((q.container.set 0 b).set (q.container.length - 1) a).dropLast) := by
    refine hperm.symm.trans ?_
    rw [hsplit]
    simp only [List.dropLast_concat]
    exact List.perm_append_comm
  have htop : top q = some a := by
    unfold top
    rw [List.head?_eq_getElem?]; exact ha
  by_cases hd : ((q.container.set 0 b).set (q.container.length - 1) a).dropLast = []
  · refine ⟨a, PriorityQueue.mk [], htop, ?_, by rw [hd] at hperm2; exact hperm2⟩
    unfold pop
    rw [hne]
    simp only [hsw, hd]
    rfl
  · have hdl : 0 < ((q.container.set 0 b).set (q.container.length - 1) a).dropLast.length :=
      List.length_pos.mpr hd
    obtain ⟨cs2, h1, h2⟩ := sift_downFuel_perm compare
      (((q.container.set 0 b).set (q.container.length - 1) a).dropLast.length - 0)
      ((q.container.set 0 b).set (q.container.length - 1) a).dropLast 0 (Nat.le_refl _) hdl
    refine ⟨a, PriorityQueue.mk cs2, htop, ?_, hperm2.trans ((h2.symm).cons a)⟩
    have he : (PriorityQueue.mk ((q.container.set 0 b).set (q.container.length - 1) a).dropLast).empty
        = false := by
      simp only [empty, size, beq_eq_false_iff_ne, ne_eq]
      omega
    unfold pop
    rw [hne]
    simp only [hsw, he, sift_down, h1]
    rfl

theorem pop_empty (compare : T → T → Bool) (q : PriorityQueue T) (he : q.empty = true) :
    pop compare q = Outcome.ok q := by
  unfold pop
  rw [he]; rfl

theorem sift_up_restores {compare : T → T → Bool} (swo : StrictWeakOrder compare)
    (q : PriorityQueue T) (val : T) (hq : IsHeap compare q.container) :
    ∃ cs2, sift_up compare (q.container ++ [val]) ((q.container ++ [val]).length - 1)
        = Outcome.ok cs2 ∧ IsHeap compare cs2 ∧ push compare q val = Outcome.ok (PriorityQueue.mk cs2) := by
  obtain ⟨q2, h1, h2, _⟩ := push_spec swo q val hq
  unfold push at h1
  cases hs : sift_up compare (q.container ++ [val]) ((q.container ++ [val]).length - 1) with
  | ok cs2 =>
    rw [hs] at h1
    simp only [Outcome.map, Outcome.ok.injEq] at h1
    refine ⟨cs2, rfl, by rw [← h1] at h2; exact h2, ?_⟩
    unfold push
    rw [hs]; rfl
  | fault => rw [hs] at h1; cases h1
  | timeout => rw [hs] at h1; cases h1

theorem sift_down_restores {compare : T → T → Bool} (swo : StrictWeakOrder compare)
    (q : PriorityQueue T) (hq : IsHeap compare q.container) (hlen : 2 ≤ q.container.length) :
    ∃ cs1 cs2, swapAt q.container 0 (q.container.length - 1) = some cs1 ∧
      sift_down compare cs1.dropLast 0 = Outcome.ok cs2 ∧ IsHeap compare cs2 ∧
      pop compare q = Outcome.ok (PriorityQueue.mk cs2) := by
  obtain ⟨q2, h1, h2, _⟩ := pop_spec swo q hq
  obtain ⟨a, ha⟩ := getElem?_of_lt q.container (show 0 < q.container.length by omega)
  obtain ⟨b, hb⟩ := getElem?_of_lt q.container
    (show q.container.length - 1 < q.container.length by omega)
  have hsw := swapAt_eq ha hb
  have hne : q.empty = false := by
    simp only [empty, size, beq_eq_false_iff_ne, ne_eq]; omega
  have he : (PriorityQueue.mk ((q.container.set 0 b).set (q.container.length - 1) a).dropLast).empty
      = false := by
    simp only [empty, size, beq_eq_false_iff_ne, ne_eq, List.length_dropLast, List.length_set]
    omega
  have hpop : pop compare q = (sift_down compare
      ((q.container.set 0 b).set (q.container.length - 1) a).dropLast 0).map PriorityQueue.mk := by
    unfold pop
    rw [hne]
    simp only [hsw, he]
    rfl
  rw [hpop] at h1
  cases hs : sift_down compare
      ((q.container.set 0 b).set (q.container.length - 1) a).dropLast 0 with
  | ok cs2 =>
    rw [hs] at h1
    simp only [Outcome.map, Outcome.ok.injEq] at h1
    refine ⟨_, cs2, hsw, hs, by rw [← h1] at h2; exact h2, ?_⟩
    rw [hpop, hs]; rfl
  | fault => rw [hs] at h1; cases h1
  | timeout => rw [hs] at h1; cases h1

end PermLemmas

section HeapClaims

variable {T : Type}

/-- C31: the heap invariant. For a comparator that is a strict weak order, every sequence
of `push` and `pop` calls on the empty queue returns a queue whose array is a binary
max-heap (`IsHeap`: for no index `i ≥ 1` is the element at `(i - 1) / 2` smaller than the
element at `i`). On a heap, `sift_up` from the last index after appending an element
returns a heap, which is the result of `push`; and on a heap with at least two elements,
`sift_down(0)` after swapping the root with the last element and removing it returns a
heap, which is the result of `pop`. -/
theorem heap_invariant_reachable (compare : T → T → Bool) (swo : StrictWeakOrder compare) :
    (∀ ops : List (Op T), ∃ q, runOps compare ops (PriorityQueue.mk []) = Outcome.ok q ∧
      IsHeap compare q.container) ∧
    (∀ (q : PriorityQueue T) (val : T), IsHeap compare q.container →
      ∃ cs2, sift_up compare (q.container ++ [val]) ((q.container ++ [val]).length - 1)
          = Outcome.ok cs2 ∧ IsHeap compare cs2 ∧
        push compare q val = Outcome.ok (PriorityQueue.mk cs2)) ∧
    (∀ q : PriorityQueue T, IsHeap compare q.container → 2 ≤ q.container.length →
      ∃ cs1 cs2, swapAt q.container 0 (q.container.length - 1) = some cs1 ∧
        sift_down compare cs1.dropLast 0 = Outcome.ok cs2 ∧ IsHeap compare cs2 ∧
        pop compare q = Outcome.ok (PriorityQueue.mk cs2)) :=
  ⟨fun ops => runOps_heap swo ops (PriorityQueue.mk []) (isHeap_nil compare),
    fun q val hq => sift_up_restores swo q val hq,
    fun q hq hlen => sift_down_restores swo q hq hlen⟩

/-- C31, at `std::less` on numbers and the calls `push(3)`, `push(1)`, `push(4)`,
`push(1)`, `push(5)`, `pop()`. -/
theorem heap_invariant_reachable_witness :
    StrictWeakOrder natLess ∧
    runOps natLess [Op.push 3, Op.push 1, Op.push 4, Op.push 1, Op.push 5, Op.pop]
      (PriorityQueue.mk []) = Outcome.ok (PriorityQueue.mk [4, 1, 3, 1]) ∧
    ∃ q, runOps natLess [Op.push 3, Op.push 1, Op.push 4, Op.push 1, Op.push 5, Op.pop]
        (PriorityQueue.mk []) = Outcome.ok q ∧ IsHeap natLess q.container :=
  ⟨natLess_swo, by decide,
    (heap_invariant_reachable natLess natLess_swo).1
      [Op.push 3, Op.push 1, Op.push 4, Op.push 1, Op.push 5, Op.pop]⟩

/-- C34: `push` and `pop` change the contents by exactly one element. For every
comparator and every queue: `push(x)` returns and the multiset of stored elements is the
old one plus `x`; `pop()` on a non-empty queue returns and the old multiset is the new one
plus the element `top()` returned before the call; `pop()` on an empty queue returns the
queue unchanged. -/
theorem push_pop_multiset (compare : T → T → Bool) (q : PriorityQueue T) :
    (∀ val, ∃ q2, push compare q val = Outcome.ok q2 ∧
      Multiset.ofList q2.container = Multiset.cons val (Multiset.ofList q.container)) ∧
    (q.empty = false → ∃ a q2, top q = some a ∧ pop compare q = Outcome.ok q2 ∧
      Multiset.ofList q.container = Multiset.cons a (Multiset.ofList q2.container)) ∧
    (q.empty = true → pop compare q = Outcome.ok q) := by
  refine ⟨?_, ?_, fun he => pop_empty compare q he⟩
  · intro val
    obtain ⟨q2, h1, h2⟩ := push_perm compare q val
    exact ⟨q2, h1, Quotient.sound h2⟩
  · intro hne
    obtain ⟨a, q2, h0, h1, h2⟩ := pop_perm compare q hne
    exact ⟨a, q2, h0, h1, Quotient.sound h2⟩

/-- C34, at the queue with the array `[5, 3, 4, 1]` and `std::less` on numbers. -/
theorem push_pop_multiset_witness :
    push natLess (PriorityQueue.mk [5, 3, 4, 1]) 7 = Outcome.ok (PriorityQueue.mk [7, 5, 4, 1, 3]) ∧
    top (PriorityQueue.mk [5, 3, 4, 1]) = some 5 ∧
    pop natLess (PriorityQueue.mk [5, 3, 4, 1]) = Outcome.ok (PriorityQueue.mk [4, 3, 1]) ∧
    ((∀ val, ∃ q2, push natLess (PriorityQueue.mk [5, 3, 4, 1]) val = Outcome.ok q2 ∧
        Multiset.ofList q2.container
          = Multiset.cons val (Multiset.ofList (PriorityQueue.mk [5, 3, 4, 1]).container)) ∧
      ((PriorityQueue.mk [5, 3, 4, 1]).empty = false →
        ∃ a q2, top (PriorityQueue.mk [5, 3, 4, 1]) = some a ∧
          pop natLess (PriorityQueue.mk [5, 3, 4, 1]) = Outcome.ok q2 ∧
          Multiset.ofList (PriorityQueue.mk [5, 3, 4, 1]).container
            = Multiset.cons a (Multiset.ofList q2.container)) ∧
      ((PriorityQueue.mk [5, 3, 4, 1]).empty = true →
        pop natLess (PriorityQueue.mk [5, 3, 4, 1]) = Outcome.ok (PriorityQueue.mk [5, 3, 4, 1]))) :=
  ⟨by decide, by decide, by decide, push_pop_multiset natLess (PriorityQueue.mk [5, 3, 4, 1])⟩

end HeapClaims

end PriorityQueue

/-! ## Further claims about the array containers and the linked lists -/

namespace Vector

section CapacityClaims

/-- C36: `pop_back` does not keep `size ≤ capacity`. The vector `[1, 2, 3, 4]` built by four
`emplace_back` calls has size and capacity 4. `pop_back` destroys the last element (size
3), finds `size * 4 >= capacity && capacity > 1` true and calls
`resize(calculateCapacity(false))`, i.e. `resize(2)`: the loop of `resize` moves three
elements into a buffer of two slots, a write outside the allocation, after which
`capacity` would be 2 with size 3. -/
theorem pop_back_shrinks_below_size :
    (((emplace_back (construct : Vector Nat) 1).bind (fun v => emplace_back v 2)).bind
      (fun v => emplace_back v 3)).bind (fun v => emplace_back v 4) = some four ∧
    four.size = 4 ∧ four.capacity = 4 ∧
    writeSlot four.data (four.size - 1) none = some fourDestroyed.data ∧
    ((four.size - 1) * 4 ≥ four.capacity ∧ four.capacity > 1) ∧
    calculateCapacity fourDestroyed false = 2 ∧
    calculateCapacity fourDestroyed false < fourDestroyed.size ∧
    resize fourDestroyed 2 = none ∧
    pop_back four = none := by
  refine ⟨?_, ?_, ?_, ?_, ?_, ?_, ?_, ?_, ?_⟩ <;> decide

/-- C37: `getCapacity` returns `size`, not `capacity`. After three `emplace_back` calls on
the default-constructed vector the field `capacity` is 4 and `getSize()` is 3, and
`getCapacity()` is 3. -/
theorem getCapacity_returns_size :
    ((emplace_back (construct : Vector Nat) 1).bind (fun v => emplace_back v 2)).bind
      (fun v => emplace_back v 3) = some abc ∧
    abc.capacity = 4 ∧ getSize abc = 3 ∧ getCapacity abc = 3 ∧
    ∀ v : Vector Nat, getCapacity v = getSize v := by
  refine ⟨by decide, by decide, by decide, by decide, fun _ => rfl⟩

end CapacityClaims

end Vector

namespace Deque

section ConstructorClaims

/-- C35: the constructors `Deque(n)` and `Deque(n, val)` do not establish
`tail = (head + size) mod capacity`. `Deque(3, 7)` has `tail = 2` where the invariant
asks for 0. `back()` reads slot 1, not slot 2 of the last element. `pop_back()` destroys
slot 1, the middle element, so that `operator[](1)` (index `size - 1`) then reads a
destroyed object. `push_back(9)` puts 9 into slot 1: afterwards `back()` is 9 while
`operator[](2)` is 7. After `pop_front()` instead, `push_back(9)` constructs into slot 2,
which holds the live element of index 1. -/
theorem fill_constructor_breaks_invariant :
    (constructFill 3 7 : Deque Nat) = fill3 ∧ (constructN 3 : Deque Nat).tail = 2 ∧
    fill3.tail = 2 ∧ (fill3.head + fill3.size) % fill3.capacity = 0 ∧
    back fill3 = readSlot fill3.data 1 ∧
    pop_back fill3 = some fill3Pop ∧
    get fill3Pop (fill3Pop.size - 1) = none ∧
    push_back fill3Pop (Ref.object 9) = some fill3PopPush ∧
    back fill3PopPush = some 9 ∧
    get fill3PopPush (fill3PopPush.size - 1) = some 7 ∧
    pop_front fill3 = some fill3PopFront ∧
    get fill3PopFront 1 = some 7 ∧
    fill3PopFront.data[fill3PopFront.tail]? = some (some 7) ∧
    push_back fill3PopFront (Ref.object 9) = some fill3PopFrontPush ∧
    get fill3PopFrontPush 1 = some 9 := by
  refine ⟨?_, ?_, ?_, ?_, ?_, ?_, ?_, ?_, ?_, ?_, ?_, ?_, ?_, ?_, ?_⟩ <;> decide

end ConstructorClaims

end Deque

namespace Queue

section CopyClaims

/-- C38: `copyFrom` copies nothing from a full queue. The queue after a single `push(1)`
has size and capacity 1 and `get = put = 0`; the loop of `copyFrom` runs while
`i != other.put`, so it does not run at all: the copy has size 1 and one raw slot, and
`front()` on it reads an object that was never constructed, while `front()` of the source
is 1. A queue that is not full (three elements, capacity 4) is copied as it is. -/
theorem copy_of_full_queue_is_empty :
    runOps false [Op.push 1] (construct : Queue Nat) = some one ∧
    one.size = one.capacity ∧ one.get = one.put ∧
    copyFrom one = Outcome.ok { data := [none], size := 1, capacity := 1, get := 0, put := 0 } ∧
    front one = some 1 ∧
    front ({ data := [none], size := 1, capacity := 1, get := 0, put := 0 } : Queue Nat) = none ∧
    runOps false [Op.push 1, Op.push 2, Op.push 3] (construct : Queue Nat) = some three ∧
    copyFrom three = Outcome.ok three := by
  refine ⟨?_, ?_, ?_, ?_, ?_, ?_, ?_, ?_⟩ <;> decide

end CopyClaims

end Queue

namespace LinkedList

section ReturnClaims

/-- C39: `insert` at `end()` of a non-empty list returns `end()`, not the new record. On
the list `10, 20, 30`, `insert(end(), 9)` appends the record at address 3 (it is the new
tail and holds 9) and returns `end()`, which designates no record, so dereferencing the
returned handle is undefined. `insert` before the record 20 returns the handle of the
new record. -/
theorem insert_at_end_returns_end :
    threeNodes.endIt = none ∧
    (insert threeNodes threeNodes.endIt 9).map Prod.snd = some none ∧
    (insert threeNodes threeNodes.endIt 9).map (fun r => r.1.tail) = some (some 3) ∧
    (insert threeNodes threeNodes.endIt 9).map (fun r => readNode r.1.heap (some 3))
      = some (some ⟨9, some 2, none⟩) ∧
    (insert threeNodes threeNodes.endIt 9).map (fun r => readNode r.1.heap r.2) = some none ∧
    (insert threeNodes (some 1) 9).map Prod.snd = some (some 3) ∧
    (insert threeNodes (some 1) 9).map (fun r => readNode r.1.heap r.2)
      = some (some ⟨9, some 0, some 1⟩) := by
  refine ⟨?_, ?_, ?_, ?_, ?_, ?_, ?_⟩ <;> decide

end ReturnClaims

end LinkedList

namespace ForwardLinkedList

section CopyClaims

/-- C40: `copyFrom` copies the first element once per source element. The list `1, 2, 3`
is built by three `push_back` calls; `copyFrom` on an empty list runs `push_back
(other.head->val)` for every node of the source, so the copy has size 3 and the values
`1, 1, 1`. -/
theorem copy_repeats_first_element :
    ((push_back [] (construct : ForwardLinkedList Nat) 1).bind
      (fun r => push_back r.1 r.2 2)).bind (fun r => push_back r.1 r.2 3)
      = some (heap123, list123) ∧
    values heap123 list123 = some [1, 2, 3] ∧
    copyFrom heap123 construct list123 = Outcome.ok (heapCopy, listCopy) ∧
    listCopy.getSize = 3 ∧
    values heapCopy listCopy = some [1, 1, 1] ∧
    values heapCopy list123 = some [1, 2, 3] := by
  refine ⟨?_, ?_, ?_, ?_, ?_, ?_⟩ <;> decide

end CopyClaims

end ForwardLinkedList

end DS
